import Mathlib

/-!
The file `parseTree.c`: a recursive-descent expression parser and a tree evaluator.

A shallow embedding of `src/parseTree.c`.

Modelling conventions.

* A C string is the list of its characters; reading the character under a
  pointer that stands at the end of the list yields the terminator `NUL`.
  The cursor `Str` is the still unread suffix of `Start_str`, so the pointer
  difference `Str - Start_str` is `Start_str.length - Str.length`.
* `long double` is idealised as the exact rationals `ℚ`: rounding, infinities and
  NaN are not modelled.  The `<math.h>` functions whose values are not rational
  (`pow`, `sin`, `cos`, `tan`, `exp`, `log10`, `log`, `sqrt`) are taken as a
  parameter `MathLib` of the evaluator; `fabs` and `fmod` are exact and are
  defined, and so is the power of ten with a whole exponent in `myAtof`.
* The file-scope variables (`Str`, `Start_str`, `err1Message`, `err2Message`,
  `ParseError`, `EvalErr`, `VARIABLE`) are passed explicitly.
* `malloc` is assumed to succeed.
* The array `err_mess` belongs to the caller of `parse`; the message is returned as a
  list and the array is assumed large enough for it.
* The state carries a ghost record `Ghost` next to the variables of the program. It
  records what no variable shows: that the cursor was moved past the terminator of the
  input (`advance`), that `error` wrote past the end of `err1Message` or
  `err2Message`, which have 255 bytes (both are undefined behaviour in C, and the
  fields of the model stand for nothing afterwards), and that the sign loop at the
  start of `myAtof` consumed a character. `parseGhost` is the record at the return of
  `parse`.
* The mutually recursive grammar procedures take a `fuel` argument that bounds
  the depth of the call stack; `none` means the fuel ran out.  `parse` supplies
  `8 * length + 8`, which is proved to suffice for every input.
* Undefined behaviour in the evaluator (integer remainder by zero, a variable
  index below zero) is the result `none`.
* Rounding, overflow and underflow of `long double` and of the `double` function `pow`
  are outside the model: no statement of this file is about them.
-/

namespace ParseTree

/-! ## Constants and tables -/

/-- The string terminator. -/
def NUL : Char := Char.ofNat 0

def NoOp : Int := -9999
def BINOP : Int := 1
def UNOP : Int := 2
def NUM : Int := 3
def FUNC : Int := 4
def CONST : Int := 9999
def VarNotFound : Int := -1

def E : ℚ := 271828182845904523536 / 100000000000000000000
def PI : ℚ := 314159265358979323846 / 100000000000000000000
def PI2 : ℚ := 15707963268 / 10000000000

def NUMRATOR : Nat := 23
def FUNCSTART : Nat := 15

def OPRATOR : List (List Char) :=
  ["!".toList, "&&".toList, "||".toList, "<=".toList, "<".toList,
   ">=".toList, ">".toList, "==".toList, "!=".toList, "+".toList,
   "-".toList, "*".toList, "%".toList, "/".toList, "^".toList,
   "sin".toList, "cos".toList, "tan".toList, "exp".toList, "log".toList,
   "ln".toList, "sqrt".toList, "step".toList, [], [],
   [], [], [], [], []]

structure VarType where
  name : List Char
  val : ℚ
deriving DecidableEq

def MAX_VAR : Nat := 10
def num_var : Nat := 5

def VARIABLE : List VarType :=
  [⟨"t".toList, 0⟩, ⟨"T".toList, 0⟩, ⟨"e".toList, E⟩, ⟨"pi".toList, PI⟩,
   ⟨"  ".toList, 0⟩, ⟨"  ".toList, 0⟩, ⟨"  ".toList, 0⟩, ⟨"  ".toList, 0⟩,
   ⟨"  ".toList, 0⟩]

/-- The record `VARIABLE[i]`. -/
def varAt (V : List VarType) (i : Nat) : VarType := V.getD i ⟨[], 0⟩

/-- A `PARSETREE` is a pointer to a `nodeRecord`: either `NULL` or a record
with its five fields. -/
inductive PARSETREE where
  | NULL : PARSETREE
  | node (type : Int) (opratorid : Int) (left right : PARSETREE) (oprand : ℚ) : PARSETREE
deriving DecidableEq

/-- The functions of `<math.h>` that the program calls and whose values are
not rational in general. -/
structure MathLib where
  pow : ℚ → ℚ → ℚ
  sin : ℚ → ℚ
  cos : ℚ → ℚ
  tan : ℚ → ℚ
  exp : ℚ → ℚ
  log10 : ℚ → ℚ
  log : ℚ → ℚ
  sqrt : ℚ → ℚ

/-- The conversion `(long)x`: truncation toward zero. -/
def toLong (x : ℚ) : Int := Int.tdiv x.num x.den

def fabs (x : ℚ) : ℚ := if x < 0 then -x else x

/-- The C `fmod`: `x - n*y`, with `n` the quotient `x/y` truncated toward zero. -/
def fmod (x y : ℚ) : ℚ := x - (toLong (x / y) : ℚ) * y

/-! ## Variable handling -/

/-- The `while` loop of `getVarID`, started at index `i`; `fuel` counts the
iterations that remain before `i` reaches `num_var`. -/
def getVarIDLoop (V : List VarType) (s : List Char) : Nat → Nat → Nat
  | 0, i => i
  | fuel + 1, i =>
    if i < num_var then
      if s = (varAt V i).name then i else getVarIDLoop V s fuel (i + 1)
    else i

def getVarID (V : List VarType) (s : List Char) : Int :=
  let i := getVarIDLoop V s num_var 0
  if i < num_var then (i : Int) else VarNotFound

/-- The assignment `VARIABLE[id].val = v`. -/
def setVal : List VarType → Nat → ℚ → List VarType
  | [], _, _ => []
  | x :: xs, 0, v => ⟨x.name, v⟩ :: xs
  | x :: xs, i + 1, v => x :: setVal xs i v

/-- The function `setVariable`: returns the value returned and the table afterwards. -/
def setVariable (V : List VarType) (s : List Char) (v : ℚ) : Int × List VarType :=
  let id := getVarID V s
  if id ≠ VarNotFound then (id, setVal V id.toNat v) else (VarNotFound, V)

/-! ## Node routines -/

def binOpNode (opor : Int) (lopand ropand : PARSETREE) : PARSETREE :=
  if lopand = PARSETREE.NULL ∨ ropand = PARSETREE.NULL then PARSETREE.NULL
  else PARSETREE.node BINOP opor lopand ropand 0

def unarOpNode (opor : Int) (lopand : PARSETREE) : PARSETREE :=
  if lopand = PARSETREE.NULL then PARSETREE.NULL
  else PARSETREE.node UNOP opor lopand PARSETREE.NULL 0

def numNode (id : Int) (rand : ℚ) : PARSETREE :=
  PARSETREE.node NUM id PARSETREE.NULL PARSETREE.NULL rand

/-! ## Tree evaluation -/

def EPSILON : ℚ := 5 / 10000000000000000

/-- The truth value of a C condition as a number. -/
def ofBool (b : Bool) : ℚ := if b then 1 else 0

def step (V : List VarType) (x : ℚ) : ℚ :=
  if x < (varAt V 0).val then 1 else 0

/-- The inner `switch (n->opratorid)` of the `BINOP` case: the value returned
and `EvalErr` afterwards. -/
def binSwitch (M : MathLib) (opratorid : Int) (op1 op2 : ℚ) (EvalErr : Int) :
    Option (ℚ × Int) :=
  if opratorid = 0 then some (0, 1)
  else if opratorid = 1 then some (ofBool (op1 ≠ 0 && op2 ≠ 0), EvalErr)
  else if opratorid = 2 then some (ofBool (op1 ≠ 0 || op2 ≠ 0), EvalErr)
  else if opratorid = 3 then some (ofBool (op1 ≤ op2), EvalErr)
  else if opratorid = 4 then some (if op1 < op2 then 1 else 0, EvalErr)
  else if opratorid = 5 then some (ofBool (op1 ≥ op2), EvalErr)
  else if opratorid = 6 then some (ofBool (op1 > op2), EvalErr)
  else if opratorid = 7 then some (ofBool (op1 = op2), EvalErr)
  else if opratorid = 8 then some (ofBool (op1 ≠ op2), EvalErr)
  else if opratorid = 9 then some (op1 + op2, EvalErr)
  else if opratorid = 10 then some (op1 - op2, EvalErr)
  else if opratorid = 11 then some (op1 * op2, EvalErr)
  else if opratorid = 12 then
    if toLong op2 = 0 then none
    else some (((Int.tmod (toLong op1) (toLong op2) : Int) : ℚ), EvalErr)
  else if opratorid = 13 then
    if op2 ≠ 0 then some (op1 / op2, EvalErr) else some (0, 2)
  else if opratorid = 14 then some (M.pow op1 op2, EvalErr)
  else some (0, 3)

/-- The inner `switch (n->opratorid)` of the `UNOP` case. -/
def unSwitch (M : MathLib) (V : List VarType) (opratorid : Int) (op1 : ℚ) (EvalErr : Int) :
    ℚ × Int :=
  if opratorid = 0 then (ofBool (op1 = 0), EvalErr)
  else if opratorid = 10 then (-op1, EvalErr)
  else if opratorid = 15 then (M.sin op1, EvalErr)
  else if opratorid = 16 then (M.cos op1, EvalErr)
  else if opratorid = 17 then
    if fabs (fmod op1 PI - PI2) < EPSILON then (0, 4) else (M.tan op1, EvalErr)
  else if opratorid = 18 then (M.exp op1, EvalErr)
  else if opratorid = 19 then
    if op1 ≥ 0 then (M.log10 op1, EvalErr) else (0, 5)
  else if opratorid = 20 then
    if op1 ≥ 0 then (M.log op1, EvalErr) else (0, 6)
  else if opratorid = 21 then
    if op1 ≥ 0 then (M.sqrt op1, EvalErr) else (0, 7)
  else if opratorid = 22 then (step V op1, EvalErr)
  else if opratorid = 23 then (0, EvalErr)
  else if opratorid = 24 then (0, EvalErr)
  else if opratorid = 25 then (0, EvalErr)
  else (0, 8)

/-- The function `_eval`: from the node and the value of `EvalErr` on entry
to the value returned and `EvalErr` on exit. -/
def _eval (M : MathLib) (V : List VarType) : PARSETREE → Int → Option (ℚ × Int)
  | PARSETREE.NULL, EvalErr => some (0, EvalErr)
  | PARSETREE.node type opratorid left right oprand, EvalErr =>
    if type = BINOP then
      match _eval M V left EvalErr with
      | none => none
      | some (op1, e1) =>
        if e1 ≠ 0 then some (0, e1)
        else
          match _eval M V right e1 with
          | none => none
          | some (op2, e2) =>
            if e2 ≠ 0 then some (0, e2)
            else binSwitch M opratorid op1 op2 e2
    else if type = UNOP then
      match _eval M V left EvalErr with
      | none => none
      | some (op1, e1) =>
        if e1 ≠ 0 then some (0, e1)
        else some (unSwitch M V opratorid op1 e1)
    else if type = NUM then
      if opratorid = CONST then some (oprand, EvalErr)
      else if opratorid < (num_var : Int) then
        if 0 ≤ opratorid then some ((varAt V opratorid.toNat).val, EvalErr) else none
      else some (0, 9)
    else some (0, type)

/-- The function `eval`: the value returned and the code stored in `*err_num`. -/
def eval (M : MathLib) (V : List VarType) (p : PARSETREE) : Option (ℚ × Int) :=
  if p = PARSETREE.NULL then some (0, 99) else _eval M V p 0

/-! ## Parser state -/

/-- What a run did that no variable of the program shows. `past`: the cursor was moved
past the terminator of the input. `overrun`: `error` wrote past the end of
`err1Message` or of `err2Message`. `scanSign`: the sign loop at the start of `myAtof`
consumed a character. -/
structure Ghost where
  past : Bool
  overrun : Bool
  scanSign : Bool
deriving DecidableEq

/-- The ghost record at the start of a run. -/
def ghost0 : Ghost := ⟨false, false, false⟩

/-- The size of the arrays `err1Message` and `err2Message`. -/
def errCapacity : Nat := 255

/-- The file-scope variables of the parser, and the ghost record. -/
structure PState where
  Str : List Char
  Start_str : List Char
  err1Message : List Char
  err2Message : List Char
  ParseError : Int
  ghost : Ghost
deriving DecidableEq

/-- The character `*Str`. -/
def cur (s : PState) : Char := s.Str.headD NUL

/-- The character `*(Str + n)`. -/
def peek (s : PState) (n : Nat) : Char := (s.Str.drop n).headD NUL

/-- The statement `Str += n`. A step over more characters than are left before the
terminator is recorded in the ghost. -/
def advance (n : Nat) (s : PState) : PState :=
  { s with
    Str := s.Str.drop n
    ghost := if n ≤ s.Str.length then s.ghost else { s.ghost with past := true } }

/-- The test `c == ' ' || c == '\n' || c == '\t'`. -/
def isWhite (c : Char) : Bool := c = ' ' || c = '\n' || c = '\t'

/-- The test `c >= '0' && c <= '9'`, on character codes. -/
def isDigit (c : Char) : Bool := '0'.toNat ≤ c.toNat && c.toNat ≤ '9'.toNat

/-- The test `c >= 'a' && c <= 'z'`, on character codes. -/
def isLower (c : Char) : Bool := 'a'.toNat ≤ c.toNat && c.toNat ≤ 'z'.toNat

/-- The loop `while (*Str == ' ' || *Str == '\n' || *Str == '\t') Str++;`. -/
def skipWhite (s : PState) : PState := { s with Str := s.Str.dropWhile isWhite }

/-- The pointer difference `Str - Start_str`. -/
def offset (s : PState) : Nat := s.Start_str.length - s.Str.length

/-- The function `error`: latches the first fault. The loop from
`Start_str + 1` up to `Str` appends one dash per step. `strcpy` and `strcat` write
the string and its terminator into arrays of `errCapacity` bytes without a test: a
string of `errCapacity` characters or more overruns its array, which the ghost
records. -/
def error (msg : List Char) (s : PState) : PState :=
  if s.ParseError = 0 then
    { s with
      ParseError := 1
      err1Message := s.Start_str
      err2Message := s.err2Message ++ List.replicate (offset s - 1) '-' ++ "^".toList ++ msg
      ghost :=
        if errCapacity ≤ s.Start_str.length ∨
            errCapacity ≤ (s.err2Message ++ List.replicate (offset s - 1) '-' ++
              "^".toList ++ msg).length then
          { s.ghost with overrun := true }
        else s.ghost }
  else s

/-- The function `match`: skips white space, then tells whether `token` stands
at the cursor; the cursor stays before the token. -/
def matchTok (token : List Char) (s : PState) : Bool × PState :=
  (token.isPrefixOf (skipWhite s).Str, skipWhite s)

/-! ## The literal scanner -/

/-- The sign loop of `myAtof`: `for (;;)` consuming `+` and `-`; `fuel` is the
number of characters left, an upper bound of the number of iterations. -/
def signLoop : Nat → PState → Int → PState × Int
  | 0, s, sign => (s, sign)
  | fuel + 1, s, sign =>
    if (matchTok "+".toList s).1 then
      signLoop fuel (advance 1 (matchTok "+".toList s).2) sign
    else if (matchTok "-".toList (matchTok "+".toList s).2).1 then
      signLoop fuel (advance 1 (matchTok "-".toList (matchTok "+".toList s).2).2) (sign * -1)
    else ((matchTok "-".toList (matchTok "+".toList s).2).2, sign)

/-- The digit loops `for (val = 0; *Str >= '0' && *Str <= '9'; Str++)` of the integer
part and of the exponent of `myAtof`: each step does `val = 10.0 * val + (*Str - '0')`.
Returns the rest of the input and `val`. -/
def digitLoop : List Char → ℚ → List Char × ℚ
  | [], val => ([], val)
  | c :: cs, val =>
    if isDigit c then digitLoop cs (10 * val + ((c.toNat : ℚ) - ('0'.toNat : ℚ)))
    else (c :: cs, val)

/-- The digit loop of the fraction of `myAtof`, which also does `power *= 10`.
Returns the rest of the input, `val` and `power`. -/
def fracLoop : List Char → ℚ → ℚ → List Char × ℚ × ℚ
  | [], val, power => ([], val, power)
  | c :: cs, val, power =>
    if isDigit c then
      fracLoop cs (10 * val + ((c.toNat : ℚ) - ('0'.toNat : ℚ))) (power * 10)
    else (c :: cs, val, power)

/-- The assignment of a new position to `Str`. -/
def setStr (s : PState) (l : List Char) : PState := { s with Str := l }

/-- The call `pow(10.0, x)` of `myAtof`, idealised as the exact power. Its exponent
`ex * sn` is a whole number by construction, so the exact power is rational; the
`double` that C computes is that power rounded, infinite or zero. -/
def pow10 (x : ℚ) : ℚ := (10 : ℚ) ^ x.num

/-- The ghost record after the sign loop at the start of `myAtof`, which began with the
cursor at `before` and ended in `s`: a cursor that moved is recorded. -/
def markScanSign (before : List Char) (s : PState) : PState :=
  if s.Str = before then s else { s with ghost := { s.ghost with scanSign := true } }

/-- The function `myAtof`, first part: white space, the sign loop, white space and
the test that a digit or a point follows. Returns `sign` and the state. -/
def atofSign (s0 : PState) : Int × PState :=
  let r := signLoop (skipWhite s0).Str.length (skipWhite s0) 1
  let s3 := skipWhite (markScanSign (skipWhite s0).Str r.1)
  (r.2, if (!isDigit (cur s3)) && cur s3 ≠ '.' then error " unexpected symbol ".toList s3
        else s3)

/-- The function `myAtof`, second part: the digits before and after the point, and the
white space that follows. Returns `val`, `power` and the state. -/
def atofMantissa (s : PState) : ℚ × ℚ × PState :=
  let a := digitLoop s.Str 0
  let s5 := setStr s a.1
  if cur s5 = '.' then
    let s6 := advance 1 s5
    let b := fracLoop s6.Str a.2 1
    (b.2.1, b.2.2, skipWhite (setStr s6 b.1))
  else (a.2, 1, skipWhite s5)

/-- The function `myAtof`, third part: the exponent. Returns `temp` and the state. -/
def atofExponent (s7 : PState) : ℚ × PState :=
  if cur s7 = 'e' ∨ cur s7 = 'E' then
    let r := signLoop (skipWhite (advance 1 s7)).Str.length (skipWhite (advance 1 s7)) 1
    let s10 := skipWhite r.1
    let s11 := if !isDigit (cur s10) then error " unexpected symbol ".toList s10 else s10
    let c := digitLoop s11.Str 0
    (pow10 (c.2 * (r.2 : ℚ)), setStr s11 c.1)
  else (1, s7)

/-- The function `myAtof`: the value `sign * val * temp / power` returned and the state
afterwards. -/
def myAtof (s0 : PState) : ℚ × PState :=
  let a := atofSign s0
  let m := atofMantissa a.2
  let x := atofExponent m.2.2
  ((a.1 : ℚ) * m.1 * x.1 / m.2.1, x.2)

/-! ## The grammar layers

The parameter `N` of the grammar procedures is the list of the `name` fields
of `VARIABLE`, the only part of the table that the parser reads. -/

/-- The name search loops of `func`: starting at index `i`, the first index
below `limit` whose name matches at the cursor and is not followed by a
lower-case letter; `limit` when there is none. -/
def nameLoop (names : List (List Char)) (limit : Nat) : Nat → Nat → PState → Nat × PState
  | 0, i, s => (i, s)
  | fuel + 1, i, s =>
    if i < limit then
      if (matchTok (names.getD i []) s).1 &&
          !isLower (peek (matchTok (names.getD i []) s).2 (names.getD i []).length) then
        (i, (matchTok (names.getD i []) s).2)
      else nameLoop names limit fuel (i + 1) (matchTok (names.getD i []) s).2
    else (i, s)

/-- The closing statements of `func`: a `NULL` result is an unexpected symbol. -/
def funcEnd (temp : PARSETREE) (s : PState) : Option (PARSETREE × PState) :=
  if temp = PARSETREE.NULL then some (PARSETREE.NULL, error " unexpected symbol ".toList s)
  else some (temp, s)

mutual

def expr (N : List (List Char)) : Nat → PState → Option (PARSETREE × PState)
  | 0, _ => none
  | fuel + 1, s =>
    match term N fuel s with
    | none => none
    | some (left, s1) =>
      if (matchTok "&&".toList s1).1 then
        match expr N fuel (advance 2 (matchTok "&&".toList s1).2) with
        | none => none
        | some (r, s2) => some (binOpNode 1 left r, s2)
      else if (matchTok "||".toList s1).1 then
        match expr N fuel (advance 2 (matchTok "||".toList s1).2) with
        | none => none
        | some (r, s2) => some (binOpNode 2 left r, s2)
      else some (left, (matchTok "||".toList s1).2)

def term (N : List (List Char)) : Nat → PState → Option (PARSETREE × PState)
  | 0, _ => none
  | fuel + 1, s =>
    match fact N fuel s with
    | none => none
    | some (left, s1) =>
      if (matchTok "<=".toList s1).1 then
        match term N fuel (advance 2 (matchTok "<=".toList s1).2) with
        | none => none
        | some (r, s2) => some (binOpNode 3 left r, s2)
      else if (matchTok "<".toList s1).1 then
        match term N fuel (advance 1 (matchTok "<".toList s1).2) with
        | none => none
        | some (r, s2) => some (binOpNode 4 left r, s2)
      else if (matchTok ">=".toList s1).1 then
        match term N fuel (advance 2 (matchTok ">=".toList s1).2) with
        | none => none
        | some (r, s2) => some (binOpNode 5 left r, s2)
      else if (matchTok ">".toList s1).1 then
        match term N fuel (advance 1 (matchTok ">".toList s1).2) with
        | none => none
        | some (r, s2) => some (binOpNode 6 left r, s2)
      else if (matchTok "==".toList s1).1 then
        match term N fuel (advance 2 (matchTok "==".toList s1).2) with
        | none => none
        | some (r, s2) => some (binOpNode 7 left r, s2)
      else if (matchTok "!=".toList s1).1 then
        match term N fuel (advance 2 (matchTok "!=".toList s1).2) with
        | none => none
        | some (r, s2) => some (binOpNode 8 left r, s2)
      else some (left, (matchTok "!=".toList s1).2)

def fact (N : List (List Char)) : Nat → PState → Option (PARSETREE × PState)
  | 0, _ => none
  | fuel + 1, s =>
    match part N fuel s with
    | none => none
    | some (left, s1) =>
      if (matchTok "+".toList s1).1 then
        match fact N fuel (advance 1 (matchTok "+".toList s1).2) with
        | none => none
        | some (r, s2) => some (binOpNode 9 left r, s2)
      else if (matchTok "-".toList s1).1 then
        match fact N fuel (advance 1 (matchTok "-".toList s1).2) with
        | none => none
        | some (r, s2) => some (binOpNode 10 left r, s2)
      else some (left, (matchTok "-".toList s1).2)

def part (N : List (List Char)) : Nat → PState → Option (PARSETREE × PState)
  | 0, _ => none
  | fuel + 1, s =>
    match part2 N fuel s with
    | none => none
    | some (left, s1) =>
      if (matchTok "*".toList s1).1 then
        match part N fuel (advance 1 (matchTok "*".toList s1).2) with
        | none => none
        | some (r, s2) => some (binOpNode 11 left r, s2)
      else if (matchTok "%".toList s1).1 then
        match part N fuel (advance 1 (matchTok "%".toList s1).2) with
        | none => none
        | some (r, s2) => some (binOpNode 12 left r, s2)
      else if (matchTok "/".toList s1).1 then
        partLoop N fuel left (matchTok "/".toList s1).2
      else some (left, (matchTok "/".toList s1).2)

/-- The loop `while (match("/"))` of `part`, with the statements that follow
it; `left` is the tree built so far. -/
def partLoop (N : List (List Char)) :
    Nat → PARSETREE → PState → Option (PARSETREE × PState)
  | 0, _, _ => none
  | fuel + 1, left, s =>
    if (matchTok "/".toList s).1 then
      match part2 N fuel (advance 1 (matchTok "/".toList s).2) with
      | none => none
      | some (r, s1) => partLoop N fuel (binOpNode 13 left r) s1
    else if cur (matchTok "/".toList s).2 = '*' then
      match part N fuel (advance 1 (matchTok "/".toList s).2) with
      | none => none
      | some (r, s2) => some (binOpNode 11 left r, s2)
    else if cur (matchTok "/".toList s).2 = '%' then
      match part N fuel (advance 1 (matchTok "/".toList s).2) with
      | none => none
      | some (r, s2) => some (binOpNode 12 left r, s2)
    else some (left, (matchTok "/".toList s).2)

def part2 (N : List (List Char)) : Nat → PState → Option (PARSETREE × PState)
  | 0, _ => none
  | fuel + 1, s =>
    match get_constant N fuel s with
    | none => none
    | some (left, s1) =>
      if (matchTok "^".toList s1).1 then
        match part2 N fuel (advance 1 (matchTok "^".toList s1).2) with
        | none => none
        | some (r, s2) => some (binOpNode 14 left r, s2)
      else some (left, (matchTok "^".toList s1).2)

def get_constant (N : List (List Char)) : Nat → PState → Option (PARSETREE × PState)
  | 0, _ => none
  | fuel + 1, s =>
    if (matchTok "+".toList s).1 then
      get_constant N fuel (advance 1 (matchTok "+".toList s).2)
    else if (matchTok "-".toList s).1 then
      match get_constant N fuel (advance 1 (matchTok "-".toList s).2) with
      | none => none
      | some (r, s1) => some (unarOpNode 10 r, s1)
    else if (matchTok "!".toList s).1 then
      match get_constant N fuel (advance 1 (matchTok "!".toList s).2) with
      | none => none
      | some (r, s1) => some (unarOpNode 0 r, s1)
    else func N fuel (matchTok "!".toList s).2

def func (N : List (List Char)) : Nat → PState → Option (PARSETREE × PState)
  | 0, _ => none
  | fuel + 1, s =>
    if (matchTok "(".toList s).1 then
      match expr N fuel (advance 1 (matchTok "(".toList s).2) with
      | none => none
      | some (temp, s1) =>
        if (matchTok ")".toList s1).1 then
          funcEnd temp (advance 1 (matchTok ")".toList s1).2)
        else
          some (PARSETREE.NULL, error " Mis-matched parenthesis ".toList (matchTok ")".toList s1).2)
    else if isLower (cur (matchTok "(".toList s).2) then
      let r := nameLoop OPRATOR NUMRATOR (NUMRATOR - FUNCSTART) FUNCSTART (matchTok "(".toList s).2
      if r.1 < NUMRATOR then
        let s1 := advance (OPRATOR.getD r.1 []).length r.2
        if !(matchTok "(".toList s1).1 then
          some (PARSETREE.NULL, error " Missing parenthesis ".toList (matchTok "(".toList s1).2)
        else
          match expr N fuel (advance 1 (matchTok "(".toList s1).2) with
          | none => none
          | some (arg, s2) =>
            if (matchTok ")".toList s2).1 then
              funcEnd (unarOpNode r.1 arg) (advance 1 (matchTok ")".toList s2).2)
            else
              some (PARSETREE.NULL,
                error " Mis-matched parenthesis ".toList (matchTok ")".toList s2).2)
      else
        let q := nameLoop N num_var num_var 0 r.2
        if q.1 < num_var then
          funcEnd (numNode q.1 0) (advance (N.getD q.1 []).length q.2)
        else funcEnd PARSETREE.NULL q.2
    else
      let a := myAtof (matchTok "(".toList s).2
      funcEnd (numNode CONST a.1) a.2

end

/-- The loop of `parse` that looks for unconsumed input after the expression. -/
def trailLoop (s : PState) : List Char → PState
  | [] => { s with Str := [] }
  | c :: cs =>
    if c = NUL then { s with Str := c :: cs }
    else if c ≠ ' ' ∧ c ≠ '\n' ∧ c ≠ '\t' then
      error " unexpected symbol ".toList { s with Str := c :: cs }
    else trailLoop s cs

/-- What `parse` hands back: the tree returned, `*err` and `err_mess`. -/
structure ParseResult where
  tree : PARSETREE
  err : Int
  err_mess : List Char
deriving DecidableEq

/-- The loop `while (*Str == ' ' || *Str == '\t') Str++;` at the start of `parse`. -/
def skipBlank (l : List Char) : List Char := l.dropWhile (fun c => c = ' ' || c = '\t')

/-- The function `parse`; `none` only if the grammar ran out of fuel. The
grammar reads the `name` fields of `VARIABLE` and nothing else of it. -/
def parse (V : List VarType) (expr_p : List Char) : Option ParseResult :=
  let s0 : PState := ⟨skipBlank expr_p, expr_p, [], [], 0, ghost0⟩
  if cur s0 = NUL then
    some ⟨PARSETREE.NULL, -1, expr_p ++ "\n Not a Function ".toList⟩
  else
    match expr (V.map VarType.name) (8 * s0.Str.length + 8) s0 with
    | none => none
    | some (rval, s1) =>
      let s2 := trailLoop s1 s1.Str
      if s2.ParseError ≠ 0 then
        some ⟨PARSETREE.NULL, s2.ParseError, s2.err1Message ++ "\n  ".toList ++ s2.err2Message⟩
      else some ⟨rval, s2.ParseError, []⟩

/-- The ghost record when `parse` returns: that of the state in which the trailing loop
ends, or the one of the start when the grammar is not run. -/
def parseGhost (V : List VarType) (expr_p : List Char) : Option Ghost :=
  let s0 : PState := ⟨skipBlank expr_p, expr_p, [], [], 0, ghost0⟩
  if cur s0 = NUL then some s0.ghost
  else
    match expr (V.map VarType.name) (8 * s0.Str.length + 8) s0 with
    | none => none
    | some (_, s1) => some (trailLoop s1 s1.Str).ghost

/-! ## Auxiliary definitions for the statements -/

/-- A result of the evaluator that carries the value 0 whenever it carries a fault. -/
def FaultZero (r : Option (ℚ × Int)) : Prop :=
  ∀ (v : ℚ) (c : Int), r = some (v, c) → c ≠ 0 → v = 0

/-- A stand-in for `<math.h>`, used to run the evaluator on examples. -/
def zeroMath : MathLib :=
  ⟨fun _ _ => 0, fun _ => 0, fun _ => 0, fun _ => 0, fun _ => 0, fun _ => 0, fun _ => 0, fun _ => 0⟩

/-- The descriptions that the parser hands to `error`. -/
def faultDescriptions : List (List Char) :=
  [" unexpected symbol ".toList, " Mis-matched parenthesis ".toList,
   " Missing parenthesis ".toList]

/-- The second message line that `error` builds when it latches with the cursor `k`
characters past `Start_str`: `k - 1` dashes, a caret and the description. -/
def caretLine (k : Nat) (desc : List Char) : List Char :=
  List.replicate (k - 1) '-' ++ "^".toList ++ desc

/-- The error fields of `s2`, and its record of an overrun, are those of `s1`. -/
def SameErr (s1 s2 : PState) : Prop :=
  s2.ParseError = s1.ParseError ∧ s2.err1Message = s1.err1Message ∧
    s2.err2Message = s1.err2Message ∧ s2.ghost.overrun = s1.ghost.overrun

/-- Between `s1` and `s2` the first fault was latched, with the cursor at an offset `k`
that lies between the offsets of the two states; an array was overrun when it was overrun
before or when one of the two lines does not fit. -/
def LatchedBetween (s1 s2 : PState) : Prop :=
  s1.ParseError = 0 ∧ s2.ParseError = 1 ∧ s2.err1Message = s1.Start_str ∧
    ∃ (k : Nat) (desc : List Char), offset s1 ≤ k ∧ k ≤ offset s2 ∧ desc ∈ faultDescriptions ∧
      s2.err2Message = s1.err2Message ++ caretLine k desc ∧
      (s2.ghost.overrun = true ↔
        (s1.ghost.overrun = true ∨ errCapacity ≤ s1.Start_str.length ∨
          errCapacity ≤ s2.err2Message.length))

/-- The relation between the parser state before and after a piece of the parser:
the start of the input is kept, the cursor only moves forward, and the error fields
are untouched or the first fault was latched. -/
def Run (s1 s2 : PState) : Prop :=
  s2.Start_str = s1.Start_str ∧ s2.Str <:+ s1.Str ∧ (SameErr s1 s2 ∨ LatchedBetween s1 s2)

/-- A grammar procedure entered in state `s` returned (its fuel sufficed), moved the
state along `Run`, and returned `NULL` only with a fault latched. -/
def Returns (s : PState) (r : Option (PARSETREE × PState)) : Prop :=
  ∃ (t : PARSETREE) (s2 : PState), r = some (t, s2) ∧ Run s s2 ∧
    (t = PARSETREE.NULL → s2.ParseError ≠ 0)

/-- The call `parse(&p, &err, err_mess)` as its caller sees it: what `parse` hands back
and the handle `p` after the call. `parse` reads `*expr_p` once, to set `Start_str` and
`Str`, and never assigns it: the statement `*expr_p = Str` at its end is inside a
comment. -/
def parseCall (V : List VarType) (p : List Char) : Option (ParseResult × List Char) :=
  match parse V p with
  | none => none
  | some r => some (r, p)

/-- The decimal number that a string of digits denotes, most significant digit
first. -/
def decimal (ds : List Char) : Nat :=
  Nat.ofDigits 10 (ds.reverse.map (fun c => c.toNat - '0'.toNat))

/-- The sign of a run of `+` and `-`: -1 if it holds an odd number of `-`, else +1. -/
def signOfRun (S : List Char) : Int := if S.count '-' % 2 = 1 then -1 else 1

/-- What follows an unsigned integer literal so that the scanner stops right behind its
digits: no white space, no digit, no point and no exponent letter. -/
def LiteralEnd (tail : List Char) : Prop :=
  tail.dropWhile isWhite = tail ∧ isDigit (tail.headD NUL) = false ∧
    tail.headD NUL ≠ '.' ∧ tail.headD NUL ≠ 'e' ∧ tail.headD NUL ≠ 'E'

/-- The text `/ d1 / d2 ... / dn` of a chain of divisors. -/
def divChain : List (List Char) → List Char
  | [] => []
  | d :: ds => '/' :: (d ++ divChain ds)

/-- The left-nested tree of the divisions of `t` by the literals of a chain, the first
divisor innermost. -/
def divTree : PARSETREE → List (List Char) → PARSETREE
  | t, [] => t
  | t, d :: ds => divTree (PARSETREE.node BINOP 13 t (numNode CONST (decimal d)) 0) ds

/-- The quotient `((q / d1) / d2) ... / dn`. -/
def divValue : ℚ → List (List Char) → ℚ
  | q, [] => q
  | q, d :: ds => divValue (q / (decimal d : ℚ)) ds

/-- A tree that the evaluator knows in every node: a binary node with an operator from 1
to 14 over two such trees; a unary node with the operator 0, 10 or one from 15 to 22
over such a tree; a leaf that is a constant or a variable whose index satisfies `ok`. -/
def WellFormed (ok : Int → Prop) : PARSETREE → Prop
  | PARSETREE.NULL => False
  | PARSETREE.node type op l r _ =>
    (type = BINOP ∧ 1 ≤ op ∧ op ≤ 14 ∧ WellFormed ok l ∧ WellFormed ok r) ∨
    (type = UNOP ∧ (op = 0 ∨ op = 10 ∨ (15 ≤ op ∧ op ≤ 22)) ∧ WellFormed ok l ∧
      r = PARSETREE.NULL) ∨
    (type = NUM ∧ (op = CONST ∨ ok op) ∧ l = PARSETREE.NULL ∧ r = PARSETREE.NULL)

/-- The index of an active variable. -/
def ActiveVar (i : Int) : Prop := 0 ≤ i ∧ i < (num_var : Int)

/-- The indices of the variables `t`, `e` and `pi` of the table `VARIABLE`. -/
def LowerVar (i : Int) : Prop := i = 0 ∨ i = 2 ∨ i = 3

/-- A result of a grammar procedure whose tree, if there is one, is `NULL` or well
formed. -/
def TreeOK (ok : Int → Prop) (r : Option (PARSETREE × PState)) : Prop :=
  ∀ (t : PARSETREE) (s2 : PState), r = some (t, s2) → t = PARSETREE.NULL ∨ WellFormed ok t

/-- What the proof of well-formedness needs of the names of the variables: an index that
the search loop of `func` finds, at a cursor behind white space that stands at a
lower-case letter, satisfies `ok`. -/
def NamesOK (ok : Int → Prop) (N : List (List Char)) : Prop :=
  ∀ s : PState, skipWhite s = s → isLower (cur s) = true →
    (nameLoop N num_var num_var 0 s).1 < num_var →
    ok ((nameLoop N num_var num_var 0 s).1 : Int)

/-- Between `s1` and `s2` the cursor was not moved past the terminator and the sign loop
at the start of `myAtof` consumed nothing: the two ghost fields are as they were. -/
def GhostKept (s1 s2 : PState) : Prop :=
  s2.ghost.past = s1.ghost.past ∧ s2.ghost.scanSign = s1.ghost.scanSign

/-- A result of a grammar procedure entered in `s` whose state, if there is one, kept the
ghost fields `past` and `scanSign` of `s`. -/
def KeptRes (s : PState) (r : Option (PARSETREE × PState)) : Prop :=
  ∀ (t : PARSETREE) (s2 : PState), r = some (t, s2) → GhostKept s s2

/-- Neither `+` nor `-` stands at the cursor behind its white space. -/
def NoSign (s : PState) : Prop :=
  (matchTok "+".toList s).1 = false ∧ (matchTok "-".toList s).1 = false

/-! # Theorems -/

/-! ## The evaluator: faults -/


theorem faultZero_none : FaultZero none := by
  intro v c h; cases h

theorem faultZero_ok (x : ℚ) : FaultZero (some (x, 0)) := by
  intro v c h hc; cases h; exact absurd rfl hc

theorem faultZero_zero (c : Int) : FaultZero (some (0, c)) := by
  intro v c h hc; cases h; rfl

theorem faultZero_ite {p : Prop} [Decidable p] {x y : Option (ℚ × Int)}
    (hx : p → FaultZero x) (hy : ¬p → FaultZero y) : FaultZero (if p then x else y) := by
  split
  · exact hx ‹_›
  · exact hy ‹_›

theorem binSwitch_faultZero (M : MathLib) (op : Int) (a b : ℚ) :
    FaultZero (binSwitch M op a b 0) := by
  unfold binSwitch
  repeat' (apply faultZero_ite <;> intro _)
  all_goals first
    | exact faultZero_ok _
    | exact faultZero_zero _
    | exact faultZero_none

theorem unSwitch_faultZero (M : MathLib) (V : List VarType) (op : Int) (a : ℚ) :
    FaultZero (some (unSwitch M V op a 0)) := by
  unfold unSwitch
  repeat' (first | (apply faultZero_ite <;> intro _) | rw [apply_ite some])
  all_goals first
    | exact faultZero_ok _
    | exact faultZero_zero _

/-- A fault met by `_eval`, entered with no fault latched, comes with the value 0. -/
theorem _eval_faultZero (M : MathLib) (V : List VarType) (p : PARSETREE) :
    FaultZero (_eval M V p 0) := by
  induction p with
  | NULL => rw [_eval]; exact faultZero_ok 0
  | node type op l r x ihl ihr =>
    rw [_eval]
    refine faultZero_ite (fun _ => ?_) (fun _ => faultZero_ite (fun _ => ?_) (fun _ => ?_))
    · -- BINOP
      split
      · exact faultZero_none
      · rename_i op1 e1 h1
        refine faultZero_ite (fun _ => faultZero_zero _) (fun he1 => ?_)
        have he1 : e1 = 0 := not_not.mp he1
        subst he1
        split
        · exact faultZero_none
        · rename_i op2 e2 h2
          refine faultZero_ite (fun _ => faultZero_zero _) (fun he2 => ?_)
          have he2 : e2 = 0 := not_not.mp he2
          subst he2
          exact binSwitch_faultZero M op op1 op2
    · -- UNOP
      split
      · exact faultZero_none
      · rename_i op1 e1 h1
        refine faultZero_ite (fun _ => faultZero_zero _) (fun he1 => ?_)
        have he1 : e1 = 0 := not_not.mp he1
        subst he1
        exact unSwitch_faultZero M V op op1
    · -- NUM and the default case
      repeat' (apply faultZero_ite <;> intro _)
      all_goals first
        | exact faultZero_ok _
        | exact faultZero_zero _
        | exact faultZero_none


/-! ## The evaluator: nodes -/

theorem _eval_binop (M : MathLib) (V : List VarType) (op : Int) (l r : PARSETREE) (x : ℚ)
    (e : Int) :
    _eval M V (PARSETREE.node BINOP op l r x) e =
      match _eval M V l e with
      | none => none
      | some (op1, e1) =>
        if e1 ≠ 0 then some (0, e1)
        else
          match _eval M V r e1 with
          | none => none
          | some (op2, e2) => if e2 ≠ 0 then some (0, e2) else binSwitch M op op1 op2 e2 := by
  rw [_eval, if_pos rfl]

theorem _eval_unop (M : MathLib) (V : List VarType) (op : Int) (l r : PARSETREE) (x : ℚ)
    (e : Int) :
    _eval M V (PARSETREE.node UNOP op l r x) e =
      match _eval M V l e with
      | none => none
      | some (op1, e1) => if e1 ≠ 0 then some (0, e1) else some (unSwitch M V op op1 e1) := by
  rw [_eval, if_neg (by decide), if_pos rfl]

theorem _eval_const (M : MathLib) (V : List VarType) (a : ℚ) (e : Int) :
    _eval M V (numNode CONST a) e = some (a, e) := by
  rw [numNode, _eval, if_neg (by decide), if_neg (by decide), if_pos rfl, if_pos rfl]

theorem eval_node (M : MathLib) (V : List VarType) (t op : Int) (l r : PARSETREE) (x : ℚ) :
    eval M V (PARSETREE.node t op l r x) = _eval M V (PARSETREE.node t op l r x) 0 := by
  rw [eval, if_neg (by simp)]

theorem eval_binop_left_fault (M : MathLib) (V : List VarType) (op : Int) (l r : PARSETREE)
    (x y : ℚ) (c : Int) (hl : _eval M V l 0 = some (y, c)) (hc : c ≠ 0) :
    eval M V (PARSETREE.node BINOP op l r x) = some (0, c) := by
  rw [eval_node, _eval_binop, hl]
  simp only [if_pos hc]

theorem eval_binop_right_fault (M : MathLib) (V : List VarType) (op : Int) (l r : PARSETREE)
    (x y z : ℚ) (c : Int) (hl : _eval M V l 0 = some (y, 0)) (hr : _eval M V r 0 = some (z, c))
    (hc : c ≠ 0) :
    eval M V (PARSETREE.node BINOP op l r x) = some (0, c) := by
  rw [eval_node, _eval_binop, hl]
  simp only [ne_eq, not_true_eq_false, if_false, hr, if_pos hc]

theorem eval_binop_ok (M : MathLib) (V : List VarType) (op : Int) (l r : PARSETREE)
    (x y z : ℚ) (hl : _eval M V l 0 = some (y, 0)) (hr : _eval M V r 0 = some (z, 0)) :
    eval M V (PARSETREE.node BINOP op l r x) = binSwitch M op y z 0 := by
  rw [eval_node, _eval_binop, hl]
  simp only [ne_eq, not_true_eq_false, if_false, hr]

theorem eval_unop_fault (M : MathLib) (V : List VarType) (op : Int) (l r : PARSETREE)
    (x y : ℚ) (c : Int) (hl : _eval M V l 0 = some (y, c)) (hc : c ≠ 0) :
    eval M V (PARSETREE.node UNOP op l r x) = some (0, c) := by
  rw [eval_node, _eval_unop, hl]
  simp only [if_pos hc]

theorem eval_unop_ok (M : MathLib) (V : List VarType) (op : Int) (l r : PARSETREE)
    (x y : ℚ) (hl : _eval M V l 0 = some (y, 0)) :
    eval M V (PARSETREE.node UNOP op l r x) = some (unSwitch M V op y 0) := by
  rw [eval_node, _eval_unop, hl]
  simp only [ne_eq, not_true_eq_false, if_false]

theorem binSwitch_divide (M : MathLib) (a b : ℚ) :
    binSwitch M 13 a b 0 = some (if b = 0 then (0, 2) else (a / b, 0)) := by
  unfold binSwitch
  simp only [show ¬((13 : Int) = 0) by decide, show ¬((13 : Int) = 1) by decide,
    show ¬((13 : Int) = 2) by decide, show ¬((13 : Int) = 3) by decide,
    show ¬((13 : Int) = 4) by decide, show ¬((13 : Int) = 5) by decide,
    show ¬((13 : Int) = 6) by decide, show ¬((13 : Int) = 7) by decide,
    show ¬((13 : Int) = 8) by decide, show ¬((13 : Int) = 9) by decide,
    show ¬((13 : Int) = 10) by decide, show ¬((13 : Int) = 11) by decide,
    show ¬((13 : Int) = 12) by decide, if_false, if_true]
  by_cases hb : b = 0
  · simp only [hb, ne_eq, not_true_eq_false, if_false, if_true]
  · simp only [hb, ne_eq, not_false_eq_true, if_true, if_false]

theorem unSwitch_log_neg (M : MathLib) (V : List VarType) (x : ℚ) (hx : x < 0) :
    unSwitch M V 19 x 0 = (0, 5) ∧ unSwitch M V 20 x 0 = (0, 6) ∧
      unSwitch M V 21 x 0 = (0, 7) := by
  have h : ¬ (x ≥ 0) := not_le.mpr hx
  refine ⟨?_, ?_, ?_⟩ <;> unfold unSwitch <;>
    simp only [show ¬((19 : Int) = 0) by decide, show ¬((19 : Int) = 10) by decide,
      show ¬((19 : Int) = 15) by decide, show ¬((19 : Int) = 16) by decide,
      show ¬((19 : Int) = 17) by decide, show ¬((19 : Int) = 18) by decide,
      show ¬((20 : Int) = 0) by decide, show ¬((20 : Int) = 10) by decide,
      show ¬((20 : Int) = 15) by decide, show ¬((20 : Int) = 16) by decide,
      show ¬((20 : Int) = 17) by decide, show ¬((20 : Int) = 18) by decide,
      show ¬((20 : Int) = 19) by decide,
      show ¬((21 : Int) = 0) by decide, show ¬((21 : Int) = 10) by decide,
      show ¬((21 : Int) = 15) by decide, show ¬((21 : Int) = 16) by decide,
      show ¬((21 : Int) = 17) by decide, show ¬((21 : Int) = 18) by decide,
      show ¬((21 : Int) = 19) by decide, show ¬((21 : Int) = 20) by decide,
      if_false, if_true, h]

theorem unSwitch_neg (M : MathLib) (V : List VarType) (x : ℚ) :
    unSwitch M V 10 x 0 = (-x, 0) := by
  unfold unSwitch
  simp only [show ¬((10 : Int) = 0) by decide, if_false, if_true]

theorem unarOpNode_ne_null (op : Int) (t : PARSETREE) (h : t ≠ PARSETREE.NULL) :
    unarOpNode op t = PARSETREE.node UNOP op t PARSETREE.NULL 0 := by
  rw [unarOpNode, if_neg h]

theorem binOpNode_ne_null (op : Int) (l r : PARSETREE) (hl : l ≠ PARSETREE.NULL)
    (hr : r ≠ PARSETREE.NULL) :
    binOpNode op l r = PARSETREE.node BINOP op l r 0 := by
  rw [binOpNode, if_neg (by simp [hl, hr])]

theorem numNode_ne_null (id : Int) (a : ℚ) : numNode id a ≠ PARSETREE.NULL := by
  simp [numNode]

theorem eval_neg_const (M : MathLib) (V : List VarType) (a : ℚ) :
    _eval M V (unarOpNode 10 (numNode CONST a)) 0 = some (-a, 0) := by
  rw [unarOpNode_ne_null _ _ (numNode_ne_null _ _), _eval_unop, _eval_const]
  simp only [ne_eq, not_true_eq_false, if_false, unSwitch_neg]

/-- C6. A negative operand of `log`, `ln` or `sqrt` is a domain error: the value is 0 and
the code is 5, 6 or 7; the tree of `log(-1)` evaluates to 0 with code 5. -/
theorem negative_operand_domain_error (M : MathLib) (V : List VarType) :
    (∀ (t : PARSETREE) (x : ℚ), _eval M V t 0 = some (x, 0) → x < 0 →
      eval M V (unarOpNode 19 t) = some (0, 5) ∧
      eval M V (unarOpNode 20 t) = some (0, 6) ∧
      eval M V (unarOpNode 21 t) = some (0, 7)) ∧
    parse VARIABLE "log(-1)".toList =
      some ⟨unarOpNode 19 (unarOpNode 10 (numNode CONST 1)), 0, []⟩ ∧
    eval M V (unarOpNode 19 (unarOpNode 10 (numNode CONST 1))) = some (0, 5) := by
  have main : ∀ (t : PARSETREE) (x : ℚ), _eval M V t 0 = some (x, 0) → x < 0 →
      eval M V (unarOpNode 19 t) = some (0, 5) ∧
      eval M V (unarOpNode 20 t) = some (0, 6) ∧
      eval M V (unarOpNode 21 t) = some (0, 7) := by
    intro t x ht hx
    have hne : t ≠ PARSETREE.NULL := by
      rintro rfl
      rw [_eval] at ht
      cases ht
      exact absurd hx (lt_irrefl _)
    obtain ⟨h1, h2, h3⟩ := unSwitch_log_neg M V x hx
    refine ⟨?_, ?_, ?_⟩
    · rw [unarOpNode_ne_null _ _ hne, eval_unop_ok M V _ _ _ _ _ ht, h1]
    · rw [unarOpNode_ne_null _ _ hne, eval_unop_ok M V _ _ _ _ _ ht, h2]
    · rw [unarOpNode_ne_null _ _ hne, eval_unop_ok M V _ _ _ _ _ ht, h3]
  refine ⟨main, by decide!, ?_⟩
  exact (main _ (-1) (eval_neg_const M V 1) (by norm_num)).1

theorem negative_operand_domain_error_witness :
    eval zeroMath VARIABLE (unarOpNode 21 (unarOpNode 10 (numNode CONST 4))) = some (0, 7) :=
  ((negative_operand_domain_error zeroMath VARIABLE).1 (unarOpNode 10 (numNode CONST 4)) (-4)
    (by decide!) (by decide)).2.2

/-- C7. Division by zero is reported, not computed: a zero divisor gives the value 0 with
code 2, any other divisor the quotient with code 0; the tree of `1/0` evaluates to (0, 2). -/
theorem divide_by_zero_reported (M : MathLib) (V : List VarType) :
    (∀ (l r : PARSETREE) (x a b : ℚ), _eval M V l 0 = some (a, 0) →
      _eval M V r 0 = some (b, 0) →
      eval M V (PARSETREE.node BINOP 13 l r x) = some (if b = 0 then (0, 2) else (a / b, 0))) ∧
    parse VARIABLE "1/0".toList =
      some ⟨PARSETREE.node BINOP 13 (numNode CONST 1) (numNode CONST 0) 0, 0, []⟩ ∧
    eval M V (PARSETREE.node BINOP 13 (numNode CONST 1) (numNode CONST 0) 0) = some (0, 2) := by
  have main : ∀ (l r : PARSETREE) (x a b : ℚ), _eval M V l 0 = some (a, 0) →
      _eval M V r 0 = some (b, 0) →
      eval M V (PARSETREE.node BINOP 13 l r x) =
        some (if b = 0 then (0, 2) else (a / b, 0)) := by
    intro l r x a b hl hr
    rw [eval_binop_ok M V 13 l r x a b hl hr, binSwitch_divide]
  refine ⟨main, by decide!, ?_⟩
  rw [main _ _ 0 1 0 (_eval_const M V 1 0) (_eval_const M V 0 0), if_pos rfl]

theorem divide_by_zero_reported_witness :
    eval zeroMath VARIABLE (PARSETREE.node BINOP 13 (numNode CONST 6) (numNode CONST 3) 0) =
      some (if (3 : ℚ) = 0 then (0, 2) else (6 / 3, 0)) :=
  (divide_by_zero_reported zeroMath VARIABLE).1 (numNode CONST 6) (numNode CONST 3) 0 6 3
    (by decide!) (by decide!)

/-- C8. First runtime fault wins and the result is 0: a non-zero code comes with the
value 0; a fault of the left operand of a binary node is returned whatever the right
operand is; a fault of the right operand is returned when the left one has none; a
fault of the operand of a unary node is returned before the operator is applied. -/
theorem first_runtime_fault_wins (M : MathLib) (V : List VarType) :
    (∀ (p : PARSETREE) (v : ℚ) (c : Int), eval M V p = some (v, c) → c ≠ 0 → v = 0) ∧
    (∀ (op : Int) (l r : PARSETREE) (x y : ℚ) (c : Int),
      _eval M V l 0 = some (y, c) → c ≠ 0 →
      eval M V (PARSETREE.node BINOP op l r x) = some (0, c)) ∧
    (∀ (op : Int) (l r : PARSETREE) (x y z : ℚ) (c : Int),
      _eval M V l 0 = some (y, 0) → _eval M V r 0 = some (z, c) → c ≠ 0 →
      eval M V (PARSETREE.node BINOP op l r x) = some (0, c)) ∧
    (∀ (op : Int) (l r : PARSETREE) (x y : ℚ) (c : Int),
      _eval M V l 0 = some (y, c) → c ≠ 0 →
      eval M V (PARSETREE.node UNOP op l r x) = some (0, c)) := by
  refine ⟨?_, ?_, ?_, ?_⟩
  · intro p v c h hc
    cases p with
    | NULL =>
      rw [eval, if_pos rfl] at h
      cases h
      rfl
    | node t op l r x =>
      rw [eval_node] at h
      exact _eval_faultZero M V _ v c h hc
  · intro op l r x y c hl hc
    exact eval_binop_left_fault M V op l r x y c hl hc
  · intro op l r x y z c hl hr hc
    exact eval_binop_right_fault M V op l r x y z c hl hr hc
  · intro op l r x y c hl hc
    exact eval_unop_fault M V op l r x y c hl hc

theorem first_runtime_fault_wins_witness :
    eval zeroMath VARIABLE
      (PARSETREE.node BINOP 9
        (PARSETREE.node BINOP 13 (numNode CONST 1) (numNode CONST 0) 0)
        (PARSETREE.node UNOP 21 (numNode CONST (-1)) PARSETREE.NULL 0) 0) = some (0, 2) :=
  (first_runtime_fault_wins zeroMath VARIABLE).2.1 9
    (PARSETREE.node BINOP 13 (numNode CONST 1) (numNode CONST 0) 0)
    (PARSETREE.node UNOP 21 (numNode CONST (-1)) PARSETREE.NULL 0) 0 0 2
    (by decide!) (by decide)

/-! ## The variable table -/

theorem default_names_cons (V : List VarType)
    (hV : V.map VarType.name = VARIABLE.map VarType.name) :
    ∃ (x : VarType) (xs : List VarType), V = x :: xs ∧ x.name = "t".toList := by
  cases V with
  | nil => simp [VARIABLE] at hV
  | cons x xs =>
    refine ⟨x, xs, rfl, ?_⟩
    simp only [VARIABLE, List.map_cons, List.cons.injEq] at hV
    exact hV.1

theorem setVariable_t (V : List VarType)
    (hV : V.map VarType.name = VARIABLE.map VarType.name) (v : ℚ) :
    (setVariable V "t".toList v).1 = 0 ∧
    ((setVariable V "t".toList v).2).map VarType.name = VARIABLE.map VarType.name ∧
    (varAt (setVariable V "t".toList v).2 0).val = v := by
  obtain ⟨x, xs, rfl, hx⟩ := default_names_cons V hV
  have hid : getVarID (x :: xs) "t".toList = 0 := by
    simp [getVarID, getVarIDLoop, num_var, varAt, hx]
  have hs : setVariable (x :: xs) "t".toList v = (0, ⟨x.name, v⟩ :: xs) := by
    simp only [setVariable, hid]
    simp [VarNotFound, setVal]
  rw [hs]
  refine ⟨rfl, ?_, ?_⟩
  · rw [← hV]; rfl
  · simp [varAt]

theorem parse_congr_names (V W : List VarType)
    (h : V.map VarType.name = W.map VarType.name) (inp : List Char) :
    parse V inp = parse W inp := by
  unfold parse
  rw [h]

theorem eval_var0 (M : MathLib) (V : List VarType) :
    eval M V (numNode 0 0) = some ((varAt V 0).val, 0) := by
  rw [numNode, eval_node, _eval, if_neg (by decide), if_neg (by decide), if_pos rfl,
    if_neg (by decide), if_pos (by decide), if_pos (by decide)]
  rfl

/-- C5. A parsed tree re-reads variables at each evaluation: after `setVariable("t", v)` the
tree of `parse("t")` evaluates to `v` with code 0, and after a later `setVariable("t", w)`
the same tree evaluates to `w` with code 0. The table is any table with the names of
`VARIABLE`. -/
theorem tree_rereads_variables (M : MathLib) (V : List VarType)
    (hV : V.map VarType.name = VARIABLE.map VarType.name) (v w : ℚ) :
    ∃ tree : PARSETREE,
      parse (setVariable V "t".toList v).2 "t".toList = some ⟨tree, 0, []⟩ ∧
      eval M (setVariable V "t".toList v).2 tree = some (v, 0) ∧
      eval M (setVariable (setVariable V "t".toList v).2 "t".toList w).2 tree = some (w, 0) := by
  obtain ⟨_, hn1, hv1⟩ := setVariable_t V hV v
  obtain ⟨_, _, hv2⟩ := setVariable_t _ hn1 w
  refine ⟨numNode 0 0, ?_, ?_, ?_⟩
  · rw [parse_congr_names _ VARIABLE hn1]
    decide!
  · rw [eval_var0, hv1]
  · rw [eval_var0, hv2]

theorem tree_rereads_variables_witness :
    ∃ tree : PARSETREE,
      parse (setVariable VARIABLE "t".toList 5).2 "t".toList = some ⟨tree, 0, []⟩ ∧
      eval zeroMath (setVariable VARIABLE "t".toList 5).2 tree = some (5, 0) ∧
      eval zeroMath (setVariable (setVariable VARIABLE "t".toList 5).2 "t".toList 9).2 tree =
        some (9, 0) :=
  tree_rereads_variables zeroMath VARIABLE rfl 5 9

/-! ## The parser: how the state moves -/

theorem offset_mono {s1 s2 : PState} (h1 : s2.Start_str = s1.Start_str)
    (h2 : s2.Str <:+ s1.Str) : offset s1 ≤ offset s2 := by
  have := h2.length_le
  unfold offset
  rw [h1]
  omega

theorem Run.refl (s : PState) : Run s s :=
  ⟨rfl, List.suffix_refl _, Or.inl ⟨rfl, rfl, rfl, rfl⟩⟩

theorem Run.trans {s1 s2 s3 : PState} (h12 : Run s1 s2) (h23 : Run s2 s3) : Run s1 s3 := by
  obtain ⟨a1, b1, c1⟩ := h12
  obtain ⟨a2, b2, c2⟩ := h23
  refine ⟨a2.trans a1, b2.trans b1, ?_⟩
  rcases c1 with ⟨p1, q1, r1, o1⟩ | ⟨p1, q1, r1, k, d, hk1, hk2, hd, hm, ho⟩
  · rcases c2 with ⟨p2, q2, r2, o2⟩ | ⟨p2, q2, r2, k, d, hk1, hk2, hd, hm, ho⟩
    · exact Or.inl ⟨p2.trans p1, q2.trans q1, r2.trans r1, o2.trans o1⟩
    · refine Or.inr ⟨p1 ▸ p2, q2, r2.trans a1, k, d, ?_, hk2, hd, ?_, ?_⟩
      · exact le_trans (offset_mono a1 b1) hk1
      · rw [hm, r1]
      · rw [ho, o1, a1]
  · rcases c2 with ⟨p2, q2, r2, o2⟩ | ⟨p2, q2, r2, k2, d2, _, _, _, _, _⟩
    · refine Or.inr ⟨p1, p2.trans q1, q2.trans r1, k, d, hk1, ?_, hd, r2.trans hm, ?_⟩
      · exact le_trans hk2 (offset_mono a2 b2)
      · rw [o2, r2, ho]
    · rw [q1] at p2
      exact absurd p2 (by decide)

theorem Run.length_le {s1 s2 : PState} (h : Run s1 s2) : s2.Str.length ≤ s1.Str.length :=
  h.2.1.length_le

theorem Run.err_ne_zero {s1 s2 : PState} (h : Run s1 s2) (hne : s1.ParseError ≠ 0) :
    s2.ParseError ≠ 0 := by
  rcases h.2.2 with ⟨p, _⟩ | ⟨p, _⟩
  · rw [p]; exact hne
  · exact absurd p hne

theorem run_skipWhite (s : PState) : Run s (skipWhite s) :=
  ⟨rfl, List.dropWhile_suffix _, Or.inl ⟨rfl, rfl, rfl, rfl⟩⟩

theorem advance_overrun (n : Nat) (s : PState) :
    (advance n s).ghost.overrun = s.ghost.overrun := by
  unfold advance
  dsimp only
  split <;> rfl

theorem run_advance (n : Nat) (s : PState) : Run s (advance n s) :=
  ⟨rfl, List.drop_suffix _ _, Or.inl ⟨rfl, rfl, rfl, advance_overrun n s⟩⟩

theorem run_setStr (s : PState) (l : List Char) (h : l <:+ s.Str) :
    Run s { s with Str := l } :=
  ⟨rfl, h, Or.inl ⟨rfl, rfl, rfl, rfl⟩⟩

theorem run_error (d : List Char) (hd : d ∈ faultDescriptions) (s : PState) :
    Run s (error d s) := by
  unfold error
  split
  · rename_i h0
    refine ⟨rfl, List.suffix_refl _, Or.inr ⟨h0, rfl, rfl, offset s, d, le_refl _, le_refl _,
      hd, ?_, ?_⟩⟩
    · simp only [caretLine, List.append_assoc]
    · dsimp only
      split
      · rename_i hc
        simp only [true_iff]
        exact Or.inr hc
      · rename_i hc
        constructor
        · intro h
          exact Or.inl h
        · rintro (h | h)
          · exact h
          · exact absurd h hc
  · exact Run.refl s

theorem error_ne_zero (d : List Char) (s : PState) : (error d s).ParseError ≠ 0 := by
  unfold error
  split
  · simp
  · assumption

theorem matchTok_snd (t : List Char) (s : PState) : (matchTok t s).2 = skipWhite s := rfl

theorem matchTok_fst (t : List Char) (s : PState) :
    (matchTok t s).1 = t.isPrefixOf (skipWhite s).Str := rfl

theorem skipWhite_idem (s : PState) : skipWhite (skipWhite s) = skipWhite s := by
  have h : ∀ l : List Char, (l.dropWhile isWhite).dropWhile isWhite = l.dropWhile isWhite := by
    intro l
    induction l with
    | nil => rfl
    | cons c cs ih =>
      by_cases hc : isWhite c = true
      · rw [List.dropWhile_cons_of_pos hc, ih]
      · rw [List.dropWhile_cons_of_neg hc, List.dropWhile_cons_of_neg hc]
  simp only [skipWhite, h]

/-- After a successful `match`, stepping over the token shortens the input by its length. -/
theorem advance_length_of_match (t : List Char) (s : PState) (h : (matchTok t s).1 = true) :
    (advance t.length (matchTok t s).2).Str.length + t.length ≤ s.Str.length := by
  rw [matchTok_fst, List.isPrefixOf_iff_prefix] at h
  obtain ⟨r, hr⟩ := h
  have h2 := (run_skipWhite s).length_le
  rw [matchTok_snd]
  simp only [advance, List.length_drop]
  rw [← hr] at h2 ⊢
  simp only [List.length_append] at h2 ⊢
  omega

/-! ## The parser: the scanner and the shared steps -/


theorem digitLoop_suffix (l : List Char) : ∀ (v : ℚ), (digitLoop l v).1 <:+ l := by
  induction l with
  | nil => intro v; exact List.suffix_refl _
  | cons c cs ih =>
    intro v
    rw [digitLoop]
    split
    · exact (ih _).trans (List.suffix_cons c cs)
    · exact List.suffix_refl _

theorem fracLoop_suffix (l : List Char) : ∀ (v p : ℚ), (fracLoop l v p).1 <:+ l := by
  induction l with
  | nil => intro v p; exact List.suffix_refl _
  | cons c cs ih =>
    intro v p
    rw [fracLoop]
    split
    · exact (ih _ _).trans (List.suffix_cons c cs)
    · exact List.suffix_refl _

theorem run_signLoop : ∀ (fuel : Nat) (s : PState) (sign : Int),
    Run s (signLoop fuel s sign).1 := by
  intro fuel
  induction fuel with
  | zero => intro s sign; exact Run.refl s
  | succ n ih =>
    intro s sign
    rw [signLoop]
    split
    · exact ((run_skipWhite s).trans (run_advance 1 _)).trans (ih _ _)
    · split
      · exact (((run_skipWhite s).trans (run_skipWhite _)).trans (run_advance 1 _)).trans
          (ih _ _)
      · exact (run_skipWhite s).trans (run_skipWhite _)

theorem run_nameLoop (names : List (List Char)) (limit : Nat) :
    ∀ (fuel i : Nat) (s : PState), Run s (nameLoop names limit fuel i s).2 := by
  intro fuel
  induction fuel with
  | zero => intro i s; exact Run.refl s
  | succ n ih =>
    intro i s
    rw [nameLoop]
    split
    · split
      · exact run_skipWhite s
      · exact (run_skipWhite s).trans (ih _ _)
    · exact Run.refl s

theorem unexpected_mem : " unexpected symbol ".toList ∈ faultDescriptions := by
  simp [faultDescriptions]

theorem mismatched_mem : " Mis-matched parenthesis ".toList ∈ faultDescriptions := by
  simp [faultDescriptions]

theorem missing_mem : " Missing parenthesis ".toList ∈ faultDescriptions := by
  simp [faultDescriptions]

theorem run_ite_error (c : Prop) [Decidable c] (s : PState) :
    Run s (if c then error " unexpected symbol ".toList s else s) := by
  split
  · exact run_error _ unexpected_mem s
  · exact Run.refl s

theorem run_markScanSign (b : List Char) (s : PState) : Run s (markScanSign b s) := by
  unfold markScanSign
  split
  · exact Run.refl s
  · exact ⟨rfl, List.suffix_refl _, Or.inl ⟨rfl, rfl, rfl, rfl⟩⟩

theorem run_atofSign (s : PState) : Run s (atofSign s).2 := by
  unfold atofSign
  exact ((((run_skipWhite s).trans (run_signLoop _ _ _)).trans (run_markScanSign _ _)).trans
    (run_skipWhite _)).trans (run_ite_error _ _)

theorem run_atofMantissa (s : PState) : Run s (atofMantissa s).2.2 := by
  unfold atofMantissa
  dsimp only
  split
  · exact (((run_setStr s _ (digitLoop_suffix _ _)).trans (run_advance 1 _)).trans
      (run_setStr _ _ (fracLoop_suffix _ _ _))).trans (run_skipWhite _)
  · exact (run_setStr s _ (digitLoop_suffix _ _)).trans (run_skipWhite _)

theorem run_atofExponent (s : PState) : Run s (atofExponent s).2 := by
  unfold atofExponent
  dsimp only
  split
  · exact (((((run_advance 1 s).trans (run_skipWhite _)).trans (run_signLoop _ _ _)).trans
      (run_skipWhite _)).trans (run_ite_error _ _)).trans
      (run_setStr _ _ (digitLoop_suffix _ _))
  · exact Run.refl s

theorem run_myAtof (s : PState) : Run s (myAtof s).2 := by
  unfold myAtof
  exact ((run_atofSign s).trans (run_atofMantissa _)).trans (run_atofExponent _)

theorem returns_funcEnd (s0 s : PState) (temp : PARSETREE) (h : Run s0 s) :
    Returns s0 (funcEnd temp s) := by
  unfold funcEnd
  split
  · exact ⟨_, _, rfl, h.trans (run_error _ unexpected_mem s), fun _ => error_ne_zero _ _⟩
  · rename_i hne
    exact ⟨_, _, rfl, h, fun h0 => absurd h0 hne⟩

theorem returns_null_error (s0 s : PState) (d : List Char) (hd : d ∈ faultDescriptions)
    (h : Run s0 s) : Returns s0 (some (PARSETREE.NULL, error d s)) :=
  ⟨_, _, rfl, h.trans (run_error d hd s), fun _ => error_ne_zero _ _⟩

theorem Returns.mono {s0 s1 : PState} {r : Option (PARSETREE × PState)} (h : Run s0 s1)
    (hr : Returns s1 r) : Returns s0 r := by
  obtain ⟨t, s2, e, hrun, hn⟩ := hr
  exact ⟨t, s2, e, h.trans hrun, hn⟩

/-- The combination step shared by the binary layers: the right operand is parsed from
`s1` and joined to `left` by `binOpNode`. -/
theorem returns_binop (op : Int) (s0 s1 : PState) (left : PARSETREE)
    (r : Option (PARSETREE × PState)) (h01 : Run s0 s1)
    (hl : left = PARSETREE.NULL → s1.ParseError ≠ 0) :
    Returns s1 r →
    Returns s0 (match r with
      | none => none
      | some (x, s2) => some (binOpNode op left x, s2)) := by
  intro hr
  obtain ⟨t, s2, e, hrun, hn⟩ := hr
  subst e
  refine ⟨_, _, rfl, h01.trans hrun, ?_⟩
  intro hnull
  unfold binOpNode at hnull
  split at hnull
  · rename_i hor
    rcases hor with hL | hR
    · exact hrun.err_ne_zero (hl hL)
    · exact hn hR
  · cases hnull

theorem returns_unop (op : Int) (s0 s1 : PState) (r : Option (PARSETREE × PState))
    (h01 : Run s0 s1) :
    Returns s1 r →
    Returns s0 (match r with
      | none => none
      | some (x, s2) => some (unarOpNode op x, s2)) := by
  intro hr
  obtain ⟨t, s2, e, hrun, hn⟩ := hr
  subst e
  refine ⟨_, _, rfl, h01.trans hrun, ?_⟩
  intro hnull
  unfold unarOpNode at hnull
  split at hnull
  · rename_i hL
    exact hn hL
  · cases hnull

/-! ## The parser: every layer returns -/

theorem run_match_advance (t : List Char) (n : Nat) (s : PState) :
    Run s (advance n (matchTok t s).2) :=
  (run_skipWhite s).trans (run_advance n _)

theorem run_match (t : List Char) (s : PState) : Run s (matchTok t s).2 :=
  run_skipWhite s

theorem advance_length_of_cur (s : PState) (c : Char) (hc : c ≠ NUL) (h : cur s = c) :
    (advance 1 s).Str.length + 1 ≤ s.Str.length := by
  unfold cur at h
  unfold advance
  cases hs : s.Str with
  | nil => rw [hs] at h; exact absurd h.symm hc
  | cons a as => simp

/-- One more unit of fuel for `expr`. -/
theorem returns_expr_step (N : List (List Char)) (f : Nat)
    (hterm : ∀ s : PState, 8 * s.Str.length + 7 ≤ f → Returns s (term N f s))
    (hexpr : ∀ s : PState, 8 * s.Str.length + 8 ≤ f → Returns s (expr N f s))
    (s : PState) (h : 8 * s.Str.length + 8 ≤ f + 1) : Returns s (expr N (f + 1) s) := by
  rw [expr]
  obtain ⟨left, s1, e, hrun, hn⟩ := hterm s (by omega)
  rw [e]
  dsimp only
  have hL := hrun.length_le
  have hnull : ∀ (t : List Char) (n : Nat), left = PARSETREE.NULL →
      (advance n (matchTok t s1).2).ParseError ≠ 0 :=
    fun t n h0 => (run_match_advance t n s1).err_ne_zero (hn h0)
  split
  · rename_i hm
    have hlen : (advance 2 (matchTok "&&".toList s1).2).Str.length + 2 ≤ s1.Str.length :=
      advance_length_of_match "&&".toList s1 hm
    exact returns_binop 1 s (advance 2 (matchTok "&&".toList s1).2) left _
      (hrun.trans (run_match_advance _ _ _)) (hnull _ _) (hexpr _ (by omega))
  · split
    · rename_i hm
      have hlen : (advance 2 (matchTok "||".toList s1).2).Str.length + 2 ≤ s1.Str.length :=
        advance_length_of_match "||".toList s1 hm
      exact returns_binop 2 s (advance 2 (matchTok "||".toList s1).2) left _
        (hrun.trans (run_match_advance _ _ _)) (hnull _ _) (hexpr _ (by omega))
    · exact ⟨_, _, rfl, hrun.trans (run_match _ _),
        fun h0 => (run_match _ _).err_ne_zero (hn h0)⟩

/-- The tail shared by the binary layers: if the operator `tok` stands at the cursor the
right operand is parsed by `g` behind it, otherwise the layer goes on with `rest`. -/
theorem returns_ite_binop (tok : List Char) (htok : 0 < tok.length) (op : Int) (s s1 : PState)
    (left : PARSETREE) (g : PState → Option (PARSETREE × PState))
    (rest : Option (PARSETREE × PState)) (hrun : Run s s1)
    (hn : left = PARSETREE.NULL → s1.ParseError ≠ 0)
    (hg : ∀ sa : PState, sa.Str.length + 1 ≤ s1.Str.length → Returns sa (g sa)) :
    Returns s rest →
    Returns s (if (matchTok tok s1).1 = true then
        (match g (advance tok.length (matchTok tok s1).2) with
          | none => none
          | some (r, s2) => some (binOpNode op left r, s2))
      else rest) := by
  intro hrest
  split
  · rename_i hm
    have hlen := advance_length_of_match tok s1 hm
    exact returns_binop op s (advance tok.length (matchTok tok s1).2) left _
      (hrun.trans (run_match_advance _ _ _))
      (fun h0 => (run_match_advance _ _ _).err_ne_zero (hn h0)) (hg _ (by omega))
  · exact hrest

/-- The tail of a layer when no operator of the layer stands at the cursor. -/
theorem returns_left (tok : List Char) (s s1 : PState) (left : PARSETREE) (hrun : Run s s1)
    (hn : left = PARSETREE.NULL → s1.ParseError ≠ 0) :
    Returns s (some (left, (matchTok tok s1).2)) :=
  ⟨_, _, rfl, hrun.trans (run_match _ _), fun h0 => (run_match _ _).err_ne_zero (hn h0)⟩

/-- One more unit of fuel for `term`. -/
theorem returns_term_step (N : List (List Char)) (f : Nat)
    (hfact : ∀ s : PState, 8 * s.Str.length + 6 ≤ f → Returns s (fact N f s))
    (hterm : ∀ s : PState, 8 * s.Str.length + 7 ≤ f → Returns s (term N f s))
    (s : PState) (h : 8 * s.Str.length + 7 ≤ f + 1) : Returns s (term N (f + 1) s) := by
  rw [term]
  obtain ⟨left, s1, e, hrun, hn⟩ := hfact s (by omega)
  rw [e]
  dsimp only
  have hL := hrun.length_le
  have hg : ∀ sa : PState, sa.Str.length + 1 ≤ s1.Str.length → Returns sa (term N f sa) :=
    fun sa hsa => hterm sa (by omega)
  refine returns_ite_binop "<=".toList (by decide) 3 s s1 left (term N f) _ hrun hn hg ?_
  refine returns_ite_binop "<".toList (by decide) 4 s s1 left (term N f) _ hrun hn hg ?_
  refine returns_ite_binop ">=".toList (by decide) 5 s s1 left (term N f) _ hrun hn hg ?_
  refine returns_ite_binop ">".toList (by decide) 6 s s1 left (term N f) _ hrun hn hg ?_
  refine returns_ite_binop "==".toList (by decide) 7 s s1 left (term N f) _ hrun hn hg ?_
  refine returns_ite_binop "!=".toList (by decide) 8 s s1 left (term N f) _ hrun hn hg ?_
  exact returns_left _ s s1 left hrun hn

/-- One more unit of fuel for `fact`. -/
theorem returns_fact_step (N : List (List Char)) (f : Nat)
    (hpart : ∀ s : PState, 8 * s.Str.length + 5 ≤ f → Returns s (part N f s))
    (hfact : ∀ s : PState, 8 * s.Str.length + 6 ≤ f → Returns s (fact N f s))
    (s : PState) (h : 8 * s.Str.length + 6 ≤ f + 1) : Returns s (fact N (f + 1) s) := by
  rw [fact]
  obtain ⟨left, s1, e, hrun, hn⟩ := hpart s (by omega)
  rw [e]
  dsimp only
  have hL := hrun.length_le
  have hg : ∀ sa : PState, sa.Str.length + 1 ≤ s1.Str.length → Returns sa (fact N f sa) :=
    fun sa hsa => hfact sa (by omega)
  refine returns_ite_binop "+".toList (by decide) 9 s s1 left (fact N f) _ hrun hn hg ?_
  refine returns_ite_binop "-".toList (by decide) 10 s s1 left (fact N f) _ hrun hn hg ?_
  exact returns_left _ s s1 left hrun hn

/-- One more unit of fuel for `part2`. -/
theorem returns_part2_step (N : List (List Char)) (f : Nat)
    (hconst : ∀ s : PState, 8 * s.Str.length + 2 ≤ f → Returns s (get_constant N f s))
    (hpart2 : ∀ s : PState, 8 * s.Str.length + 3 ≤ f → Returns s (part2 N f s))
    (s : PState) (h : 8 * s.Str.length + 3 ≤ f + 1) : Returns s (part2 N (f + 1) s) := by
  rw [part2]
  obtain ⟨left, s1, e, hrun, hn⟩ := hconst s (by omega)
  rw [e]
  dsimp only
  have hL := hrun.length_le
  have hg : ∀ sa : PState, sa.Str.length + 1 ≤ s1.Str.length → Returns sa (part2 N f sa) :=
    fun sa hsa => hpart2 sa (by omega)
  refine returns_ite_binop "^".toList (by decide) 14 s s1 left (part2 N f) _ hrun hn hg ?_
  exact returns_left _ s s1 left hrun hn

/-- The same tail with the operator found by a test of the character at the cursor, as in
the statements after the division loop of `part`. -/
theorem returns_ite_cur_binop (c : Char) (hc : c ≠ NUL) (op : Int) (s s1 : PState)
    (left : PARSETREE) (g : PState → Option (PARSETREE × PState))
    (rest : Option (PARSETREE × PState)) (hrun : Run s s1)
    (hn : left = PARSETREE.NULL → s1.ParseError ≠ 0)
    (hg : ∀ sa : PState, sa.Str.length + 1 ≤ s1.Str.length → Returns sa (g sa)) :
    Returns s rest →
    Returns s (if cur s1 = c then
        (match g (advance 1 s1) with
          | none => none
          | some (r, s2) => some (binOpNode op left r, s2))
      else rest) := by
  intro hrest
  split
  · rename_i hm
    have hlen := advance_length_of_cur s1 c hc hm
    exact returns_binop op s (advance 1 s1) left _ (hrun.trans (run_advance _ _))
      (fun h0 => (run_advance _ _).err_ne_zero (hn h0)) (hg _ (by omega))
  · exact hrest

/-- One more unit of fuel for the division loop of `part`. -/
theorem returns_partLoop_step (N : List (List Char)) (f : Nat)
    (hpart2 : ∀ s : PState, 8 * s.Str.length + 3 ≤ f → Returns s (part2 N f s))
    (hloop : ∀ (left : PARSETREE) (s : PState), 8 * s.Str.length + 4 ≤ f →
      (left = PARSETREE.NULL → s.ParseError ≠ 0) → Returns s (partLoop N f left s))
    (hpart : ∀ s : PState, 8 * s.Str.length + 5 ≤ f → Returns s (part N f s))
    (left : PARSETREE) (s : PState) (h : 8 * s.Str.length + 4 ≤ f + 1)
    (hn : left = PARSETREE.NULL → s.ParseError ≠ 0) :
    Returns s (partLoop N (f + 1) left s) := by
  rw [partLoop]
  have hrun : Run s (matchTok "/".toList s).2 := run_match _ _
  have hL := hrun.length_le
  have hn1 : left = PARSETREE.NULL → (matchTok "/".toList s).2.ParseError ≠ 0 :=
    fun h0 => hrun.err_ne_zero (hn h0)
  have hg : ∀ sa : PState, sa.Str.length + 1 ≤ (matchTok "/".toList s).2.Str.length →
      Returns sa (part N f sa) := fun sa hsa => hpart sa (by omega)
  split
  · rename_i hm
    have hlen : (advance 1 (matchTok "/".toList s).2).Str.length + 1 ≤ s.Str.length :=
      advance_length_of_match "/".toList s hm
    obtain ⟨r, s1, e, hrun1, hnr⟩ := hpart2 (advance 1 (matchTok "/".toList s).2) (by omega)
    rw [e]
    dsimp only
    have hL1 := hrun1.length_le
    refine Returns.mono ((run_match_advance _ _ _).trans hrun1) (hloop _ s1 (by omega) ?_)
    intro hnull
    unfold binOpNode at hnull
    split at hnull
    · rename_i hor
      rcases hor with hl | hr
      · exact ((run_match_advance "/".toList 1 s).trans hrun1).err_ne_zero (hn hl)
      · exact hnr hr
    · cases hnull
  · refine returns_ite_cur_binop '*' (by decide) 11 s _ left (part N f) _ hrun hn1 hg ?_
    refine returns_ite_cur_binop '%' (by decide) 12 s _ left (part N f) _ hrun hn1 hg ?_
    exact ⟨_, _, rfl, hrun, hn1⟩

/-- One more unit of fuel for `part`. -/
theorem returns_part_step (N : List (List Char)) (f : Nat)
    (hpart2 : ∀ s : PState, 8 * s.Str.length + 3 ≤ f → Returns s (part2 N f s))
    (hloop : ∀ (left : PARSETREE) (s : PState), 8 * s.Str.length + 4 ≤ f →
      (left = PARSETREE.NULL → s.ParseError ≠ 0) → Returns s (partLoop N f left s))
    (hpart : ∀ s : PState, 8 * s.Str.length + 5 ≤ f → Returns s (part N f s))
    (s : PState) (h : 8 * s.Str.length + 5 ≤ f + 1) : Returns s (part N (f + 1) s) := by
  rw [part]
  obtain ⟨left, s1, e, hrun, hn⟩ := hpart2 s (by omega)
  rw [e]
  dsimp only
  have hL := hrun.length_le
  have hg : ∀ sa : PState, sa.Str.length + 1 ≤ s1.Str.length → Returns sa (part N f sa) :=
    fun sa hsa => hpart sa (by omega)
  refine returns_ite_binop "*".toList (by decide) 11 s s1 left (part N f) _ hrun hn hg ?_
  refine returns_ite_binop "%".toList (by decide) 12 s s1 left (part N f) _ hrun hn hg ?_
  split
  · have hL2 := (run_match "/".toList s1).length_le
    exact Returns.mono (hrun.trans (run_match _ _))
      (hloop left _ (by omega) (fun h0 => (run_match _ _).err_ne_zero (hn h0)))
  · exact returns_left _ s s1 left hrun hn

/-- One more unit of fuel for `get_constant`. -/
theorem returns_get_constant_step (N : List (List Char)) (f : Nat)
    (hfunc : ∀ s : PState, 8 * s.Str.length + 1 ≤ f → Returns s (func N f s))
    (hconst : ∀ s : PState, 8 * s.Str.length + 2 ≤ f → Returns s (get_constant N f s))
    (s : PState) (h : 8 * s.Str.length + 2 ≤ f + 1) :
    Returns s (get_constant N (f + 1) s) := by
  rw [get_constant]
  split
  · rename_i hm
    have hlen : (advance 1 (matchTok "+".toList s).2).Str.length + 1 ≤ s.Str.length :=
      advance_length_of_match "+".toList s hm
    exact Returns.mono (run_match_advance _ _ _) (hconst _ (by omega))
  · split
    · rename_i hm
      have hlen : (advance 1 (matchTok "-".toList s).2).Str.length + 1 ≤ s.Str.length :=
        advance_length_of_match "-".toList s hm
      exact returns_unop 10 s (advance 1 (matchTok "-".toList s).2) _
        (run_match_advance _ _ _) (hconst _ (by omega))
    · split
      · rename_i hm
        have hlen : (advance 1 (matchTok "!".toList s).2).Str.length + 1 ≤ s.Str.length :=
          advance_length_of_match "!".toList s hm
        exact returns_unop 0 s (advance 1 (matchTok "!".toList s).2) _
          (run_match_advance _ _ _) (hconst _ (by omega))
      · have hL := (run_match "!".toList s).length_le
        exact Returns.mono (run_match _ _) (hfunc _ (by omega))

/-- The closing of a parenthesised expression in `func`: `)` is stepped over, or the
mismatch is a fault. -/
theorem returns_close (s s1 : PState) (temp : PARSETREE) (hrun : Run s s1) :
    Returns s (if (matchTok ")".toList s1).1 = true then
        funcEnd temp (advance 1 (matchTok ")".toList s1).2)
      else some (PARSETREE.NULL,
        error " Mis-matched parenthesis ".toList (matchTok ")".toList s1).2)) := by
  split
  · exact returns_funcEnd s _ temp (hrun.trans (run_match_advance _ _ _))
  · exact returns_null_error s _ _ mismatched_mem (hrun.trans (run_match _ _))

/-- One more unit of fuel for `func`. -/
theorem returns_func_step (N : List (List Char)) (f : Nat)
    (hexpr : ∀ s : PState, 8 * s.Str.length + 8 ≤ f → Returns s (expr N f s))
    (s : PState) (h : 8 * s.Str.length + 1 ≤ f + 1) : Returns s (func N (f + 1) s) := by
  rw [func]
  dsimp only
  split
  · rename_i hm
    have hlen : (advance 1 (matchTok "(".toList s).2).Str.length + 1 ≤ s.Str.length :=
      advance_length_of_match "(".toList s hm
    obtain ⟨temp, s1, e, hrun, hn⟩ := hexpr (advance 1 (matchTok "(".toList s).2) (by omega)
    rw [e]
    dsimp only
    exact returns_close s s1 temp ((run_match_advance _ _ _).trans hrun)
  · split
    · have hr0 : Run s (nameLoop OPRATOR NUMRATOR (NUMRATOR - FUNCSTART) FUNCSTART
          (matchTok "(".toList s).2).2 := (run_match _ _).trans (run_nameLoop _ _ _ _ _)
      obtain ⟨r, hrdef⟩ : ∃ r, r = nameLoop OPRATOR NUMRATOR (NUMRATOR - FUNCSTART) FUNCSTART
          (matchTok "(".toList s).2 := ⟨_, rfl⟩
      rw [← hrdef] at hr0 ⊢
      split
      · have hr1 : Run s (advance (OPRATOR.getD r.1 []).length r.2) :=
          hr0.trans (run_advance _ _)
        split
        · exact returns_null_error s _ _ missing_mem (hr1.trans (run_match _ _))
        · rename_i hm
          have hm2 : (matchTok "(".toList (advance (OPRATOR.getD r.1 []).length r.2)).1 = true := by
            simpa using hm
          have hlen : (advance 1 (matchTok "(".toList
              (advance (OPRATOR.getD r.1 []).length r.2)).2).Str.length + 1 ≤
              (advance (OPRATOR.getD r.1 []).length r.2).Str.length :=
            advance_length_of_match "(".toList _ hm2
          have hL := hr1.length_le
          obtain ⟨arg, s2, e, hrun, hn⟩ := hexpr (advance 1 (matchTok "(".toList
              (advance (OPRATOR.getD r.1 []).length r.2)).2) (by omega)
          rw [e]
          dsimp only
          exact returns_close s s2 _ ((hr1.trans (run_match_advance _ _ _)).trans hrun)
      · have hq0 : Run s (nameLoop N num_var num_var 0 r.2).2 :=
          hr0.trans (run_nameLoop _ _ _ _ _)
        split
        · exact returns_funcEnd s _ _ (hq0.trans (run_advance _ _))
        · exact returns_funcEnd s _ _ hq0
    · exact returns_funcEnd s _ _ ((run_match _ _).trans (run_myAtof _))

/-- The eight layers return when the fuel is at least eight times the length of the
unread input plus the rank of the layer. -/
theorem returns_all (N : List (List Char)) : ∀ f : Nat,
    (∀ s : PState, 8 * s.Str.length + 8 ≤ f → Returns s (expr N f s)) ∧
    (∀ s : PState, 8 * s.Str.length + 7 ≤ f → Returns s (term N f s)) ∧
    (∀ s : PState, 8 * s.Str.length + 6 ≤ f → Returns s (fact N f s)) ∧
    (∀ s : PState, 8 * s.Str.length + 5 ≤ f → Returns s (part N f s)) ∧
    (∀ (left : PARSETREE) (s : PState), 8 * s.Str.length + 4 ≤ f →
      (left = PARSETREE.NULL → s.ParseError ≠ 0) → Returns s (partLoop N f left s)) ∧
    (∀ s : PState, 8 * s.Str.length + 3 ≤ f → Returns s (part2 N f s)) ∧
    (∀ s : PState, 8 * s.Str.length + 2 ≤ f → Returns s (get_constant N f s)) ∧
    (∀ s : PState, 8 * s.Str.length + 1 ≤ f → Returns s (func N f s)) := by
  intro f
  induction f with
  | zero =>
    refine ⟨?_, ?_, ?_, ?_, ?_, ?_, ?_, ?_⟩ <;> intros <;> omega
  | succ f ih =>
    obtain ⟨h8, h7, h6, h5, h4, h3, h2, h1⟩ := ih
    exact ⟨returns_expr_step N f h7 h8, returns_term_step N f h6 h7,
      returns_fact_step N f h5 h6, returns_part_step N f h3 h4 h5,
      returns_partLoop_step N f h3 h4 h5, returns_part2_step N f h2 h3,
      returns_get_constant_step N f h1 h2, returns_func_step N f h8⟩

theorem returns_expr (N : List (List Char)) (f : Nat) (s : PState)
    (h : 8 * s.Str.length + 8 ≤ f) : Returns s (expr N f s) :=
  (returns_all N f).1 s h

/-! ## The function `parse` -/

theorem run_trailLoop (s : PState) : ∀ l : List Char, l <:+ s.Str → Run s (trailLoop s l) := by
  intro l
  induction l with
  | nil => intro h; exact run_setStr s [] h
  | cons c cs ih =>
    intro h
    rw [trailLoop]
    split
    · exact run_setStr s (c :: cs) h
    · split
      · exact (run_setStr s (c :: cs) h).trans (run_error _ unexpected_mem _)
      · exact ih ((List.suffix_cons c cs).trans h)

/-- The grammar started by `parse` returns: the fuel that `parse` supplies suffices. -/
theorem parse_expr_returns (N : List (List Char)) (inp : List Char) :
    Returns ⟨skipBlank inp, inp, [], [], 0, ghost0⟩
      (expr N (8 * (skipBlank inp).length + 8) ⟨skipBlank inp, inp, [], [], 0, ghost0⟩) :=
  returns_expr N _ _ (le_refl _)

theorem error_latch (d : List Char) (s : PState) (h0 : s.ParseError = 0) :
    (error d s).ParseError = 1 ∧ (error d s).err1Message = s.Start_str ∧
      (error d s).err2Message = s.err2Message ++ caretLine (offset s) d ∧
      (error d s).Str = s.Str := by
  unfold error
  rw [if_pos h0]
  simp only [caretLine, List.append_assoc, and_self]

/-- What `parse` returns in terms of the state in which the trailing loop ends. -/
theorem parse_run (V : List VarType) (inp : List Char)
    (hc : ¬ cur ⟨skipBlank inp, inp, [], [], 0, ghost0⟩ = NUL) :
    ∃ (t : PARSETREE) (s1 : PState),
      expr (V.map VarType.name) (8 * (skipBlank inp).length + 8)
        ⟨skipBlank inp, inp, [], [], 0, ghost0⟩ = some (t, s1) ∧
      Run ⟨skipBlank inp, inp, [], [], 0, ghost0⟩ s1 ∧
      Run s1 (trailLoop s1 s1.Str) ∧
      (t = PARSETREE.NULL → s1.ParseError ≠ 0) ∧
      parse V inp = some (if (trailLoop s1 s1.Str).ParseError ≠ 0 then
          ⟨PARSETREE.NULL, (trailLoop s1 s1.Str).ParseError,
            (trailLoop s1 s1.Str).err1Message ++ "\n  ".toList ++
              (trailLoop s1 s1.Str).err2Message⟩
        else ⟨t, (trailLoop s1 s1.Str).ParseError, []⟩) := by
  obtain ⟨t, s1, e, hrun, hn⟩ := parse_expr_returns (V.map VarType.name) inp
  refine ⟨t, s1, e, hrun, run_trailLoop s1 s1.Str (List.suffix_refl _), hn, ?_⟩
  unfold parse
  dsimp only
  rw [if_neg hc, e]
  dsimp only
  split <;> rfl

theorem skipBlank_suffix (l : List Char) : skipBlank l <:+ l :=
  List.dropWhile_suffix _

/-- C10. The leading loop of `parse` steps over spaces and tabs only: on the input made
of a space and a line break the grammar runs and `parse` returns the flag 1 with an
`unexpected symbol` message, not the flag -1 with the `Not a Function` message; the
same on a lone line break. -/
theorem leading_newline_not_skipped :
    parse VARIABLE " \n".toList =
      some ⟨PARSETREE.NULL, 1, " \n\n  -^ unexpected symbol ".toList⟩ ∧
    parse VARIABLE "\n".toList =
      some ⟨PARSETREE.NULL, 1, "\n\n  ^ unexpected symbol ".toList⟩ ∧
    parse VARIABLE " \t".toList =
      some ⟨PARSETREE.NULL, -1, " \t".toList ++ "\n Not a Function ".toList⟩ := by
  decide!

theorem isWhite_eq_false_iff (c : Char) :
    isWhite c = false ↔ (c ≠ ' ' ∧ c ≠ '\t' ∧ c ≠ '\n') := by
  simp only [isWhite, Bool.or_eq_false_iff, decide_eq_false_iff_not]
  tauto

theorem NUL_not_white : isWhite NUL = false := by decide

/-- The trailing loop of `parse` on input with a character that is not white space: the
fault is latched at the first such character. -/
theorem trailLoop_reject (s : PState) : ∀ l : List Char, NUL ∉ l →
    (∃ c ∈ l, isWhite c = false) →
    trailLoop s l = error " unexpected symbol ".toList { s with Str := l.dropWhile isWhite } := by
  intro l
  induction l with
  | nil => intro _ h; obtain ⟨c, hc, _⟩ := h; cases hc
  | cons c cs ih =>
    intro hn hex
    rw [trailLoop]
    have hc0 : ¬ c = NUL := fun h => hn (h ▸ List.mem_cons_self _ _)
    rw [if_neg hc0]
    by_cases hw : isWhite c = false
    · have hw2 := (isWhite_eq_false_iff c).mp hw
      rw [if_pos ⟨hw2.1, hw2.2.2, hw2.2.1⟩, List.dropWhile_cons_of_neg (by simp [hw])]
    · have hw1 : isWhite c = true := by simpa using hw
      have hw2 : ¬ (c ≠ ' ' ∧ c ≠ '\n' ∧ c ≠ '\t') := by
        intro h
        exact hw ((isWhite_eq_false_iff c).mpr ⟨h.1, h.2.2, h.2.1⟩)
      rw [if_neg hw2, List.dropWhile_cons_of_pos hw1]
      refine ih (fun h => hn (List.mem_cons_of_mem _ h)) ?_
      obtain ⟨d, hd, hdw⟩ := hex
      rcases List.mem_cons.mp hd with rfl | hd
      · exact absurd hdw hw
      · exact ⟨d, hd, hdw⟩

/-- The error fields at the end of the grammar when it latched no fault. -/
theorem fields_of_no_fault (inp : List Char) (s1 : PState)
    (hrun : Run ⟨skipBlank inp, inp, [], [], 0, ghost0⟩ s1) (h0 : s1.ParseError = 0) :
    s1.Start_str = inp ∧ s1.err2Message = [] := by
  obtain ⟨a, _, c⟩ := hrun
  rcases c with ⟨_, _, r, _⟩ | ⟨_, q, _⟩
  · exact ⟨a, r⟩
  · rw [h0] at q; exact absurd q (by decide)

/-! ## The variable table: lookup and update -/

/-- The loop of `getVarID` stops at the first index from `i` on, below `num_var`, whose
name is `s`, and at `num_var` when there is none. -/
theorem getVarIDLoop_spec (V : List VarType) (s : List Char) :
    ∀ (fuel i : Nat), i + fuel = num_var →
      i ≤ getVarIDLoop V s fuel i ∧ getVarIDLoop V s fuel i ≤ num_var ∧
      (∀ j, i ≤ j → j < getVarIDLoop V s fuel i → (varAt V j).name ≠ s) ∧
      (getVarIDLoop V s fuel i < num_var → (varAt V (getVarIDLoop V s fuel i)).name = s) := by
  intro fuel
  induction fuel with
  | zero =>
    intro i hi
    rw [getVarIDLoop]
    refine ⟨le_refl _, by omega, fun j h1 h2 => by omega, fun h => by omega⟩
  | succ n ih =>
    intro i hi
    rw [getVarIDLoop]
    have hlt : i < num_var := by omega
    rw [if_pos hlt]
    split
    · rename_i he
      exact ⟨le_refl _, le_of_lt hlt, fun j h1 h2 => by omega, fun _ => he.symm⟩
    · rename_i hne
      obtain ⟨a, b, c, d⟩ := ih (i + 1) (by omega)
      refine ⟨by omega, b, ?_, d⟩
      intro j h1 h2
      by_cases hj : j = i
      · subst hj; exact fun h => hne h.symm
      · exact c j (by omega) h2

theorem setVal_length (V : List VarType) : ∀ (i : Nat) (v : ℚ),
    (setVal V i v).length = V.length := by
  induction V with
  | nil => intro i v; rfl
  | cons x xs ih =>
    intro i v
    cases i with
    | zero => rfl
    | succ i => simp [setVal, ih]

theorem setVal_name (V : List VarType) : ∀ (i j : Nat) (v : ℚ),
    (varAt (setVal V i v) j).name = (varAt V j).name := by
  induction V with
  | nil => intro i j v; rfl
  | cons x xs ih =>
    intro i j v
    cases i with
    | zero =>
      cases j with
      | zero => rfl
      | succ j => rfl
    | succ i =>
      cases j with
      | zero => rfl
      | succ j => exact ih i j v

theorem setVal_val_ne (V : List VarType) : ∀ (i j : Nat) (v : ℚ), j ≠ i →
    (varAt (setVal V i v) j).val = (varAt V j).val := by
  induction V with
  | nil => intro i j v _; rfl
  | cons x xs ih =>
    intro i j v hne
    cases i with
    | zero =>
      cases j with
      | zero => exact absurd rfl hne
      | succ j => rfl
    | succ i =>
      cases j with
      | zero => rfl
      | succ j => exact ih i j v (fun h => hne (by rw [h]))

theorem setVal_val_eq (V : List VarType) : ∀ (i : Nat) (v : ℚ), i < V.length →
    (varAt (setVal V i v) i).val = v := by
  induction V with
  | nil => intro i v h; cases h
  | cons x xs ih =>
    intro i v h
    cases i with
    | zero => rfl
    | succ i => exact ih i v (Nat.lt_of_succ_lt_succ h)

theorem getVarID_found (V : List VarType) (name : List Char) (i : Nat) (hi : i < num_var)
    (hname : (varAt V i).name = name) (hfirst : ∀ j, j < i → (varAt V j).name ≠ name) :
    getVarID V name = (i : Int) := by
  obtain ⟨_, _, c, d⟩ := getVarIDLoop_spec V name num_var 0 (by omega)
  have hle : getVarIDLoop V name num_var 0 ≤ i := by
    by_contra hcon
    exact c i (Nat.zero_le _) (by omega) hname
  have hlt : getVarIDLoop V name num_var 0 < num_var := by omega
  have heq : getVarIDLoop V name num_var 0 = i := by
    by_contra hcon
    exact hfirst _ (by omega) (d hlt)
  unfold getVarID
  dsimp only
  rw [if_pos hlt, heq]

theorem getVarID_not_found (V : List VarType) (name : List Char)
    (hno : ∀ i, i < num_var → (varAt V i).name ≠ name) :
    getVarID V name = VarNotFound := by
  obtain ⟨_, _, _, d⟩ := getVarIDLoop_spec V name num_var 0 (by omega)
  unfold getVarID
  dsimp only
  split
  · rename_i hlt
    exact absurd (d hlt) (hno _ hlt)
  · rfl

/-- C12. The function `setVariable` only updates existing entries. On a table with at
least `num_var` slots: if `name` is the name of an active slot and `i` is the first such
slot, the call returns `i`, slot `i` has the value `v` afterwards, every other slot keeps
its value, every slot keeps its name and the table keeps its length; if no active slot
has the name, the call returns `VarNotFound` and the table is unchanged. -/
theorem setVariable_updates_existing_only (V : List VarType) (hV : num_var ≤ V.length)
    (name : List Char) (v : ℚ) :
    (∀ i : Nat, i < num_var → (varAt V i).name = name →
      (∀ j, j < i → (varAt V j).name ≠ name) →
      (setVariable V name v).1 = (i : Int) ∧
      (varAt (setVariable V name v).2 i).val = v ∧
      (∀ j, j ≠ i → (varAt (setVariable V name v).2 j).val = (varAt V j).val) ∧
      (∀ j, (varAt (setVariable V name v).2 j).name = (varAt V j).name) ∧
      (setVariable V name v).2.length = V.length) ∧
    ((∀ i : Nat, i < num_var → (varAt V i).name ≠ name) →
      setVariable V name v = (VarNotFound, V)) := by
  constructor
  · intro i hi hname hfirst
    have hid := getVarID_found V name i hi hname hfirst
    have hs : setVariable V name v = ((i : Int), setVal V i v) := by
      unfold setVariable
      dsimp only
      rw [hid, if_pos (by unfold VarNotFound; omega), Int.toNat_ofNat]
    rw [hs]
    exact ⟨rfl, setVal_val_eq V i v (by omega), fun j hj => setVal_val_ne V i j v hj,
      fun j => setVal_name V i j v, setVal_length V i v⟩
  · intro hno
    unfold setVariable
    dsimp only
    rw [getVarID_not_found V name hno, if_neg (by simp)]

theorem setVariable_updates_existing_only_witness :
    (setVariable VARIABLE "e".toList 7).1 = ((2 : Nat) : Int) ∧
      (varAt (setVariable VARIABLE "e".toList 7).2 2).val = 7 ∧
      (∀ j, j ≠ 2 → (varAt (setVariable VARIABLE "e".toList 7).2 j).val =
        (varAt VARIABLE j).val) ∧
      (∀ j, (varAt (setVariable VARIABLE "e".toList 7).2 j).name = (varAt VARIABLE j).name) ∧
      (setVariable VARIABLE "e".toList 7).2.length = VARIABLE.length :=
  (setVariable_updates_existing_only VARIABLE (by decide) "e".toList 7).1 2 (by decide)
    (by decide) (by decide)

/-- C13. For a name that no active variable has, `getVarID` and `setVariable` return
`VarNotFound`, which is -1 and not the 9999 of the comment above them: so for the
name `x` on the table `VARIABLE`. -/
theorem not_found_returns_minus_one :
    getVarID VARIABLE "x".toList = -1 ∧ (setVariable VARIABLE "x".toList 1).1 = -1 ∧
      getVarID VARIABLE "x".toList ≠ 9999 ∧ (setVariable VARIABLE "x".toList 1).1 ≠ 9999 := by
  decide!

theorem parse_returns (V : List VarType) (inp : List Char) :
    ∃ r : ParseResult, parse V inp = some r := by
  by_cases hc : cur ⟨skipBlank inp, inp, [], [], 0, ghost0⟩ = NUL
  · unfold parse
    dsimp only
    rw [if_pos hc]
    exact ⟨_, rfl⟩
  · obtain ⟨t, s1, _, _, _, _, hparse⟩ := parse_run V inp hc
    exact ⟨_, hparse⟩

/-- C14 as written fails on `1+2`: the grammar ends with the cursor at the end of the
input, the last character parsed is the `2` at offset 2, and the handle after the call is
still the whole input. -/
theorem handle_update_fails :
    expr (VARIABLE.map VarType.name) 32 ⟨"1+2".toList, "1+2".toList, [], [], 0, ghost0⟩ =
      some (binOpNode 9 (numNode CONST 1) (numNode CONST 2),
        ⟨[], "1+2".toList, [], [], 0, ghost0⟩) ∧
    parseCall VARIABLE "1+2".toList =
      some (⟨binOpNode 9 (numNode CONST 1) (numNode CONST 2), 0, []⟩, "1+2".toList) ∧
    "1+2".toList ≠ "1+2".toList.drop 2 ∧ "1+2".toList ≠ "1+2".toList.drop 3 := by
  decide!

/-- C14, amended. The function `parse` leaves the handle of its caller as it was: for
every input the call returns and the handle after it is the input it was given. -/
theorem handle_unchanged (V : List VarType) (p : List Char) :
    ∃ r : ParseResult, parse V p = some r ∧ parseCall V p = some (r, p) := by
  obtain ⟨r, hr⟩ := parse_returns V p
  refine ⟨r, hr, ?_⟩
  unfold parseCall
  rw [hr]

/-! ## The evaluator: remainder, logic and tangent -/

theorem binSwitch_and (M : MathLib) (a b : ℚ) :
    binSwitch M 1 a b 0 = some (if a ≠ 0 ∧ b ≠ 0 then 1 else 0, 0) := by
  unfold binSwitch
  simp only [show ¬((1 : Int) = 0) by decide, if_false, if_true]
  by_cases ha : a = 0 <;> by_cases hb : b = 0 <;> simp [ofBool, ha, hb]

theorem binSwitch_or (M : MathLib) (a b : ℚ) :
    binSwitch M 2 a b 0 = some (if a ≠ 0 ∨ b ≠ 0 then 1 else 0, 0) := by
  unfold binSwitch
  simp only [show ¬((2 : Int) = 0) by decide, show ¬((2 : Int) = 1) by decide, if_false,
    if_true]
  by_cases ha : a = 0 <;> by_cases hb : b = 0 <;> simp [ofBool, ha, hb]

theorem binSwitch_mod (M : MathLib) (a b : ℚ) :
    binSwitch M 12 a b 0 =
      if toLong b = 0 then none
      else some (((Int.tmod (toLong a) (toLong b) : Int) : ℚ), 0) := by
  unfold binSwitch
  simp only [show ¬((12 : Int) = 0) by decide, show ¬((12 : Int) = 1) by decide,
    show ¬((12 : Int) = 2) by decide, show ¬((12 : Int) = 3) by decide,
    show ¬((12 : Int) = 4) by decide, show ¬((12 : Int) = 5) by decide,
    show ¬((12 : Int) = 6) by decide, show ¬((12 : Int) = 7) by decide,
    show ¬((12 : Int) = 8) by decide, show ¬((12 : Int) = 9) by decide,
    show ¬((12 : Int) = 10) by decide, show ¬((12 : Int) = 11) by decide, if_false, if_true]

theorem unSwitch_tan (M : MathLib) (V : List VarType) (x : ℚ) :
    unSwitch M V 17 x 0 =
      if fabs (fmod x PI - PI2) < EPSILON then (0, 4) else (M.tan x, 0) := by
  unfold unSwitch
  simp only [show ¬((17 : Int) = 0) by decide, show ¬((17 : Int) = 10) by decide,
    show ¬((17 : Int) = 15) by decide, show ¬((17 : Int) = 16) by decide, if_false, if_true]

theorem _eval_pi (M : MathLib) (e : Int) :
    _eval M VARIABLE (numNode 3 0) e = some (PI, e) := by
  rw [numNode, _eval, if_neg (by decide), if_neg (by decide), if_pos rfl,
    if_neg (by decide), if_pos (by decide), if_pos (by decide)]
  rfl

/-- C15. The remainder case of `_eval` applies `%` to the truncated operands without a
test of the divisor, unlike the division case next to it: the trees of `5 % 0` and of
`5 % 0.5`, which `parse` returns with the flag 0, have no defined evaluation, for every
`<math.h>` and every table. -/
theorem modulo_zero_divisor_unguarded (M : MathLib) (V : List VarType) :
    parse VARIABLE "5 % 0".toList =
      some ⟨PARSETREE.node BINOP 12 (numNode CONST 5) (numNode CONST 0) 0, 0, []⟩ ∧
    eval M V (PARSETREE.node BINOP 12 (numNode CONST 5) (numNode CONST 0) 0) = none ∧
    parse VARIABLE "5 % 0.5".toList =
      some ⟨PARSETREE.node BINOP 12 (numNode CONST 5) (numNode CONST (1 / 2)) 0, 0, []⟩ ∧
    eval M V (PARSETREE.node BINOP 12 (numNode CONST 5) (numNode CONST (1 / 2)) 0) = none := by
  refine ⟨by decide!, ?_, by decide!, ?_⟩
  · rw [eval_binop_ok M V 12 _ _ 0 5 0 (_eval_const M V 5 0) (_eval_const M V 0 0),
      binSwitch_mod, if_pos (by decide!)]
  · rw [eval_binop_ok M V 12 _ _ 0 5 (1 / 2) (_eval_const M V 5 0) (_eval_const M V (1 / 2) 0),
      binSwitch_mod, if_pos (by decide!)]

/-- C16. Logical AND and OR evaluate both operands: when the left operand evaluates with
no fault and the right one faults with code `c`, the AND node and the OR node evaluate to
0 with code `c`, whatever the value of the left operand; when neither faults the result is
1 or 0 by the conjunction, or the disjunction, of "not zero" of the two values; the tree
of `0 && 1/0` evaluates to 0 with code 2. -/
theorem and_or_evaluate_both (M : MathLib) (V : List VarType) :
    (∀ (l r : PARSETREE) (x a z : ℚ) (c : Int), _eval M V l 0 = some (a, 0) →
      _eval M V r 0 = some (z, c) → c ≠ 0 →
      eval M V (PARSETREE.node BINOP 1 l r x) = some (0, c) ∧
      eval M V (PARSETREE.node BINOP 2 l r x) = some (0, c)) ∧
    (∀ (l r : PARSETREE) (x a b : ℚ), _eval M V l 0 = some (a, 0) →
      _eval M V r 0 = some (b, 0) →
      eval M V (PARSETREE.node BINOP 1 l r x) = some (if a ≠ 0 ∧ b ≠ 0 then 1 else 0, 0) ∧
      eval M V (PARSETREE.node BINOP 2 l r x) = some (if a ≠ 0 ∨ b ≠ 0 then 1 else 0, 0)) ∧
    parse VARIABLE "0 && 1/0".toList =
      some ⟨PARSETREE.node BINOP 1 (numNode CONST 0)
        (PARSETREE.node BINOP 13 (numNode CONST 1) (numNode CONST 0) 0) 0, 0, []⟩ ∧
    eval M V (PARSETREE.node BINOP 1 (numNode CONST 0)
      (PARSETREE.node BINOP 13 (numNode CONST 1) (numNode CONST 0) 0) 0) = some (0, 2) := by
  refine ⟨?_, ?_, by decide!, ?_⟩
  · intro l r x a z c hl hr hc
    exact ⟨eval_binop_right_fault M V 1 l r x a z c hl hr hc,
      eval_binop_right_fault M V 2 l r x a z c hl hr hc⟩
  · intro l r x a b hl hr
    rw [eval_binop_ok M V 1 l r x a b hl hr, eval_binop_ok M V 2 l r x a b hl hr,
      binSwitch_and, binSwitch_or]
    exact ⟨rfl, rfl⟩
  · refine eval_binop_right_fault M V 1 _ _ 0 0 0 2 (_eval_const M V 0 0) ?_ (by decide)
    have h := eval_binop_ok M V 13 _ _ 0 1 0 (_eval_const M V 1 0) (_eval_const M V 0 0)
    rw [eval_node, binSwitch_divide, if_pos rfl] at h
    exact h

theorem and_or_evaluate_both_witness :
    eval zeroMath VARIABLE (PARSETREE.node BINOP 1 (numNode CONST 3) (numNode CONST 0) 0) =
        some (if (3 : ℚ) ≠ 0 ∧ (0 : ℚ) ≠ 0 then 1 else 0, 0) ∧
      eval zeroMath VARIABLE (PARSETREE.node BINOP 2 (numNode CONST 3) (numNode CONST 0) 0) =
        some (if (3 : ℚ) ≠ 0 ∨ (0 : ℚ) ≠ 0 then 1 else 0, 0) :=
  (and_or_evaluate_both zeroMath VARIABLE).2.1 (numNode CONST 3) (numNode CONST 0) 0 3 0
    (by decide!) (by decide!)

/-- C17. The guard of the tangent case compares `fmod(op1, PI)` with the constant `PI2`,
which has ten decimals, within `EPSILON`, which is 5e-16: at half of `PI` the difference
is about 5e-12 and the guard does not fire. The tree of `tan(pi/2)` evaluates on the table
`VARIABLE` to the tangent of `PI / 2` with code 0, not to 0 with code 4. -/
theorem tan_guard_misses_half_pi (M : MathLib) :
    parse VARIABLE "tan(pi/2)".toList =
      some ⟨PARSETREE.node UNOP 17
        (PARSETREE.node BINOP 13 (numNode 3 0) (numNode CONST 2) 0) PARSETREE.NULL 0, 0, []⟩ ∧
    ¬ (fabs (fmod (PI / 2) PI - PI2) < EPSILON) ∧
    eval M VARIABLE (PARSETREE.node UNOP 17
      (PARSETREE.node BINOP 13 (numNode 3 0) (numNode CONST 2) 0) PARSETREE.NULL 0) =
        some (M.tan (PI / 2), 0) := by
  have hg : ¬ (fabs (fmod (PI / 2) PI - PI2) < EPSILON) := by decide!
  refine ⟨by decide!, hg, ?_⟩
  have h := eval_binop_ok M VARIABLE 13 _ _ 0 PI 2 (_eval_pi M 0) (_eval_const M VARIABLE 2 0)
  rw [eval_node, binSwitch_divide, if_neg (by decide!)] at h
  rw [eval_unop_ok M VARIABLE 17 _ _ 0 (PI / 2) h, unSwitch_tan, if_neg hg]

/-! ## Termination and the bounds of the cursor -/

theorem skipWhite_of_nil (s : PState) (h : s.Str = []) : skipWhite s = s := by
  cases s with
  | mk a b c d e =>
    simp only at h
    subst h
    rfl

/-- A token that `match` found fits in the unread input. -/
theorem match_fits (t : List Char) (s : PState) (h : (matchTok t s).1 = true) :
    t.length ≤ (matchTok t s).2.Str.length := by
  rw [matchTok_fst, List.isPrefixOf_iff_prefix] at h
  rw [matchTok_snd]
  exact h.length_le

/-- The name that a search loop of `func` found stands at the cursor it returns. -/
theorem nameLoop_found (names : List (List Char)) (limit : Nat) :
    ∀ (fuel i : Nat) (s : PState), limit ≤ i + fuel →
      (nameLoop names limit fuel i s).1 < limit →
      (names.getD (nameLoop names limit fuel i s).1 []).isPrefixOf
        (nameLoop names limit fuel i s).2.Str = true := by
  intro fuel
  induction fuel with
  | zero =>
    intro i s hle hlt
    rw [nameLoop] at hlt
    simp only at hlt
    omega
  | succ n ih =>
    intro i s hle
    rw [nameLoop]
    split
    · split
      · rename_i hm
        intro _
        simp only [Bool.and_eq_true] at hm
        exact hm.1
      · exact ih (i + 1) _ (by omega)
    · rename_i hge
      intro hlt
      exact absurd hlt hge

theorem nameLoop_fits (names : List (List Char)) (limit fuel i : Nat) (s : PState)
    (hle : limit ≤ i + fuel) (hlt : (nameLoop names limit fuel i s).1 < limit) :
    (names.getD (nameLoop names limit fuel i s).1 []).length ≤
      (nameLoop names limit fuel i s).2.Str.length := by
  have h := nameLoop_found names limit fuel i s hle hlt
  rw [List.isPrefixOf_iff_prefix] at h
  exact h.length_le

theorem cur_fits (s : PState) (c : Char) (hc : c ≠ NUL) (h : cur s = c) :
    1 ≤ s.Str.length := by
  have := advance_length_of_cur s c hc h
  omega

/-- The fuel of the sign loops of `myAtof`, the number of unread characters, is never
used up before the loop ends: more fuel gives the same result. -/
theorem signLoop_fuel : ∀ (fuel : Nat) (s : PState) (sign : Int), s.Str.length ≤ fuel →
    signLoop (fuel + 1) s sign = signLoop fuel s sign := by
  intro fuel
  induction fuel with
  | zero =>
    intro s sign h
    have hs : s.Str = [] := List.length_eq_zero.mp (Nat.le_zero.mp h)
    have h1 : skipWhite s = s := skipWhite_of_nil s hs
    rw [signLoop, signLoop]
    simp only [matchTok_fst, matchTok_snd, h1, hs]
    rfl
  | succ n ih =>
    intro s sign h
    rw [signLoop]
    conv_rhs => rw [signLoop]
    split
    · rename_i hm
      have hl : (advance 1 (matchTok "+".toList s).2).Str.length + 1 ≤ s.Str.length :=
        advance_length_of_match "+".toList s hm
      exact ih _ _ (by omega)
    · split
      · rename_i hm
        have hl : (advance 1 (matchTok "-".toList (matchTok "+".toList s).2).2).Str.length + 1 ≤
            (matchTok "+".toList s).2.Str.length :=
          advance_length_of_match "-".toList _ hm
        have hl2 := (run_match "+".toList s).length_le
        exact ih _ _ (by omega)
      · rfl

/-! ## The literal scanner: the value of a literal -/

theorem decimal_nil : decimal [] = 0 := rfl

theorem decimal_cons (c : Char) (cs : List Char) :
    decimal (c :: cs) = (c.toNat - '0'.toNat) * 10 ^ cs.length + decimal cs := by
  unfold decimal
  rw [List.reverse_cons, List.map_append, Nat.ofDigits_append]
  simp [Nat.ofDigits_singleton, mul_comm, add_comm]

theorem decimal_append (xs ys : List Char) :
    decimal (xs ++ ys) = decimal xs * 10 ^ ys.length + decimal ys := by
  induction xs with
  | nil => simp [decimal_nil]
  | cons c cs ih =>
    rw [List.cons_append, decimal_cons, decimal_cons, ih, List.length_append]
    ring

theorem digit_value (c : Char) (h : isDigit c = true) :
    ((c.toNat : ℚ) - ('0'.toNat : ℚ)) = ((c.toNat - '0'.toNat : Nat) : ℚ) := by
  simp only [isDigit, Bool.and_eq_true, decide_eq_true_eq] at h
  rw [Nat.cast_sub h.1]

theorem digitLoop_digits (ds : List Char) (hds : ∀ c ∈ ds, isDigit c = true)
    (rest : List Char) (hrest : isDigit (rest.headD NUL) = false) :
    ∀ v : ℚ, digitLoop (ds ++ rest) v = (rest, v * 10 ^ ds.length + (decimal ds : ℚ)) := by
  induction ds with
  | nil =>
    intro v
    cases rest with
    | nil => simp [digitLoop, decimal_nil]
    | cons c cs =>
      have hc : isDigit c = false := hrest
      simp [digitLoop, hc, decimal_nil]
  | cons c cs ih =>
    intro v
    have hc : isDigit c = true := hds c (List.mem_cons_self _ _)
    rw [List.cons_append, digitLoop, if_pos hc, ih (fun d hd => hds d (List.mem_cons_of_mem _ hd)),
      digit_value c hc, decimal_cons]
    congr 1
    push_cast
    rw [List.length_cons]
    ring

theorem fracLoop_digits (ds : List Char) (hds : ∀ c ∈ ds, isDigit c = true)
    (rest : List Char) (hrest : isDigit (rest.headD NUL) = false) :
    ∀ v p : ℚ, fracLoop (ds ++ rest) v p =
      (rest, v * 10 ^ ds.length + (decimal ds : ℚ), p * 10 ^ ds.length) := by
  induction ds with
  | nil =>
    intro v p
    cases rest with
    | nil => simp [fracLoop, decimal_nil]
    | cons c cs =>
      have hc : isDigit c = false := hrest
      simp [fracLoop, hc, decimal_nil]
  | cons c cs ih =>
    intro v p
    have hc : isDigit c = true := hds c (List.mem_cons_self _ _)
    rw [List.cons_append, fracLoop, if_pos hc,
      ih (fun d hd => hds d (List.mem_cons_of_mem _ hd)), digit_value c hc, decimal_cons]
    rw [List.length_cons]
    refine Prod.ext rfl (Prod.ext ?_ ?_)
    · push_cast
      ring
    · simp only
      ring

theorem digit_not_white (c : Char) (h : isDigit c = true) : isWhite c = false := by
  rw [isWhite_eq_false_iff]
  refine ⟨?_, ?_, ?_⟩ <;> rintro rfl <;> exact absurd h (by decide)

theorem digit_ne (c : Char) (h : isDigit c = true) :
    c ≠ '+' ∧ c ≠ '-' ∧ c ≠ '.' ∧ c ≠ 'e' ∧ c ≠ 'E' ∧ c ≠ '(' ∧ c ≠ '!' ∧ c ≠ NUL := by
  refine ⟨?_, ?_, ?_, ?_, ?_, ?_, ?_, ?_⟩ <;> rintro rfl <;> exact absurd h (by decide)

theorem digit_not_lower (c : Char) (h : isDigit c = true) : isLower c = false := by
  simp only [isDigit, Bool.and_eq_true, decide_eq_true_eq] at h
  simp only [isLower, Bool.and_eq_false_iff, decide_eq_false_iff_not]
  left
  have : 'a'.toNat = 97 := rfl
  have h9 : '9'.toNat = 57 := rfl
  omega

theorem skipWhite_cons (c : Char) (l st e1 e2 : List Char) (pe : Int) (gh : Ghost)
    (h : isWhite c = false) :
    skipWhite ⟨c :: l, st, e1, e2, pe, gh⟩ = ⟨c :: l, st, e1, e2, pe, gh⟩ := by
  simp [skipWhite, List.dropWhile_cons_of_neg, h]

theorem skipWhite_mk (l st e1 e2 : List Char) (pe : Int) (gh : Ghost) :
    skipWhite ⟨l, st, e1, e2, pe, gh⟩ = ⟨l.dropWhile isWhite, st, e1, e2, pe, gh⟩ := rfl

theorem matchTok_char_cons (t c : Char) (l st e1 e2 : List Char) (pe : Int) (gh : Ghost)
    (h : isWhite c = false) :
    matchTok [t] ⟨c :: l, st, e1, e2, pe, gh⟩ = (decide (t = c), ⟨c :: l, st, e1, e2, pe, gh⟩) := by
  rw [matchTok, skipWhite_cons c l st e1 e2 pe gh h]
  simp only [List.isPrefixOf, Bool.and_true]
  rw [beq_eq_decide]
  congr

theorem advance_one_cons (c : Char) (l st e1 e2 : List Char) (pe : Int) (gh : Ghost) :
    advance 1 ⟨c :: l, st, e1, e2, pe, gh⟩ = ⟨l, st, e1, e2, pe, gh⟩ := by
  simp [advance]

/-- The sign loop stops at a character that is neither white space nor a sign. -/
theorem signLoop_stop (fuel : Nat) (c : Char) (l st e1 e2 : List Char) (pe : Int) (gh : Ghost) (sign : Int)
    (hw : isWhite c = false) (hp : c ≠ '+') (hm : c ≠ '-') :
    signLoop (fuel + 1) ⟨c :: l, st, e1, e2, pe, gh⟩ sign = (⟨c :: l, st, e1, e2, pe, gh⟩, sign) := by
  have h1 : matchTok "+".toList ⟨c :: l, st, e1, e2, pe, gh⟩ =
      (decide ('+' = c), ⟨c :: l, st, e1, e2, pe, gh⟩) := matchTok_char_cons '+' c l st e1 e2 pe gh hw
  have h2 : matchTok "-".toList ⟨c :: l, st, e1, e2, pe, gh⟩ =
      (decide ('-' = c), ⟨c :: l, st, e1, e2, pe, gh⟩) := matchTok_char_cons '-' c l st e1 e2 pe gh hw
  rw [signLoop, h1]
  simp only [h2, decide_eq_true_eq, if_neg (Ne.symm hp), if_neg (Ne.symm hm)]

theorem signOfRun_nil : signOfRun [] = 1 := rfl

theorem signOfRun_plus (S : List Char) : signOfRun ('+' :: S) = signOfRun S := by
  unfold signOfRun
  rw [List.count_cons_of_ne (by decide)]

theorem signOfRun_minus (S : List Char) : signOfRun ('-' :: S) = -1 * signOfRun S := by
  unfold signOfRun
  rw [List.count_cons_self]
  rcases Nat.mod_two_eq_zero_or_one (List.count '-' S) with h | h
  · have h2 : (List.count '-' S + 1) % 2 = 1 := by omega
    rw [if_pos h2, if_neg (by omega)]
    rfl
  · have h2 : ¬ (List.count '-' S + 1) % 2 = 1 := by omega
    rw [if_neg h2, if_pos h]
    rfl

/-- The sign loop over a run of signs that ends at a character which is neither white
space nor a sign: the run is consumed and the sign is multiplied by the sign of the
run. -/
theorem signLoop_run (S : List Char) (hS : ∀ c ∈ S, c = '+' ∨ c = '-') (c : Char)
    (l st e1 e2 : List Char) (pe : Int) (gh : Ghost) (hw : isWhite c = false) (hp : c ≠ '+')
    (hm : c ≠ '-') :
    ∀ (fuel : Nat) (sign : Int),
      signLoop (S.length + fuel + 1) ⟨S ++ c :: l, st, e1, e2, pe, gh⟩ sign =
        (⟨c :: l, st, e1, e2, pe, gh⟩, sign * signOfRun S) := by
  induction S with
  | nil =>
    intro fuel sign
    rw [signOfRun_nil, mul_one]
    exact signLoop_stop _ c l st e1 e2 pe gh sign hw hp hm
  | cons d ds ih =>
    intro fuel sign
    have ih2 := ih (fun x hx => hS x (List.mem_cons_of_mem _ hx))
    have hlen : (d :: ds).length + fuel + 1 = (ds.length + fuel + 1) + 1 := by
      rw [List.length_cons]; omega
    rw [hlen, List.cons_append]
    rcases hS d (List.mem_cons_self _ _) with rfl | rfl
    · have h1 : matchTok "+".toList ⟨'+' :: (ds ++ c :: l), st, e1, e2, pe, gh⟩ =
          (decide ('+' = '+'), ⟨'+' :: (ds ++ c :: l), st, e1, e2, pe, gh⟩) :=
        matchTok_char_cons '+' '+' _ st e1 e2 pe gh (by decide)
      rw [signLoop, h1]
      simp only [decide_True, if_true]
      rw [signOfRun_plus, advance_one_cons]
      exact ih2 fuel sign
    · have h1 : matchTok "+".toList ⟨'-' :: (ds ++ c :: l), st, e1, e2, pe, gh⟩ =
          (decide ('+' = '-'), ⟨'-' :: (ds ++ c :: l), st, e1, e2, pe, gh⟩) :=
        matchTok_char_cons '+' '-' _ st e1 e2 pe gh (by decide)
      have h2 : matchTok "-".toList ⟨'-' :: (ds ++ c :: l), st, e1, e2, pe, gh⟩ =
          (decide ('-' = '-'), ⟨'-' :: (ds ++ c :: l), st, e1, e2, pe, gh⟩) :=
        matchTok_char_cons '-' '-' _ st e1 e2 pe gh (by decide)
      rw [signLoop, h1]
      simp only [h2, decide_True, if_true, show decide ('+' = '-') = false by decide,
        Bool.false_eq_true, if_false]
      rw [signOfRun_minus, ← mul_assoc, advance_one_cons]
      exact ih2 fuel (sign * -1)

/-- The first part of `myAtof` on input that starts with a digit: no sign is consumed,
no fault is latched and the cursor stays. -/
theorem atofSign_digit (c : Char) (l st e1 e2 : List Char) (pe : Int) (gh : Ghost)
    (hc : isDigit c = true) :
    atofSign ⟨c :: l, st, e1, e2, pe, gh⟩ = (1, ⟨c :: l, st, e1, e2, pe, gh⟩) := by
  have hw := digit_not_white c hc
  obtain ⟨hp, hm, _⟩ := digit_ne c hc
  unfold atofSign
  simp only [skipWhite_cons c l st e1 e2 pe gh hw, List.length_cons,
    signLoop_stop _ c l st e1 e2 pe gh 1 hw hp hm, markScanSign, if_true, cur,
    List.headD_cons, hc, Bool.not_true, Bool.false_and, Bool.false_eq_true, if_false]

/-- The second part of `myAtof` on digits, a point, digits and a rest that does not start
with a digit. -/
theorem atofMantissa_point (I F : List Char) (hI : ∀ c ∈ I, isDigit c = true)
    (hF : ∀ c ∈ F, isDigit c = true) (tail st e1 e2 : List Char) (pe : Int) (gh : Ghost)
    (htail : isDigit (tail.headD NUL) = false) :
    atofMantissa ⟨I ++ '.' :: (F ++ tail), st, e1, e2, pe, gh⟩ =
      ((decimal (I ++ F) : ℚ), 10 ^ F.length, ⟨tail.dropWhile isWhite, st, e1, e2, pe, gh⟩) := by
  have hd := digitLoop_digits I hI ('.' :: (F ++ tail)) (show isDigit '.' = false by decide) 0
  have hf := fracLoop_digits F hF tail htail ((0 : ℚ) * 10 ^ I.length + (decimal I : ℚ)) 1
  unfold atofMantissa
  simp only [hd, setStr, cur, List.headD_cons, if_true, advance_one_cons,
    hf, skipWhite_mk]
  refine Prod.ext ?_ (Prod.ext ?_ rfl)
  · simp only [decimal_append]
    push_cast
    ring
  · simp only
    ring

/-- The second part of `myAtof` on digits and a rest that starts neither with a digit nor
with a point. -/
theorem atofMantissa_int (I : List Char) (hI : ∀ c ∈ I, isDigit c = true)
    (tail st e1 e2 : List Char) (pe : Int) (gh : Ghost) (htail : isDigit (tail.headD NUL) = false)
    (hpoint : tail.headD NUL ≠ '.') :
    atofMantissa ⟨I ++ tail, st, e1, e2, pe, gh⟩ =
      ((decimal I : ℚ), 1, ⟨tail.dropWhile isWhite, st, e1, e2, pe, gh⟩) := by
  have hd := digitLoop_digits I hI tail htail 0
  unfold atofMantissa
  simp only [hd, setStr, cur, if_neg hpoint, skipWhite_mk]
  refine Prod.ext ?_ rfl
  simp only
  ring

theorem pow10_int (n : Int) : pow10 (n : ℚ) = (10 : ℚ) ^ n := by
  unfold pow10
  rw [Rat.intCast_num]

theorem signs_digit_not_white (S : List Char) (hS : ∀ c ∈ S, c = '+' ∨ c = '-') (x : Char)
    (hx : isDigit x = true) (r : List Char) :
    (S ++ x :: r).dropWhile isWhite = S ++ x :: r := by
  cases S with
  | nil => exact List.dropWhile_cons_of_neg (by simp [digit_not_white x hx])
  | cons d ds =>
    rcases hS d (List.mem_cons_self _ _) with rfl | rfl
    · exact List.dropWhile_cons_of_neg (by decide)
    · exact List.dropWhile_cons_of_neg (by decide)

/-- The third part of `myAtof` on `e`, a run of signs, digits and a rest that does not
start with a digit. -/
theorem atofExponent_e (S : List Char) (hS : ∀ c ∈ S, c = '+' ∨ c = '-') (x : Char)
    (X : List Char) (hX : ∀ c ∈ x :: X, isDigit c = true) (tail st e1 e2 : List Char)
    (pe : Int) (gh : Ghost) (htail : isDigit (tail.headD NUL) = false) :
    atofExponent ⟨'e' :: (S ++ (x :: X) ++ tail), st, e1, e2, pe, gh⟩ =
      ((10 : ℚ) ^ (signOfRun S * (decimal (x :: X) : Int)), ⟨tail, st, e1, e2, pe, gh⟩) := by
  have hx : isDigit x = true := hX x (List.mem_cons_self _ _)
  have hw := digit_not_white x hx
  obtain ⟨hp, hm, _⟩ := digit_ne x hx
  have hlen : (S ++ x :: (X ++ tail)).length = S.length + (X ++ tail).length + 1 := by
    simp only [List.length_append, List.length_cons]
    omega
  unfold atofExponent
  simp only [cur, List.headD_cons, true_or, if_true, advance_one_cons,
    List.append_assoc, List.cons_append, skipWhite_mk, signs_digit_not_white S hS x hx, hlen,
    signLoop_run S hS x (X ++ tail) st e1 e2 pe gh hw hp hm, one_mul,
    List.dropWhile_cons_of_neg (show ¬ (isWhite x = true) by simp [hw]), hx, Bool.not_true,
    Bool.false_eq_true, if_false, setStr]
  have hd := digitLoop_digits (x :: X) hX tail htail 0
  rw [List.cons_append] at hd
  rw [hd]
  refine Prod.ext ?_ rfl
  simp only [zero_mul, zero_add]
  rw [show ((decimal (x :: X) : ℚ) * ((signOfRun S : Int) : ℚ)) =
    ((signOfRun S * (decimal (x :: X) : Int) : Int) : ℚ) by push_cast; ring]
  exact pow10_int _

/-- The third part of `myAtof` when no `e` or `E` stands at the cursor. -/
theorem atofExponent_none (l st e1 e2 : List Char) (pe : Int) (gh : Ghost) (h1 : l.headD NUL ≠ 'e')
    (h2 : l.headD NUL ≠ 'E') :
    atofExponent ⟨l, st, e1, e2, pe, gh⟩ = (1, ⟨l, st, e1, e2, pe, gh⟩) := by
  unfold atofExponent
  simp only [cur, h1, h2, or_self, if_false]

theorem myAtof_point_exp (i : Char) (I F S : List Char) (x : Char) (X tail : List Char)
    (hI : ∀ c ∈ i :: I, isDigit c = true) (hF : ∀ c ∈ F, isDigit c = true)
    (hS : ∀ c ∈ S, c = '+' ∨ c = '-') (hX : ∀ c ∈ x :: X, isDigit c = true)
    (htail : isDigit (tail.headD NUL) = false) (st e1 e2 : List Char) (pe : Int) (gh : Ghost) :
    myAtof ⟨(i :: I) ++ '.' :: (F ++ 'e' :: (S ++ (x :: X) ++ tail)), st, e1, e2, pe, gh⟩ =
      ((decimal ((i :: I) ++ F) : ℚ) / 10 ^ F.length *
          (10 : ℚ) ^ (signOfRun S * (decimal (x :: X) : Int)),
        ⟨tail, st, e1, e2, pe, gh⟩) := by
  have h1 := atofSign_digit i (I ++ '.' :: (F ++ 'e' :: (S ++ (x :: X) ++ tail))) st e1 e2 pe gh
    (hI i (List.mem_cons_self _ _))
  have h2 := atofMantissa_point (i :: I) F hI hF ('e' :: (S ++ (x :: X) ++ tail)) st e1 e2 pe gh
    (show isDigit 'e' = false by decide)
  rw [List.dropWhile_cons_of_neg (show ¬ (isWhite 'e' = true) by decide)] at h2
  have h3 := atofExponent_e S hS x X hX tail st e1 e2 pe gh htail
  unfold myAtof
  rw [List.cons_append, h1]
  simp only
  rw [← List.cons_append, h2]
  simp only
  rw [h3]
  simp only [Int.cast_one, one_mul]
  refine Prod.ext ?_ rfl
  simp only
  ring

theorem myAtof_point (i : Char) (I F tail : List Char)
    (hI : ∀ c ∈ i :: I, isDigit c = true) (hF : ∀ c ∈ F, isDigit c = true)
    (htail : isDigit (tail.headD NUL) = false)
    (h1 : (tail.dropWhile isWhite).headD NUL ≠ 'e')
    (h2 : (tail.dropWhile isWhite).headD NUL ≠ 'E') (st e1 e2 : List Char) (pe : Int) (gh : Ghost) :
    myAtof ⟨(i :: I) ++ '.' :: (F ++ tail), st, e1, e2, pe, gh⟩ =
      ((decimal ((i :: I) ++ F) : ℚ) / 10 ^ F.length,
        ⟨tail.dropWhile isWhite, st, e1, e2, pe, gh⟩) := by
  have k1 := atofSign_digit i (I ++ '.' :: (F ++ tail)) st e1 e2 pe gh
    (hI i (List.mem_cons_self _ _))
  have k2 := atofMantissa_point (i :: I) F hI hF tail st e1 e2 pe gh htail
  have k3 := atofExponent_none (tail.dropWhile isWhite) st e1 e2 pe gh h1 h2
  unfold myAtof
  rw [List.cons_append, k1]
  simp only
  rw [← List.cons_append, k2]
  simp only
  rw [k3]
  simp only [Int.cast_one, one_mul, mul_one]

theorem myAtof_int (i : Char) (I tail : List Char)
    (hI : ∀ c ∈ i :: I, isDigit c = true)
    (htail : isDigit (tail.headD NUL) = false) (hpoint : tail.headD NUL ≠ '.')
    (h1 : (tail.dropWhile isWhite).headD NUL ≠ 'e')
    (h2 : (tail.dropWhile isWhite).headD NUL ≠ 'E') (st e1 e2 : List Char) (pe : Int) (gh : Ghost) :
    myAtof ⟨(i :: I) ++ tail, st, e1, e2, pe, gh⟩ =
      ((decimal (i :: I) : ℚ), ⟨tail.dropWhile isWhite, st, e1, e2, pe, gh⟩) := by
  have k1 := atofSign_digit i (I ++ tail) st e1 e2 pe gh (hI i (List.mem_cons_self _ _))
  have k2 := atofMantissa_int (i :: I) hI tail st e1 e2 pe gh htail hpoint
  have k3 := atofExponent_none (tail.dropWhile isWhite) st e1 e2 pe gh h1 h2
  unfold myAtof
  rw [List.cons_append, k1]
  simp only
  rw [← List.cons_append, k2]
  simp only
  rw [k3]
  simp only [Int.cast_one, one_mul, mul_one, div_one]

/-! ## The literal scanner: where it is entered -/

/-- The sign loop at a cursor behind white space where neither `+` nor `-` stands:
nothing is consumed. -/
theorem signLoop_no_sign (s : PState) (hs : skipWhite s = s)
    (hp : "+".toList.isPrefixOf s.Str = false) (hm : "-".toList.isPrefixOf s.Str = false)
    (fuel : Nat) (sign : Int) : signLoop fuel s sign = (s, sign) := by
  cases fuel with
  | zero => rfl
  | succ n =>
    rw [signLoop]
    simp only [matchTok_fst, matchTok_snd, hs, hp, hm, Bool.false_eq_true, if_false]

/-- The state in which `func` calls `myAtof` when `get_constant`, entered in `s`, found
none of `+`, `-` and `!` and handed over to `func`. -/
theorem scanner_entry (s : PState) :
    (matchTok "(".toList (matchTok "!".toList s).2).2 = skipWhite s := by
  rw [matchTok_snd, matchTok_snd, skipWhite_idem]

theorem scanner_entry_no_sign (s : PState) (hp : (matchTok "+".toList s).1 = false)
    (hm : (matchTok "-".toList s).1 = false) (sign : Int) :
    signLoop (skipWhite (skipWhite s)).Str.length (skipWhite (skipWhite s)) sign =
      (skipWhite s, sign) := by
  rw [skipWhite_idem]
  exact signLoop_no_sign (skipWhite s) (skipWhite_idem s) hp hm _ sign

/-- The scanner branch of `get_constant` and `func`. -/
theorem get_constant_scanner (N : List (List Char)) (fuel : Nat) (s : PState)
    (hp : (matchTok "+".toList s).1 = false) (hm : (matchTok "-".toList s).1 = false)
    (hb : (matchTok "!".toList s).1 = false)
    (ho : (matchTok "(".toList (skipWhite s)).1 = false)
    (hl : isLower (cur (skipWhite s)) = false) :
    get_constant N (fuel + 2) s =
      funcEnd (numNode CONST (myAtof (skipWhite s)).1) (myAtof (skipWhite s)).2 := by
  rw [get_constant, if_neg (by rw [hp]; exact Bool.false_ne_true),
    if_neg (by rw [hm]; exact Bool.false_ne_true),
    if_neg (by rw [hb]; exact Bool.false_ne_true), func]
  simp only [matchTok_snd, skipWhite_idem]
  rw [if_neg (by rw [ho]; exact Bool.false_ne_true),
    if_neg (by rw [hl]; exact Bool.false_ne_true)]

/-! ## The grammar on literals and operators -/

/-- A token whose first character is not the one at the cursor is not matched; the cursor
stands behind white space already. -/
theorem matchTok_miss (t : Char) (ts l st e1 e2 : List Char) (pe : Int) (gh : Ghost)
    (hl : l.dropWhile isWhite = l) (hne : l.headD NUL ≠ t) :
    matchTok (t :: ts) ⟨l, st, e1, e2, pe, gh⟩ = (false, ⟨l, st, e1, e2, pe, gh⟩) := by
  rw [matchTok, skipWhite_mk, hl]
  cases l with
  | nil => rfl
  | cons c cs =>
    have hc : ¬ (t = c) := fun h => hne h.symm
    simp [List.isPrefixOf, hc]

/-- A token of one character that stands at the cursor is matched. -/
theorem matchTok_hit (t : Char) (l st e1 e2 : List Char) (pe : Int) (gh : Ghost)
    (hw : isWhite t = false) :
    matchTok [t] ⟨t :: l, st, e1, e2, pe, gh⟩ = (true, ⟨t :: l, st, e1, e2, pe, gh⟩) := by
  rw [matchTok_char_cons t t l st e1 e2 pe gh hw]
  simp

/-- The layer `part2` hands on what `get_constant` returned when no `^` follows. -/
theorem part2_pass (N : List (List Char)) (f : Nat) (s : PState) (t : PARSETREE)
    (l st e1 e2 : List Char) (pe : Int) (gh : Ghost)
    (h : get_constant N f s = some (t, ⟨l, st, e1, e2, pe, gh⟩))
    (hl : l.dropWhile isWhite = l) (h1 : l.headD NUL ≠ '^') :
    part2 N (f + 1) s = some (t, ⟨l, st, e1, e2, pe, gh⟩) := by
  rw [part2, h]
  simp only [show "^".toList = ['^'] from rfl, matchTok_miss '^' [] l st e1 e2 pe gh hl h1,
    Bool.false_eq_true, if_false]

/-- The layer `part` hands on what `part2` returned when none of `*`, `%` and `/`
follows. -/
theorem part_pass (N : List (List Char)) (f : Nat) (s : PState) (t : PARSETREE)
    (l st e1 e2 : List Char) (pe : Int) (gh : Ghost)
    (h : part2 N f s = some (t, ⟨l, st, e1, e2, pe, gh⟩))
    (hl : l.dropWhile isWhite = l) (h1 : l.headD NUL ≠ '*') (h2 : l.headD NUL ≠ '%')
    (h3 : l.headD NUL ≠ '/') :
    part N (f + 1) s = some (t, ⟨l, st, e1, e2, pe, gh⟩) := by
  rw [part, h]
  simp only [show "*".toList = ['*'] from rfl, show "%".toList = ['%'] from rfl,
    show "/".toList = ['/'] from rfl, matchTok_miss '*' [] l st e1 e2 pe gh hl h1,
    matchTok_miss '%' [] l st e1 e2 pe gh hl h2, matchTok_miss '/' [] l st e1 e2 pe gh hl h3,
    Bool.false_eq_true, if_false]

/-- The layer `fact` hands on what `part` returned when neither `+` nor `-` follows. -/
theorem fact_pass (N : List (List Char)) (f : Nat) (s : PState) (t : PARSETREE)
    (l st e1 e2 : List Char) (pe : Int) (gh : Ghost)
    (h : part N f s = some (t, ⟨l, st, e1, e2, pe, gh⟩))
    (hl : l.dropWhile isWhite = l) (h1 : l.headD NUL ≠ '+') (h2 : l.headD NUL ≠ '-') :
    fact N (f + 1) s = some (t, ⟨l, st, e1, e2, pe, gh⟩) := by
  rw [fact, h]
  simp only [show "+".toList = ['+'] from rfl, show "-".toList = ['-'] from rfl,
    matchTok_miss '+' [] l st e1 e2 pe gh hl h1, matchTok_miss '-' [] l st e1 e2 pe gh hl h2,
    Bool.false_eq_true, if_false]

/-- The layer `term` hands on what `fact` returned when no comparison follows. -/
theorem term_pass (N : List (List Char)) (f : Nat) (s : PState) (t : PARSETREE)
    (l st e1 e2 : List Char) (pe : Int) (gh : Ghost)
    (h : fact N f s = some (t, ⟨l, st, e1, e2, pe, gh⟩))
    (hl : l.dropWhile isWhite = l) (h1 : l.headD NUL ≠ '<') (h2 : l.headD NUL ≠ '>')
    (h3 : l.headD NUL ≠ '=') (h4 : l.headD NUL ≠ '!') :
    term N (f + 1) s = some (t, ⟨l, st, e1, e2, pe, gh⟩) := by
  rw [term, h]
  simp only [show "<=".toList = ['<', '='] from rfl, show "<".toList = ['<'] from rfl,
    show ">=".toList = ['>', '='] from rfl, show ">".toList = ['>'] from rfl,
    show "==".toList = ['=', '='] from rfl, show "!=".toList = ['!', '='] from rfl,
    matchTok_miss '<' ['='] l st e1 e2 pe gh hl h1, matchTok_miss '<' [] l st e1 e2 pe gh hl h1,
    matchTok_miss '>' ['='] l st e1 e2 pe gh hl h2, matchTok_miss '>' [] l st e1 e2 pe gh hl h2,
    matchTok_miss '=' ['='] l st e1 e2 pe gh hl h3, matchTok_miss '!' ['='] l st e1 e2 pe gh hl h4,
    Bool.false_eq_true, if_false]

/-- The layer `expr` hands on what `term` returned when neither `&&` nor `||` follows. -/
theorem expr_pass (N : List (List Char)) (f : Nat) (s : PState) (t : PARSETREE)
    (l st e1 e2 : List Char) (pe : Int) (gh : Ghost)
    (h : term N f s = some (t, ⟨l, st, e1, e2, pe, gh⟩))
    (hl : l.dropWhile isWhite = l) (h1 : l.headD NUL ≠ '&') (h2 : l.headD NUL ≠ '|') :
    expr N (f + 1) s = some (t, ⟨l, st, e1, e2, pe, gh⟩) := by
  rw [expr, h]
  simp only [show "&&".toList = ['&', '&'] from rfl, show "||".toList = ['|', '|'] from rfl,
    matchTok_miss '&' ['&'] l st e1 e2 pe gh hl h1, matchTok_miss '|' ['|'] l st e1 e2 pe gh hl h2,
    Bool.false_eq_true, if_false]

theorem literalEnd_nil : LiteralEnd [] :=
  ⟨rfl, by decide, by decide, by decide, by decide⟩

theorem literalEnd_cons (c : Char) (l : List Char) (hw : isWhite c = false)
    (hd : isDigit c = false) (h1 : c ≠ '.') (h2 : c ≠ 'e') (h3 : c ≠ 'E') :
    LiteralEnd (c :: l) :=
  ⟨List.dropWhile_cons_of_neg (by simp [hw]), hd, h1, h2, h3⟩

/-- An unsigned integer literal at the cursor: `get_constant` returns its constant
leaf and leaves the cursor behind its digits. -/
theorem get_constant_literal (N : List (List Char)) (f : Nat) (i : Char)
    (I tail st e1 e2 : List Char) (pe : Int) (gh : Ghost) (hI : ∀ c ∈ i :: I, isDigit c = true)
    (ht : LiteralEnd tail) :
    get_constant N (f + 2) ⟨(i :: I) ++ tail, st, e1, e2, pe, gh⟩ =
      some (numNode CONST (decimal (i :: I)), ⟨tail, st, e1, e2, pe, gh⟩) := by
  obtain ⟨hl, hd, h1, h2, h3⟩ := ht
  have hi : isDigit i = true := hI i (List.mem_cons_self _ _)
  have hw := digit_not_white i hi
  obtain ⟨hp, hm, _, _, _, ho, hb, _⟩ := digit_ne i hi
  have hs : skipWhite ⟨i :: (I ++ tail), st, e1, e2, pe, gh⟩ = ⟨i :: (I ++ tail), st, e1, e2, pe, gh⟩ :=
    skipWhite_cons i _ st e1 e2 pe gh hw
  have hg := get_constant_scanner N f ⟨i :: (I ++ tail), st, e1, e2, pe, gh⟩
    (by rw [show "+".toList = ['+'] from rfl, matchTok_char_cons '+' i _ st e1 e2 pe gh hw]
        exact decide_eq_false (Ne.symm hp))
    (by rw [show "-".toList = ['-'] from rfl, matchTok_char_cons '-' i _ st e1 e2 pe gh hw]
        exact decide_eq_false (Ne.symm hm))
    (by rw [show "!".toList = ['!'] from rfl, matchTok_char_cons '!' i _ st e1 e2 pe gh hw]
        exact decide_eq_false (Ne.symm hb))
    (by rw [hs, show "(".toList = ['('] from rfl, matchTok_char_cons '(' i _ st e1 e2 pe gh hw]
        exact decide_eq_false (Ne.symm ho))
    (by rw [hs]; exact digit_not_lower i hi)
  rw [hs] at hg
  have hm2 := myAtof_int i I tail hI hd h1 (by rw [hl]; exact h2) (by rw [hl]; exact h3)
    st e1 e2 pe gh
  rw [hl] at hm2
  rw [List.cons_append] at hm2 ⊢
  rw [hg, hm2]
  simp only [funcEnd, if_neg (numNode_ne_null _ _)]

/-- An unsigned integer literal at the cursor, seen from `part2`. -/
theorem part2_literal (N : List (List Char)) (f : Nat) (i : Char)
    (I tail st e1 e2 : List Char) (pe : Int) (gh : Ghost) (hI : ∀ c ∈ i :: I, isDigit c = true)
    (ht : LiteralEnd tail) (h1 : tail.headD NUL ≠ '^') :
    part2 N (f + 3) ⟨(i :: I) ++ tail, st, e1, e2, pe, gh⟩ =
      some (numNode CONST (decimal (i :: I)), ⟨tail, st, e1, e2, pe, gh⟩) :=
  part2_pass N (f + 2) _ _ tail st e1 e2 pe gh
    (get_constant_literal N f i I tail st e1 e2 pe gh hI ht) ht.1 h1

/-- An unsigned integer literal at the cursor, seen from `part`. -/
theorem part_literal (N : List (List Char)) (f : Nat) (i : Char)
    (I tail st e1 e2 : List Char) (pe : Int) (gh : Ghost) (hI : ∀ c ∈ i :: I, isDigit c = true)
    (ht : LiteralEnd tail) (h1 : tail.headD NUL ≠ '^') (h2 : tail.headD NUL ≠ '*')
    (h3 : tail.headD NUL ≠ '%') (h4 : tail.headD NUL ≠ '/') :
    part N (f + 4) ⟨(i :: I) ++ tail, st, e1, e2, pe, gh⟩ =
      some (numNode CONST (decimal (i :: I)), ⟨tail, st, e1, e2, pe, gh⟩) :=
  part_pass N (f + 3) _ _ tail st e1 e2 pe gh
    (part2_literal N f i I tail st e1 e2 pe gh hI ht h1) ht.1 h2 h3 h4

/-- The layer `part` at `*`: the right operand is what `part` returns behind it. -/
theorem part_star (N : List (List Char)) (f : Nat) (s s2 : PState) (a b : PARSETREE)
    (l st e1 e2 : List Char) (pe : Int) (gh : Ghost)
    (h : part2 N f s = some (a, ⟨'*' :: l, st, e1, e2, pe, gh⟩))
    (hr : part N f ⟨l, st, e1, e2, pe, gh⟩ = some (b, s2)) :
    part N (f + 1) s = some (binOpNode 11 a b, s2) := by
  rw [part, h]
  simp only [show "*".toList = ['*'] from rfl, matchTok_hit '*' l st e1 e2 pe gh (by decide),
    if_true, advance_one_cons, hr]

/-- The layer `fact` at `+`: the right operand is what `fact` returns behind it. -/
theorem fact_plus (N : List (List Char)) (f : Nat) (s s2 : PState) (a b : PARSETREE)
    (l st e1 e2 : List Char) (pe : Int) (gh : Ghost)
    (h : part N f s = some (a, ⟨'+' :: l, st, e1, e2, pe, gh⟩))
    (hr : fact N f ⟨l, st, e1, e2, pe, gh⟩ = some (b, s2)) :
    fact N (f + 1) s = some (binOpNode 9 a b, s2) := by
  rw [fact, h]
  simp only [show "+".toList = ['+'] from rfl, matchTok_hit '+' l st e1 e2 pe gh (by decide),
    if_true, advance_one_cons, hr]

/-- The layer `fact` at `-`: the right operand is what `fact` returns behind it. -/
theorem fact_minus (N : List (List Char)) (f : Nat) (s s2 : PState) (a b : PARSETREE)
    (l st e1 e2 : List Char) (pe : Int) (gh : Ghost)
    (h : part N f s = some (a, ⟨'-' :: l, st, e1, e2, pe, gh⟩))
    (hr : fact N f ⟨l, st, e1, e2, pe, gh⟩ = some (b, s2)) :
    fact N (f + 1) s = some (binOpNode 10 a b, s2) := by
  rw [fact, h]
  simp only [show "+".toList = ['+'] from rfl, show "-".toList = ['-'] from rfl,
    matchTok_miss '+' [] ('-' :: l) st e1 e2 pe gh
      (List.dropWhile_cons_of_neg (show ¬ (isWhite '-' = true) by decide))
      (show '-' ≠ '+' by decide),
    matchTok_hit '-' l st e1 e2 pe gh (by decide), Bool.false_eq_true, if_false, if_true,
    advance_one_cons, hr]

/-- From `fact` to the top: a tree that `fact` returns with the input used up is what
`expr` returns. -/
theorem expr_of_fact (N : List (List Char)) (f : Nat) (s : PState) (t : PARSETREE)
    (st e1 e2 : List Char) (pe : Int) (gh : Ghost) (h : fact N f s = some (t, ⟨[], st, e1, e2, pe, gh⟩)) :
    expr N (f + 2) s = some (t, ⟨[], st, e1, e2, pe, gh⟩) :=
  expr_pass N (f + 1) s t [] st e1 e2 pe gh
    (term_pass N f s t [] st e1 e2 pe gh h rfl (by decide) (by decide) (by decide) (by decide))
    rfl (by decide) (by decide)

theorem skipBlank_digit (c : Char) (l : List Char) (hc : isDigit c = true) :
    skipBlank (c :: l) = c :: l := by
  unfold skipBlank
  apply List.dropWhile_cons_of_neg
  have h := (isWhite_eq_false_iff c).mp (digit_not_white c hc)
  simp [h.1, h.2.1]

/-- The result of `parse` on an input that starts with a digit when `expr` returns a tree
with the input used up and no fault. -/
theorem parse_of_expr (V : List VarType) (c : Char) (l : List Char) (hc : isDigit c = true)
    (t : PARSETREE) (k : Nat) (hk : k ≤ 8 * (c :: l).length + 8)
    (h : ∀ f : Nat, expr (V.map VarType.name) (f + k) ⟨c :: l, c :: l, [], [], 0, ghost0⟩ =
      some (t, ⟨[], c :: l, [], [], 0, ghost0⟩)) :
    parse V (c :: l) = some ⟨t, 0, []⟩ := by
  obtain ⟨f, hf⟩ : ∃ f, 8 * (c :: l).length + 8 = f + k := ⟨8 * (c :: l).length + 8 - k, by omega⟩
  unfold parse
  simp only [skipBlank_digit c l hc, cur, List.headD_cons, if_neg (digit_ne c hc).2.2.2.2.2.2.2,
    hf, h f, trailLoop]
  rfl

theorem binSwitch_add (M : MathLib) (a b : ℚ) : binSwitch M 9 a b 0 = some (a + b, 0) := by
  unfold binSwitch
  simp only [show ¬((9 : Int) = 0) by decide, show ¬((9 : Int) = 1) by decide,
    show ¬((9 : Int) = 2) by decide, show ¬((9 : Int) = 3) by decide,
    show ¬((9 : Int) = 4) by decide, show ¬((9 : Int) = 5) by decide,
    show ¬((9 : Int) = 6) by decide, show ¬((9 : Int) = 7) by decide,
    show ¬((9 : Int) = 8) by decide, if_false, if_true]

theorem binSwitch_sub (M : MathLib) (a b : ℚ) : binSwitch M 10 a b 0 = some (a - b, 0) := by
  unfold binSwitch
  simp only [show ¬((10 : Int) = 0) by decide, show ¬((10 : Int) = 1) by decide,
    show ¬((10 : Int) = 2) by decide, show ¬((10 : Int) = 3) by decide,
    show ¬((10 : Int) = 4) by decide, show ¬((10 : Int) = 5) by decide,
    show ¬((10 : Int) = 6) by decide, show ¬((10 : Int) = 7) by decide,
    show ¬((10 : Int) = 8) by decide, show ¬((10 : Int) = 9) by decide, if_false, if_true]

theorem binSwitch_mul (M : MathLib) (a b : ℚ) : binSwitch M 11 a b 0 = some (a * b, 0) := by
  unfold binSwitch
  simp only [show ¬((11 : Int) = 0) by decide, show ¬((11 : Int) = 1) by decide,
    show ¬((11 : Int) = 2) by decide, show ¬((11 : Int) = 3) by decide,
    show ¬((11 : Int) = 4) by decide, show ¬((11 : Int) = 5) by decide,
    show ¬((11 : Int) = 6) by decide, show ¬((11 : Int) = 7) by decide,
    show ¬((11 : Int) = 8) by decide, show ¬((11 : Int) = 9) by decide,
    show ¬((11 : Int) = 10) by decide, if_false, if_true]

/-- The evaluation of a binary node whose operands evaluate with no fault. -/
theorem _eval_binop_ok (M : MathLib) (V : List VarType) (op : Int) (l r : PARSETREE)
    (x y z : ℚ) (hl : _eval M V l 0 = some (y, 0)) (hr : _eval M V r 0 = some (z, 0)) :
    _eval M V (PARSETREE.node BINOP op l r x) 0 = binSwitch M op y z 0 := by
  rw [← eval_node, eval_binop_ok M V op l r x y z hl hr]

theorem binOpNode_num (op : Int) (a b : ℚ) :
    binOpNode op (numNode CONST a) (numNode CONST b) =
      PARSETREE.node BINOP op (numNode CONST a) (numNode CONST b) 0 :=
  binOpNode_ne_null op _ _ (numNode_ne_null _ _) (numNode_ne_null _ _)

/-- An unsigned integer literal that ends the input, seen from `part`. -/
theorem part_literal_end (N : List (List Char)) (f : Nat) (i : Char)
    (I st e1 e2 : List Char) (pe : Int) (gh : Ghost) (hI : ∀ c ∈ i :: I, isDigit c = true) :
    part N (f + 4) ⟨i :: I, st, e1, e2, pe, gh⟩ =
      some (numNode CONST (decimal (i :: I)), ⟨[], st, e1, e2, pe, gh⟩) := by
  have h := part_literal N f i I [] st e1 e2 pe gh hI literalEnd_nil (by decide) (by decide)
    (by decide) (by decide)
  rw [List.append_nil] at h
  exact h

theorem literalEnd_op (c : Char) (l : List Char)
    (hc : c = '+' ∨ c = '-' ∨ c = '*' ∨ c = '/') : LiteralEnd (c :: l) := by
  rcases hc with rfl | rfl | rfl | rfl <;>
    exact literalEnd_cons _ l (by decide) (by decide) (by decide) (by decide) (by decide)

/-- The grammar on `A + B * C` for unsigned integer literals `A`, `B` and `C`. -/
theorem expr_add_mul (N : List (List Char)) (f : Nat) (a b c : Char) (A B C : List Char)
    (hA : ∀ x ∈ a :: A, isDigit x = true) (hB : ∀ x ∈ b :: B, isDigit x = true)
    (hC : ∀ x ∈ c :: C, isDigit x = true) (st e1 e2 : List Char) (pe : Int) (gh : Ghost) :
    expr N (f + 9) ⟨(a :: A) ++ '+' :: ((b :: B) ++ '*' :: (c :: C)), st, e1, e2, pe, gh⟩ =
      some (binOpNode 9 (numNode CONST (decimal (a :: A)))
        (binOpNode 11 (numNode CONST (decimal (b :: B))) (numNode CONST (decimal (c :: C)))),
        ⟨[], st, e1, e2, pe, gh⟩) := by
  have h1 := part_literal_end N f c C st e1 e2 pe gh hC
  have h2 := part2_literal N (f + 1) b B ('*' :: (c :: C)) st e1 e2 pe gh hB
    (literalEnd_op '*' _ (by simp)) (show '*' ≠ '^' by decide)
  have h3 := part_star N (f + 4) _ _ _ _ _ st e1 e2 pe gh h2 h1
  have h4 := fact_pass N (f + 5) _ _ [] st e1 e2 pe gh h3 rfl (by decide) (by decide)
  have h5 := part_literal N (f + 2) a A ('+' :: ((b :: B) ++ '*' :: (c :: C))) st e1 e2 pe gh hA
    (literalEnd_op '+' _ (by simp)) (show '+' ≠ '^' by decide) (show '+' ≠ '*' by decide)
    (show '+' ≠ '%' by decide) (show '+' ≠ '/' by decide)
  have h6 := fact_plus N (f + 6) _ _ _ _ _ st e1 e2 pe gh h5 h4
  exact expr_of_fact N (f + 7) _ _ st e1 e2 pe gh h6

/-- The grammar on `A - B - C` for unsigned integer literals `A`, `B` and `C`. -/
theorem expr_sub_sub (N : List (List Char)) (f : Nat) (a b c : Char) (A B C : List Char)
    (hA : ∀ x ∈ a :: A, isDigit x = true) (hB : ∀ x ∈ b :: B, isDigit x = true)
    (hC : ∀ x ∈ c :: C, isDigit x = true) (st e1 e2 : List Char) (pe : Int) (gh : Ghost) :
    expr N (f + 9) ⟨(a :: A) ++ '-' :: ((b :: B) ++ '-' :: (c :: C)), st, e1, e2, pe, gh⟩ =
      some (binOpNode 10 (numNode CONST (decimal (a :: A)))
        (binOpNode 10 (numNode CONST (decimal (b :: B))) (numNode CONST (decimal (c :: C)))),
        ⟨[], st, e1, e2, pe, gh⟩) := by
  have h1 := part_literal_end N f c C st e1 e2 pe gh hC
  have h2 := fact_pass N (f + 4) _ _ [] st e1 e2 pe gh h1 rfl (by decide) (by decide)
  have h3 := part_literal N (f + 1) b B ('-' :: (c :: C)) st e1 e2 pe gh hB
    (literalEnd_op '-' _ (by simp)) (show '-' ≠ '^' by decide) (show '-' ≠ '*' by decide)
    (show '-' ≠ '%' by decide) (show '-' ≠ '/' by decide)
  have h4 := fact_minus N (f + 5) _ _ _ _ _ st e1 e2 pe gh h3 h2
  have h5 := part_literal N (f + 2) a A ('-' :: ((b :: B) ++ '-' :: (c :: C))) st e1 e2 pe gh hA
    (literalEnd_op '-' _ (by simp)) (show '-' ≠ '^' by decide) (show '-' ≠ '*' by decide)
    (show '-' ≠ '%' by decide) (show '-' ≠ '/' by decide)
  have h6 := fact_minus N (f + 6) _ _ _ _ _ st e1 e2 pe gh h5 h4
  exact expr_of_fact N (f + 7) _ _ st e1 e2 pe gh h6

/-- C2. Multiplication binds tighter than addition. For unsigned integer literals `A`,
`B` and `C`, `parse` of `A + B * C` returns, with the flag 0, the addition node of the
literal `A` and the multiplication node of the literals `B` and `C`; its evaluation is
`A + B * C` with code 0; the tree of `2+3*4` evaluates to 14. -/
theorem mul_binds_tighter (M : MathLib) (V : List VarType) (A B C : List Char)
    (hA0 : A ≠ []) (hA : ∀ x ∈ A, isDigit x = true) (hB0 : B ≠ [])
    (hB : ∀ x ∈ B, isDigit x = true) (hC0 : C ≠ []) (hC : ∀ x ∈ C, isDigit x = true) :
    parse V (A ++ "+".toList ++ B ++ "*".toList ++ C) =
      some ⟨PARSETREE.node BINOP 9 (numNode CONST (decimal A))
        (PARSETREE.node BINOP 11 (numNode CONST (decimal B)) (numNode CONST (decimal C)) 0) 0,
        0, []⟩ ∧
    eval M V (PARSETREE.node BINOP 9 (numNode CONST (decimal A))
        (PARSETREE.node BINOP 11 (numNode CONST (decimal B)) (numNode CONST (decimal C)) 0) 0) =
      some ((decimal A : ℚ) + (decimal B : ℚ) * (decimal C : ℚ), 0) ∧
    parse VARIABLE "2+3*4".toList =
      some ⟨PARSETREE.node BINOP 9 (numNode CONST 2)
        (PARSETREE.node BINOP 11 (numNode CONST 3) (numNode CONST 4) 0) 0, 0, []⟩ ∧
    eval M V (PARSETREE.node BINOP 9 (numNode CONST 2)
        (PARSETREE.node BINOP 11 (numNode CONST 3) (numNode CONST 4) 0) 0) = some (14, 0) := by
  have hev : ∀ x y z : ℚ, eval M V (PARSETREE.node BINOP 9 (numNode CONST x)
      (PARSETREE.node BINOP 11 (numNode CONST y) (numNode CONST z) 0) 0) =
      some (x + y * z, 0) := by
    intro x y z
    have hm := _eval_binop_ok M V 11 _ _ 0 y z (_eval_const M V y 0) (_eval_const M V z 0)
    rw [binSwitch_mul] at hm
    rw [eval_binop_ok M V 9 _ _ 0 x (y * z) (_eval_const M V x 0) hm, binSwitch_add]
  obtain ⟨a, A, rfl⟩ := List.exists_cons_of_ne_nil hA0
  obtain ⟨b, B, rfl⟩ := List.exists_cons_of_ne_nil hB0
  obtain ⟨c, C, rfl⟩ := List.exists_cons_of_ne_nil hC0
  refine ⟨?_, hev _ _ _, by decide!, ?_⟩
  · have hshape : (a :: A) ++ "+".toList ++ (b :: B) ++ "*".toList ++ (c :: C) =
        a :: (A ++ '+' :: ((b :: B) ++ '*' :: (c :: C))) := by
      simp only [String.toList, List.append_assoc, List.cons_append, List.nil_append,
        List.singleton_append]
    rw [hshape]
    refine parse_of_expr V a _ (hA a (List.mem_cons_self _ _)) _ 9
      (by rw [List.length_cons]; omega) ?_
    intro f
    have h := expr_add_mul (V.map VarType.name) f a b c A B C hA hB hC
      (a :: (A ++ '+' :: ((b :: B) ++ '*' :: (c :: C)))) [] [] 0 ghost0
    rw [binOpNode_num, binOpNode_ne_null _ _ _ (numNode_ne_null _ _) (by simp)] at h
    exact h
  · have h := hev 2 3 4
    rw [h]
    norm_num

theorem mul_binds_tighter_witness :
    parse VARIABLE ("12".toList ++ "+".toList ++ "3".toList ++ "*".toList ++ "45".toList) =
      some ⟨PARSETREE.node BINOP 9 (numNode CONST (decimal "12".toList))
        (PARSETREE.node BINOP 11 (numNode CONST (decimal "3".toList))
          (numNode CONST (decimal "45".toList)) 0) 0, 0, []⟩ :=
  (mul_binds_tighter zeroMath VARIABLE "12".toList "3".toList "45".toList (by decide)
    (by decide) (by decide) (by decide) (by decide) (by decide)).1

/-- C3. Subtraction is right-associative. For unsigned integer literals `A`, `B` and `C`,
`parse` of `A - B - C` returns, with the flag 0, the subtraction node of the literal `A`
and the subtraction node of the literals `B` and `C`; its evaluation is `A - (B - C)` with
code 0; the tree of `2-3-1` evaluates to 0. -/
theorem sub_right_associative (M : MathLib) (V : List VarType) (A B C : List Char)
    (hA0 : A ≠ []) (hA : ∀ x ∈ A, isDigit x = true) (hB0 : B ≠ [])
    (hB : ∀ x ∈ B, isDigit x = true) (hC0 : C ≠ []) (hC : ∀ x ∈ C, isDigit x = true) :
    parse V (A ++ "-".toList ++ B ++ "-".toList ++ C) =
      some ⟨PARSETREE.node BINOP 10 (numNode CONST (decimal A))
        (PARSETREE.node BINOP 10 (numNode CONST (decimal B)) (numNode CONST (decimal C)) 0) 0,
        0, []⟩ ∧
    eval M V (PARSETREE.node BINOP 10 (numNode CONST (decimal A))
        (PARSETREE.node BINOP 10 (numNode CONST (decimal B)) (numNode CONST (decimal C)) 0) 0) =
      some ((decimal A : ℚ) - ((decimal B : ℚ) - (decimal C : ℚ)), 0) ∧
    parse VARIABLE "2-3-1".toList =
      some ⟨PARSETREE.node BINOP 10 (numNode CONST 2)
        (PARSETREE.node BINOP 10 (numNode CONST 3) (numNode CONST 1) 0) 0, 0, []⟩ ∧
    eval M V (PARSETREE.node BINOP 10 (numNode CONST 2)
        (PARSETREE.node BINOP 10 (numNode CONST 3) (numNode CONST 1) 0) 0) = some (0, 0) := by
  have hev : ∀ x y z : ℚ, eval M V (PARSETREE.node BINOP 10 (numNode CONST x)
      (PARSETREE.node BINOP 10 (numNode CONST y) (numNode CONST z) 0) 0) =
      some (x - (y - z), 0) := by
    intro x y z
    have hm := _eval_binop_ok M V 10 _ _ 0 y z (_eval_const M V y 0) (_eval_const M V z 0)
    rw [binSwitch_sub] at hm
    rw [eval_binop_ok M V 10 _ _ 0 x (y - z) (_eval_const M V x 0) hm, binSwitch_sub]
  obtain ⟨a, A, rfl⟩ := List.exists_cons_of_ne_nil hA0
  obtain ⟨b, B, rfl⟩ := List.exists_cons_of_ne_nil hB0
  obtain ⟨c, C, rfl⟩ := List.exists_cons_of_ne_nil hC0
  refine ⟨?_, hev _ _ _, by decide!, ?_⟩
  · have hshape : (a :: A) ++ "-".toList ++ (b :: B) ++ "-".toList ++ (c :: C) =
        a :: (A ++ '-' :: ((b :: B) ++ '-' :: (c :: C))) := by
      simp only [String.toList, List.append_assoc, List.cons_append, List.nil_append,
        List.singleton_append]
    rw [hshape]
    refine parse_of_expr V a _ (hA a (List.mem_cons_self _ _)) _ 9
      (by rw [List.length_cons]; omega) ?_
    intro f
    have h := expr_sub_sub (V.map VarType.name) f a b c A B C hA hB hC
      (a :: (A ++ '-' :: ((b :: B) ++ '-' :: (c :: C)))) [] [] 0 ghost0
    rw [binOpNode_num, binOpNode_ne_null _ _ _ (numNode_ne_null _ _) (by simp)] at h
    exact h
  · have h := hev 2 3 1
    rw [h]
    norm_num

theorem sub_right_associative_witness :
    parse VARIABLE ("10".toList ++ "-".toList ++ "4".toList ++ "-".toList ++ "3".toList) =
      some ⟨PARSETREE.node BINOP 10 (numNode CONST (decimal "10".toList))
        (PARSETREE.node BINOP 10 (numNode CONST (decimal "4".toList))
          (numNode CONST (decimal "3".toList)) 0) 0, 0, []⟩ :=
  (sub_right_associative zeroMath VARIABLE "10".toList "4".toList "3".toList (by decide)
    (by decide) (by decide) (by decide) (by decide) (by decide)).1

theorem literalEnd_divChain (ds : List (List Char)) :
    LiteralEnd (divChain ds) ∧ (divChain ds).headD NUL ≠ '^' := by
  cases ds with
  | nil => exact ⟨literalEnd_nil, by decide⟩
  | cons d ds => exact ⟨literalEnd_op '/' _ (by simp), show '/' ≠ '^' by decide⟩

theorem length_le_divChain (ds : List (List Char)) : ds.length ≤ (divChain ds).length := by
  induction ds with
  | nil => exact le_refl _
  | cons d ds ih =>
    simp only [divChain, List.length_cons, List.length_append]
    omega

theorem divTree_ne_null (ds : List (List Char)) :
    ∀ t : PARSETREE, t ≠ PARSETREE.NULL → divTree t ds ≠ PARSETREE.NULL := by
  induction ds with
  | nil => intro t ht; exact ht
  | cons d ds ih => intro t _; exact ih _ (by simp)

theorem NUL_ne_star : ¬ (NUL = '*') := by decide

theorem NUL_ne_percent : ¬ (NUL = '%') := by decide

/-- The division loop of `part` at the end of the input. -/
theorem partLoop_end (N : List (List Char)) (st e1 e2 : List Char) (pe : Int) (gh : Ghost)
    (left : PARSETREE) (f : Nat) :
    partLoop N (f + 1) left ⟨[], st, e1, e2, pe, gh⟩ = some (left, ⟨[], st, e1, e2, pe, gh⟩) := by
  rw [partLoop]
  have h1 : matchTok "/".toList ⟨[], st, e1, e2, pe, gh⟩ = (false, ⟨[], st, e1, e2, pe, gh⟩) := rfl
  rw [h1]
  simp only [Bool.false_eq_true, if_false, cur, List.headD_nil, NUL_ne_star, NUL_ne_percent]

/-- The division loop of `part` on a chain of divisors that ends the input. -/
theorem partLoop_divChain (N : List (List Char)) (st e1 e2 : List Char) (pe : Int) (gh : Ghost)
    (ds : List (List Char)) (hds : ∀ d ∈ ds, d ≠ [] ∧ ∀ x ∈ d, isDigit x = true) :
    ∀ (left : PARSETREE) (f : Nat), left ≠ PARSETREE.NULL →
      partLoop N (ds.length + f + 4) left ⟨divChain ds, st, e1, e2, pe, gh⟩ =
        some (divTree left ds, ⟨[], st, e1, e2, pe, gh⟩) := by
  induction ds with
  | nil =>
    intro left f _
    rw [List.length_nil, Nat.zero_add]
    exact partLoop_end N st e1 e2 pe gh left (f + 3)
  | cons d ds ih =>
    intro left f hleft
    obtain ⟨hd0, hd⟩ := hds d (List.mem_cons_self _ _)
    obtain ⟨x, X, rfl⟩ := List.exists_cons_of_ne_nil hd0
    have hp2 := part2_literal N (ds.length + f + 1) x X (divChain ds) st e1 e2 pe gh hd
      (literalEnd_divChain ds).1 (literalEnd_divChain ds).2
    have hrec := ih (fun y hy => hds y (List.mem_cons_of_mem _ hy))
      (binOpNode 13 left (numNode CONST (decimal (x :: X)))) f
      (by rw [binOpNode_ne_null _ _ _ hleft (numNode_ne_null _ _)]; simp)
    rw [show (((x :: X) :: ds).length + f + 4) = (ds.length + f + 4) + 1 by
      rw [List.length_cons]; omega, partLoop]
    simp only [divChain, show "/".toList = ['/'] from rfl,
      matchTok_hit '/' _ st e1 e2 pe gh (show isWhite '/' = false by decide), if_true,
      advance_one_cons]
    rw [show ds.length + f + 4 = (ds.length + f + 1) + 3 by omega, hp2]
    simp only
    rw [show (ds.length + f + 1) + 3 = ds.length + f + 4 by omega, hrec,
      binOpNode_ne_null _ _ _ hleft (numNode_ne_null _ _)]
    rfl

/-- The grammar on `A / d1 / ... / dn` for unsigned integer literals. -/
theorem expr_divChain (N : List (List Char)) (st e1 e2 : List Char) (pe : Int) (gh : Ghost) (a : Char)
    (A : List Char) (hA : ∀ x ∈ a :: A, isDigit x = true) (d : List Char)
    (ds : List (List Char)) (hds : ∀ y ∈ d :: ds, y ≠ [] ∧ ∀ x ∈ y, isDigit x = true)
    (f : Nat) :
    expr N ((d :: ds).length + f + 8) ⟨(a :: A) ++ divChain (d :: ds), st, e1, e2, pe, gh⟩ =
      some (divTree (numNode CONST (decimal (a :: A))) (d :: ds), ⟨[], st, e1, e2, pe, gh⟩) := by
  have hp2 := part2_literal N ((d :: ds).length + f + 1) a A (divChain (d :: ds)) st e1 e2 pe gh hA
    (literalEnd_divChain _).1 (literalEnd_divChain _).2
  have hloop := partLoop_divChain N st e1 e2 pe gh (d :: ds) hds
    (numNode CONST (decimal (a :: A))) f (numNode_ne_null _ _)
  have hpart : part N ((d :: ds).length + f + 5) ⟨(a :: A) ++ divChain (d :: ds), st, e1, e2, pe, gh⟩ =
      some (divTree (numNode CONST (decimal (a :: A))) (d :: ds), ⟨[], st, e1, e2, pe, gh⟩) := by
    rw [show (d :: ds).length + f + 5 = ((d :: ds).length + f + 1 + 3) + 1 by omega, part, hp2]
    simp only [divChain, show "*".toList = ['*'] from rfl, show "%".toList = ['%'] from rfl,
      show "/".toList = ['/'] from rfl,
      matchTok_miss '*' [] ('/' :: (d ++ divChain ds)) st e1 e2 pe gh
        (List.dropWhile_cons_of_neg (show ¬ (isWhite '/' = true) by decide))
        (show '/' ≠ '*' by decide),
      matchTok_miss '%' [] ('/' :: (d ++ divChain ds)) st e1 e2 pe gh
        (List.dropWhile_cons_of_neg (show ¬ (isWhite '/' = true) by decide))
        (show '/' ≠ '%' by decide),
      matchTok_hit '/' _ st e1 e2 pe gh (show isWhite '/' = false by decide),
      Bool.false_eq_true, if_false, if_true]
    rw [show (d :: ds).length + f + 1 + 3 = (d :: ds).length + f + 4 by omega]
    exact hloop
  have hfact := fact_pass N _ _ _ [] st e1 e2 pe gh hpart rfl (by decide) (by decide)
  exact expr_of_fact N _ _ _ st e1 e2 pe gh hfact

/-- The evaluation of a chain of divisions by literals that are not zero. -/
theorem _eval_divTree (M : MathLib) (V : List VarType) (ds : List (List Char))
    (hds : ∀ d ∈ ds, (decimal d : ℚ) ≠ 0) :
    ∀ (t : PARSETREE) (q : ℚ), _eval M V t 0 = some (q, 0) →
      _eval M V (divTree t ds) 0 = some (divValue q ds, 0) := by
  induction ds with
  | nil => intro t q h; exact h
  | cons d ds ih =>
    intro t q h
    refine ih (fun y hy => hds y (List.mem_cons_of_mem _ hy)) _ _ ?_
    rw [_eval_binop_ok M V 13 t _ 0 q (decimal d : ℚ) h (_eval_const M V _ 0), binSwitch_divide,
      if_neg (hds d (List.mem_cons_self _ _))]

/-- C4. Division chains group left to right. For an unsigned integer literal `A` and a
chain of one or more unsigned integer literals as divisors, `parse` of
`A / d1 / ... / dn` returns, with the flag 0, the left-nested tree of divisions; when no
divisor is zero its evaluation is `((A / d1) / d2) ... / dn` with code 0; the tree of
`8/2/2` evaluates to 2. -/
theorem division_left_to_right (M : MathLib) (V : List VarType) (A : List Char)
    (ds : List (List Char)) (hA0 : A ≠ []) (hA : ∀ x ∈ A, isDigit x = true) (hds0 : ds ≠ [])
    (hds : ∀ d ∈ ds, d ≠ [] ∧ ∀ x ∈ d, isDigit x = true) :
    parse V (A ++ divChain ds) =
      some ⟨divTree (numNode CONST (decimal A)) ds, 0, []⟩ ∧
    ((∀ d ∈ ds, (decimal d : ℚ) ≠ 0) →
      eval M V (divTree (numNode CONST (decimal A)) ds) =
        some (divValue (decimal A : ℚ) ds, 0)) ∧
    parse VARIABLE "8/2/2".toList =
      some ⟨PARSETREE.node BINOP 13
        (PARSETREE.node BINOP 13 (numNode CONST 8) (numNode CONST 2) 0) (numNode CONST 2) 0,
        0, []⟩ ∧
    eval M V (PARSETREE.node BINOP 13
        (PARSETREE.node BINOP 13 (numNode CONST 8) (numNode CONST 2) 0) (numNode CONST 2) 0) =
      some (2, 0) := by
  obtain ⟨a, A, rfl⟩ := List.exists_cons_of_ne_nil hA0
  obtain ⟨d, ds, rfl⟩ := List.exists_cons_of_ne_nil hds0
  refine ⟨?_, ?_, by decide!, ?_⟩
  · have hlen := length_le_divChain (d :: ds)
    rw [List.cons_append]
    refine parse_of_expr V a _ (hA a (List.mem_cons_self _ _)) _ ((d :: ds).length + 8) ?_ ?_
    · simp only [List.length_cons, List.length_append] at hlen ⊢
      omega
    · intro f
      have h := expr_divChain (V.map VarType.name) (a :: (A ++ divChain (d :: ds))) [] [] 0 ghost0
        a A hA d ds hds f
      rw [show f + ((d :: ds).length + 8) = (d :: ds).length + f + 8 by omega]
      exact h
  · intro hnz
    have hne : divTree (numNode CONST (decimal (a :: A))) (d :: ds) ≠ PARSETREE.NULL :=
      divTree_ne_null _ _ (numNode_ne_null _ _)
    rw [eval, if_neg hne]
    exact _eval_divTree M V (d :: ds) hnz _ _ (_eval_const M V _ 0)
  · have h1 := _eval_binop_ok M V 13 _ _ 0 8 2 (_eval_const M V 8 0) (_eval_const M V 2 0)
    rw [binSwitch_divide, if_neg (by norm_num)] at h1
    rw [eval_binop_ok M V 13 _ _ 0 (8 / 2) 2 h1 (_eval_const M V 2 0), binSwitch_divide,
      if_neg (by norm_num)]
    norm_num

theorem division_left_to_right_witness :
    parse VARIABLE ("100".toList ++ divChain ["5".toList, "2".toList, "10".toList]) =
      some ⟨divTree (numNode CONST (decimal "100".toList))
        ["5".toList, "2".toList, "10".toList], 0, []⟩ :=
  (division_left_to_right zeroMath VARIABLE "100".toList
    ["5".toList, "2".toList, "10".toList] (by decide) (by decide) (by decide) (by decide)).1

/-! ## The trees that `parse` builds -/

theorem treeOK_none (ok : Int → Prop) : TreeOK ok none := by
  intro t s2 h; cases h

theorem treeOK_some (ok : Int → Prop) (t : PARSETREE) (s : PState)
    (h : t = PARSETREE.NULL ∨ WellFormed ok t) : TreeOK ok (some (t, s)) := by
  intro t2 s2 e
  cases e
  exact h

theorem wellFormed_binOpNode (ok : Int → Prop) (op : Int) (h1 : 1 ≤ op) (h2 : op ≤ 14)
    (l r : PARSETREE) (hl : l = PARSETREE.NULL ∨ WellFormed ok l)
    (hr : r = PARSETREE.NULL ∨ WellFormed ok r) :
    binOpNode op l r = PARSETREE.NULL ∨ WellFormed ok (binOpNode op l r) := by
  unfold binOpNode
  split
  · exact Or.inl rfl
  · rename_i hne
    right
    have hl2 : WellFormed ok l := hl.resolve_left (fun h => hne (Or.inl h))
    have hr2 : WellFormed ok r := hr.resolve_left (fun h => hne (Or.inr h))
    exact Or.inl ⟨rfl, h1, h2, hl2, hr2⟩

theorem wellFormed_unarOpNode (ok : Int → Prop) (op : Int)
    (hop : op = 0 ∨ op = 10 ∨ (15 ≤ op ∧ op ≤ 22)) (l : PARSETREE)
    (hl : l = PARSETREE.NULL ∨ WellFormed ok l) :
    unarOpNode op l = PARSETREE.NULL ∨ WellFormed ok (unarOpNode op l) := by
  unfold unarOpNode
  split
  · exact Or.inl rfl
  · rename_i hne
    exact Or.inr (Or.inr (Or.inl ⟨rfl, hop, hl.resolve_left hne, rfl⟩))

theorem wellFormed_numNode (ok : Int → Prop) (id : Int) (x : ℚ) (h : id = CONST ∨ ok id) :
    WellFormed ok (numNode id x) :=
  Or.inr (Or.inr ⟨rfl, h, rfl, rfl⟩)

theorem treeOK_binop (ok : Int → Prop) (op : Int) (h1 : 1 ≤ op) (h2 : op ≤ 14)
    (left : PARSETREE) (hl : left = PARSETREE.NULL ∨ WellFormed ok left)
    (r : Option (PARSETREE × PState)) :
    TreeOK ok r →
    TreeOK ok (match r with
      | none => none
      | some (x, s2) => some (binOpNode op left x, s2)) := by
  intro hr
  cases r with
  | none => exact treeOK_none ok
  | some p =>
    obtain ⟨x, s2⟩ := p
    exact treeOK_some ok _ _ (wellFormed_binOpNode ok op h1 h2 left x hl (hr x s2 rfl))

theorem treeOK_unop (ok : Int → Prop) (op : Int)
    (hop : op = 0 ∨ op = 10 ∨ (15 ≤ op ∧ op ≤ 22)) (r : Option (PARSETREE × PState)) :
    TreeOK ok r →
    TreeOK ok (match r with
      | none => none
      | some (x, s2) => some (unarOpNode op x, s2)) := by
  intro hr
  cases r with
  | none => exact treeOK_none ok
  | some p =>
    obtain ⟨x, s2⟩ := p
    exact treeOK_some ok _ _ (wellFormed_unarOpNode ok op hop x (hr x s2 rfl))

theorem treeOK_ite_binop (ok : Int → Prop) (tok : List Char) (n : Nat) (op : Int)
    (h1 : 1 ≤ op) (h2 : op ≤ 14) (s1 : PState) (left : PARSETREE)
    (hl : left = PARSETREE.NULL ∨ WellFormed ok left)
    (g : PState → Option (PARSETREE × PState)) (hg : ∀ sa : PState, TreeOK ok (g sa))
    (rest : Option (PARSETREE × PState)) :
    TreeOK ok rest →
    TreeOK ok (if (matchTok tok s1).1 = true then
        (match g (advance n (matchTok tok s1).2) with
          | none => none
          | some (r, s2) => some (binOpNode op left r, s2))
      else rest) := by
  intro hrest
  split
  · exact treeOK_binop ok op h1 h2 left hl _ (hg _)
  · exact hrest

theorem treeOK_funcEnd (ok : Int → Prop) (temp : PARSETREE) (s : PState)
    (h : temp = PARSETREE.NULL ∨ WellFormed ok temp) : TreeOK ok (funcEnd temp s) := by
  unfold funcEnd
  split
  · exact treeOK_some ok _ _ (Or.inl rfl)
  · exact treeOK_some ok _ _ h

theorem treeOK_expr_step (ok : Int → Prop) (N : List (List Char)) (f : Nat)
    (hterm : ∀ s : PState, TreeOK ok (term N f s))
    (hexpr : ∀ s : PState, TreeOK ok (expr N f s)) (s : PState) :
    TreeOK ok (expr N (f + 1) s) := by
  rw [expr]
  split
  · exact treeOK_none ok
  · rename_i left s1 h
    have hl := hterm s left s1 h
    refine treeOK_ite_binop ok "&&".toList 2 1 (by decide) (by decide) s1 left hl (expr N f)
      hexpr _ ?_
    refine treeOK_ite_binop ok "||".toList 2 2 (by decide) (by decide) s1 left hl (expr N f)
      hexpr _ ?_
    exact treeOK_some ok _ _ hl

theorem treeOK_term_step (ok : Int → Prop) (N : List (List Char)) (f : Nat)
    (hfact : ∀ s : PState, TreeOK ok (fact N f s))
    (hterm : ∀ s : PState, TreeOK ok (term N f s)) (s : PState) :
    TreeOK ok (term N (f + 1) s) := by
  rw [term]
  split
  · exact treeOK_none ok
  · rename_i left s1 h
    have hl := hfact s left s1 h
    refine treeOK_ite_binop ok "<=".toList 2 3 (by decide) (by decide) s1 left hl (term N f)
      hterm _ ?_
    refine treeOK_ite_binop ok "<".toList 1 4 (by decide) (by decide) s1 left hl (term N f)
      hterm _ ?_
    refine treeOK_ite_binop ok ">=".toList 2 5 (by decide) (by decide) s1 left hl (term N f)
      hterm _ ?_
    refine treeOK_ite_binop ok ">".toList 1 6 (by decide) (by decide) s1 left hl (term N f)
      hterm _ ?_
    refine treeOK_ite_binop ok "==".toList 2 7 (by decide) (by decide) s1 left hl (term N f)
      hterm _ ?_
    refine treeOK_ite_binop ok "!=".toList 2 8 (by decide) (by decide) s1 left hl (term N f)
      hterm _ ?_
    exact treeOK_some ok _ _ hl

theorem treeOK_fact_step (ok : Int → Prop) (N : List (List Char)) (f : Nat)
    (hpart : ∀ s : PState, TreeOK ok (part N f s))
    (hfact : ∀ s : PState, TreeOK ok (fact N f s)) (s : PState) :
    TreeOK ok (fact N (f + 1) s) := by
  rw [fact]
  split
  · exact treeOK_none ok
  · rename_i left s1 h
    have hl := hpart s left s1 h
    refine treeOK_ite_binop ok "+".toList 1 9 (by decide) (by decide) s1 left hl (fact N f)
      hfact _ ?_
    refine treeOK_ite_binop ok "-".toList 1 10 (by decide) (by decide) s1 left hl (fact N f)
      hfact _ ?_
    exact treeOK_some ok _ _ hl

theorem treeOK_part2_step (ok : Int → Prop) (N : List (List Char)) (f : Nat)
    (hconst : ∀ s : PState, TreeOK ok (get_constant N f s))
    (hpart2 : ∀ s : PState, TreeOK ok (part2 N f s)) (s : PState) :
    TreeOK ok (part2 N (f + 1) s) := by
  rw [part2]
  split
  · exact treeOK_none ok
  · rename_i left s1 h
    have hl := hconst s left s1 h
    refine treeOK_ite_binop ok "^".toList 1 14 (by decide) (by decide) s1 left hl (part2 N f)
      hpart2 _ ?_
    exact treeOK_some ok _ _ hl

theorem treeOK_part_step (ok : Int → Prop) (N : List (List Char)) (f : Nat)
    (hpart2 : ∀ s : PState, TreeOK ok (part2 N f s))
    (hloop : ∀ (left : PARSETREE) (s : PState),
      (left = PARSETREE.NULL ∨ WellFormed ok left) → TreeOK ok (partLoop N f left s))
    (hpart : ∀ s : PState, TreeOK ok (part N f s)) (s : PState) :
    TreeOK ok (part N (f + 1) s) := by
  rw [part]
  split
  · exact treeOK_none ok
  · rename_i left s1 h
    have hl := hpart2 s left s1 h
    refine treeOK_ite_binop ok "*".toList 1 11 (by decide) (by decide) s1 left hl (part N f)
      hpart _ ?_
    refine treeOK_ite_binop ok "%".toList 1 12 (by decide) (by decide) s1 left hl (part N f)
      hpart _ ?_
    split
    · exact hloop left _ hl
    · exact treeOK_some ok _ _ hl

theorem treeOK_partLoop_step (ok : Int → Prop) (N : List (List Char)) (f : Nat)
    (hpart2 : ∀ s : PState, TreeOK ok (part2 N f s))
    (hloop : ∀ (left : PARSETREE) (s : PState),
      (left = PARSETREE.NULL ∨ WellFormed ok left) → TreeOK ok (partLoop N f left s))
    (hpart : ∀ s : PState, TreeOK ok (part N f s)) (left : PARSETREE) (s : PState)
    (hl : left = PARSETREE.NULL ∨ WellFormed ok left) :
    TreeOK ok (partLoop N (f + 1) left s) := by
  rw [partLoop]
  split
  · split
    · exact treeOK_none ok
    · rename_i r s1 h
      exact hloop _ s1 (wellFormed_binOpNode ok 13 (by decide) (by decide) left r hl
        (hpart2 _ r s1 h))
  · split
    · exact treeOK_binop ok 11 (by decide) (by decide) left hl _ (hpart _)
    · split
      · exact treeOK_binop ok 12 (by decide) (by decide) left hl _ (hpart _)
      · exact treeOK_some ok _ _ hl

theorem treeOK_get_constant_step (ok : Int → Prop) (N : List (List Char)) (f : Nat)
    (hfunc : ∀ s : PState, TreeOK ok (func N f s))
    (hconst : ∀ s : PState, TreeOK ok (get_constant N f s)) (s : PState) :
    TreeOK ok (get_constant N (f + 1) s) := by
  rw [get_constant]
  split
  · exact hconst _
  · split
    · exact treeOK_unop ok 10 (Or.inr (Or.inl rfl)) _ (hconst _)
    · split
      · exact treeOK_unop ok 0 (Or.inl rfl) _ (hconst _)
      · exact hfunc _

theorem nameLoop_ge (names : List (List Char)) (limit : Nat) :
    ∀ (fuel i : Nat) (s : PState), i ≤ (nameLoop names limit fuel i s).1 := by
  intro fuel
  induction fuel with
  | zero => intro i s; exact le_refl _
  | succ n ih =>
    intro i s
    rw [nameLoop]
    split
    · split
      · exact le_refl _
      · exact le_trans (Nat.le_succ i) (ih (i + 1) _)
    · exact le_refl _

theorem nameLoop_snd (names : List (List Char)) (limit : Nat) :
    ∀ (fuel i : Nat) (s : PState), skipWhite s = s →
      (nameLoop names limit fuel i s).2 = s := by
  intro fuel
  induction fuel with
  | zero => intro i s _; rfl
  | succ n ih =>
    intro i s hs
    rw [nameLoop]
    simp only [matchTok_snd, hs]
    split
    · split
      · rfl
      · exact ih (i + 1) s hs
    · rfl

theorem treeOK_close (ok : Int → Prop) (temp : PARSETREE) (s1 : PState)
    (h : temp = PARSETREE.NULL ∨ WellFormed ok temp) :
    TreeOK ok (if (matchTok ")".toList s1).1 = true then
        funcEnd temp (advance 1 (matchTok ")".toList s1).2)
      else some (PARSETREE.NULL,
        error " Mis-matched parenthesis ".toList (matchTok ")".toList s1).2)) := by
  split
  · exact treeOK_funcEnd ok temp _ h
  · exact treeOK_some ok _ _ (Or.inl rfl)

theorem treeOK_func_step (ok : Int → Prop) (N : List (List Char)) (hN : NamesOK ok N)
    (f : Nat) (hexpr : ∀ s : PState, TreeOK ok (expr N f s)) (s : PState) :
    TreeOK ok (func N (f + 1) s) := by
  rw [func]
  dsimp only
  split
  · split
    · exact treeOK_none ok
    · rename_i temp s1 h
      exact treeOK_close ok temp s1 (hexpr _ temp s1 h)
  · split
    · rename_i hlow
      have hsk : skipWhite (matchTok "(".toList s).2 = (matchTok "(".toList s).2 := by
        rw [matchTok_snd, skipWhite_idem]
      have hr2 := nameLoop_snd OPRATOR NUMRATOR (NUMRATOR - FUNCSTART) FUNCSTART
        (matchTok "(".toList s).2 hsk
      have hge := nameLoop_ge OPRATOR NUMRATOR (NUMRATOR - FUNCSTART) FUNCSTART
        (matchTok "(".toList s).2
      obtain ⟨r, hrdef⟩ : ∃ r, r = nameLoop OPRATOR NUMRATOR (NUMRATOR - FUNCSTART) FUNCSTART
          (matchTok "(".toList s).2 := ⟨_, rfl⟩
      rw [← hrdef] at hr2 hge ⊢
      split
      · rename_i hlt
        split
        · exact treeOK_some ok _ _ (Or.inl rfl)
        · split
          · exact treeOK_none ok
          · rename_i arg s2 h
            refine treeOK_close ok _ s2 (wellFormed_unarOpNode ok _ ?_ arg (hexpr _ arg s2 h))
            right; right
            simp only [FUNCSTART, NUMRATOR] at hge hlt
            omega
      · rw [hr2]
        split
        · rename_i hq
          exact treeOK_funcEnd ok _ _
            (Or.inr (wellFormed_numNode ok _ 0 (Or.inr (hN _ hsk hlow hq))))
        · exact treeOK_funcEnd ok _ _ (Or.inl rfl)
    · exact treeOK_funcEnd ok _ _ (Or.inr (wellFormed_numNode ok _ _ (Or.inl rfl)))

/-- Every tree that a layer of the grammar returns is `NULL` or well formed. -/
theorem treeOK_all (ok : Int → Prop) (N : List (List Char)) (hN : NamesOK ok N) :
    ∀ f : Nat,
      (∀ s : PState, TreeOK ok (expr N f s)) ∧
      (∀ s : PState, TreeOK ok (term N f s)) ∧
      (∀ s : PState, TreeOK ok (fact N f s)) ∧
      (∀ s : PState, TreeOK ok (part N f s)) ∧
      (∀ (left : PARSETREE) (s : PState),
        (left = PARSETREE.NULL ∨ WellFormed ok left) → TreeOK ok (partLoop N f left s)) ∧
      (∀ s : PState, TreeOK ok (part2 N f s)) ∧
      (∀ s : PState, TreeOK ok (get_constant N f s)) ∧
      (∀ s : PState, TreeOK ok (func N f s)) := by
  intro f
  induction f with
  | zero =>
    refine ⟨?_, ?_, ?_, ?_, ?_, ?_, ?_, ?_⟩
    · intro s; rw [expr]; exact treeOK_none ok
    · intro s; rw [term]; exact treeOK_none ok
    · intro s; rw [fact]; exact treeOK_none ok
    · intro s; rw [part]; exact treeOK_none ok
    · intro left s _; rw [partLoop]; exact treeOK_none ok
    · intro s; rw [part2]; exact treeOK_none ok
    · intro s; rw [get_constant]; exact treeOK_none ok
    · intro s; rw [func]; exact treeOK_none ok
  | succ f ih =>
    obtain ⟨h8, h7, h6, h5, h4, h3, h2, h1⟩ := ih
    exact ⟨treeOK_expr_step ok N f h7 h8, treeOK_term_step ok N f h6 h7,
      treeOK_fact_step ok N f h5 h6, treeOK_part_step ok N f h3 h4 h5,
      treeOK_partLoop_step ok N f h3 h4 h5, treeOK_part2_step ok N f h2 h3,
      treeOK_get_constant_step ok N f h1 h2, treeOK_func_step ok N hN f h8⟩

/-- The tree that `parse` returns with the flag 0 is well formed. -/
theorem parse_wellFormed (ok : Int → Prop) (V : List VarType)
    (hN : NamesOK ok (V.map VarType.name)) (inp : List Char) (r : ParseResult)
    (h : parse V inp = some r) (h0 : r.err = 0) : WellFormed ok r.tree := by
  by_cases hc : cur ⟨skipBlank inp, inp, [], [], 0, ghost0⟩ = NUL
  · unfold parse at h
    dsimp only at h
    rw [if_pos hc] at h
    cases h
    exact absurd h0 (show ¬ ((-1 : Int) = 0) by decide)
  · obtain ⟨t, s1, e, _, h2, hn, hparse⟩ := parse_run V inp hc
    rw [hparse] at h
    split at h
    · rename_i hne
      cases h
      exact absurd h0 hne
    · rename_i hz
      cases h
      have hok := (treeOK_all ok _ hN _).1 _ t s1 e
      rcases hok with hnull | hwf
      · exact absurd (h2.err_ne_zero (hn hnull)) hz
      · exact hwf

theorem binSwitch_codes (M : MathLib) (op : Int) (h1 : 1 ≤ op) (h2 : op ≤ 14) (a b : ℚ)
    (v : ℚ) (c : Int) (h : binSwitch M op a b 0 = some (v, c)) : c = 0 ∨ c = 2 := by
  interval_cases op <;> simp [binSwitch] at h <;> first
    | exact Or.inl h.2.symm
    | exact Or.inl h.2.2.symm
    | (by_cases hb : b = 0
       · simp [hb] at h; exact Or.inr h.2.symm
       · simp [hb] at h; exact Or.inl h.2.symm)

theorem unSwitch_codes (M : MathLib) (V : List VarType) (op : Int)
    (hop : op = 0 ∨ op = 10 ∨ (15 ≤ op ∧ op ≤ 22)) (a : ℚ) :
    (unSwitch M V op a 0).2 = 0 ∨ (unSwitch M V op a 0).2 = 4 ∨
      (unSwitch M V op a 0).2 = 5 ∨ (unSwitch M V op a 0).2 = 6 ∨
      (unSwitch M V op a 0).2 = 7 := by
  rcases hop with rfl | rfl | ⟨h1, h2⟩
  · simp [unSwitch]
  · simp [unSwitch]
  · interval_cases op <;> simp only [unSwitch] <;> norm_num <;> split <;> simp

/-- The codes that the evaluation of a well-formed tree can report. -/
theorem _eval_codes (M : MathLib) (V : List VarType) (t : PARSETREE) :
    WellFormed ActiveVar t → ∀ (v : ℚ) (c : Int), _eval M V t 0 = some (v, c) →
      c = 0 ∨ c = 2 ∨ c = 4 ∨ c = 5 ∨ c = 6 ∨ c = 7 := by
  induction t with
  | NULL => intro hw; exact absurd hw (by simp [WellFormed])
  | node type op l r x ihl ihr =>
    intro hw v c h
    unfold WellFormed at hw
    rcases hw with ⟨rfl, h1, h2, hwl, hwr⟩ | ⟨rfl, hop, hwl, _⟩ | ⟨rfl, hid, _, _⟩
    · rw [_eval_binop] at h
      cases hl : _eval M V l 0 with
      | none => rw [hl] at h; cases h
      | some p =>
        obtain ⟨op1, e1⟩ := p
        rw [hl] at h
        dsimp only at h
        by_cases he1 : e1 = 0
        · subst he1
          rw [if_neg (by simp)] at h
          cases hr : _eval M V r 0 with
          | none => rw [hr] at h; cases h
          | some q =>
            obtain ⟨op2, e2⟩ := q
            rw [hr] at h
            dsimp only at h
            by_cases he2 : e2 = 0
            · subst he2
              rw [if_neg (by simp)] at h
              rcases binSwitch_codes M op h1 h2 op1 op2 v c h with hc | hc
              · exact Or.inl hc
              · exact Or.inr (Or.inl hc)
            · rw [if_pos he2] at h
              cases h
              exact ihr hwr _ _ hr
        · rw [if_pos he1] at h
          cases h
          exact ihl hwl _ _ hl
    · rw [_eval_unop] at h
      cases hl : _eval M V l 0 with
      | none => rw [hl] at h; cases h
      | some p =>
        obtain ⟨op1, e1⟩ := p
        rw [hl] at h
        dsimp only at h
        by_cases he1 : e1 = 0
        · subst he1
          rw [if_neg (by simp)] at h
          have hc2 : (unSwitch M V op op1 0).2 = c := by
            rw [Option.some.inj h]
          rw [← hc2]
          rcases unSwitch_codes M V op hop op1 with hc | hc | hc | hc | hc
          · exact Or.inl hc
          · exact Or.inr (Or.inr (Or.inl hc))
          · exact Or.inr (Or.inr (Or.inr (Or.inl hc)))
          · exact Or.inr (Or.inr (Or.inr (Or.inr (Or.inl hc))))
          · exact Or.inr (Or.inr (Or.inr (Or.inr (Or.inr hc))))
        · rw [if_pos he1] at h
          cases h
          exact ihl hwl _ _ hl
    · rw [_eval, if_neg (by decide), if_neg (by decide), if_pos rfl] at h
      rcases hid with hc | ⟨ha, hb⟩
      · rw [if_pos hc] at h
        cases h
        exact Or.inl rfl
      · split at h
        · exact Or.inl (Prod.mk.inj (Option.some.inj h)).2.symm
        · exact Or.inl (Prod.mk.inj (Option.some.inj h)).2.symm

theorem namesOK_active (N : List (List Char)) : NamesOK ActiveVar N := by
  intro s _ _ h
  exact ⟨Int.natCast_nonneg _, by exact_mod_cast h⟩

/-- C21. Trees built by `parse` are well formed for the evaluator. When `parse` returns
the flag 0, whatever the names in the table, every binary node of its tree has an operator
from 1 to 14, every unary node the operator 0, 10 or one from 15 to 22, and every variable
leaf an index from 0 below `num_var`; and for every `<math.h>` and every table, a code
that `eval` reports for the tree is 0, 2, 4, 5, 6 or 7 (an evaluation that takes a
remainder by zero reports no code). -/
theorem parsed_tree_well_formed (M : MathLib) (V W : List VarType) (inp : List Char)
    (r : ParseResult) (h : parse V inp = some r) (h0 : r.err = 0) :
    WellFormed ActiveVar r.tree ∧
    ∀ (v : ℚ) (c : Int), eval M W r.tree = some (v, c) →
      c = 0 ∨ c = 2 ∨ c = 4 ∨ c = 5 ∨ c = 6 ∨ c = 7 := by
  have hw := parse_wellFormed ActiveVar V (namesOK_active _) inp r h h0
  refine ⟨hw, ?_⟩
  intro v c he
  have hne : r.tree ≠ PARSETREE.NULL := by
    intro hn
    rw [hn] at hw
    exact absurd hw (by simp [WellFormed])
  rw [eval, if_neg hne] at he
  exact _eval_codes M W r.tree hw v c he

theorem parsed_tree_well_formed_witness :
    WellFormed ActiveVar (PARSETREE.node BINOP 13 (numNode 0 0) (numNode CONST 0) 0) ∧
    ∀ (v : ℚ) (c : Int),
      eval zeroMath VARIABLE (PARSETREE.node BINOP 13 (numNode 0 0) (numNode CONST 0) 0) =
        some (v, c) →
      c = 0 ∨ c = 2 ∨ c = 4 ∨ c = 5 ∨ c = 6 ∨ c = 7 :=
  parsed_tree_well_formed zeroMath VARIABLE VARIABLE "t/0".toList
    ⟨PARSETREE.node BINOP 13 (numNode 0 0) (numNode CONST 0) 0, 0, []⟩ (by decide!) rfl

/-- A name that is found at a cursor begins with the character at the cursor. -/
theorem cur_of_prefix (c : Char) (cs : List Char) (s : PState)
    (h : (c :: cs).isPrefixOf s.Str = true) : cur s = c := by
  rw [List.isPrefixOf_iff_prefix] at h
  obtain ⟨t, ht⟩ := h
  unfold cur
  rw [← ht]
  rfl

theorem namesOK_lower : NamesOK LowerVar (VARIABLE.map VarType.name) := by
  intro s hs hlow hlt
  have hf := nameLoop_found (VARIABLE.map VarType.name) num_var num_var 0 s (by simp) hlt
  rw [nameLoop_snd _ _ _ _ s hs] at hf
  generalize (nameLoop (VARIABLE.map VarType.name) num_var num_var 0 s).1 = i at hf hlt
  have hi : i < 5 := hlt
  interval_cases i
  · exact Or.inl rfl
  · exfalso
    have hc : cur s = 'T' := cur_of_prefix 'T' [] s hf
    rw [hc] at hlow
    exact absurd hlow (by decide)
  · exact Or.inr (Or.inl rfl)
  · exact Or.inr (Or.inr rfl)
  · exfalso
    have hc : cur s = ' ' := cur_of_prefix ' ' [' '] s hf
    rw [hc] at hlow
    exact absurd hlow (by decide)

/-- C22. Only variables whose name begins with a lower-case letter can be referenced. On
a table with the names of `VARIABLE`, when `parse` returns the flag 0 every variable leaf
of its tree has the index 0 (`t`), 2 (`e`) or 3 (`pi`), so never the index 1 of `T`; and
`parse` of `T` returns `NULL` with the flag 1 and an ` unexpected symbol ` message. -/
theorem only_lower_case_variables (V : List VarType)
    (hV : V.map VarType.name = VARIABLE.map VarType.name) :
    (∀ (inp : List Char) (r : ParseResult), parse V inp = some r → r.err = 0 →
      WellFormed LowerVar r.tree) ∧
    parse V "T".toList = some ⟨PARSETREE.NULL, 1, "T\n  ^ unexpected symbol ".toList⟩ := by
  constructor
  · intro inp r h h0
    exact parse_wellFormed LowerVar V (hV ▸ namesOK_lower) inp r h h0
  · rw [parse_congr_names V VARIABLE hV]
    decide!

theorem only_lower_case_variables_witness :
    WellFormed LowerVar (PARSETREE.node BINOP 11 (numNode 3 0) (numNode 2 0) 0) :=
  (only_lower_case_variables VARIABLE rfl).1 "pi*e".toList
    ⟨PARSETREE.node BINOP 11 (numNode 3 0) (numNode 2 0) 0, 0, []⟩ (by decide!) rfl

/-! ## The ghost record: the cursor stays inside, the scanner takes no sign -/

theorem ghostKept_refl (s : PState) : GhostKept s s := ⟨rfl, rfl⟩

theorem GhostKept.comp {s1 s2 s3 : PState} (h12 : GhostKept s1 s2) (h23 : GhostKept s2 s3) :
    GhostKept s1 s3 :=
  ⟨h23.1.trans h12.1, h23.2.trans h12.2⟩

theorem kept_skipWhite (s : PState) : GhostKept s (skipWhite s) := ⟨rfl, rfl⟩

theorem kept_setStr (s : PState) (l : List Char) : GhostKept s (setStr s l) := ⟨rfl, rfl⟩

theorem kept_match (t : List Char) (s : PState) : GhostKept s (matchTok t s).2 := ⟨rfl, rfl⟩

/-- A step over characters that are there leaves the ghost as it was. -/
theorem advance_ghost (n : Nat) (s : PState) (h : n ≤ s.Str.length) :
    (advance n s).ghost = s.ghost := by
  unfold advance
  simp only [if_pos h]

theorem kept_advance (n : Nat) (s : PState) (h : n ≤ s.Str.length) :
    GhostKept s (advance n s) := by
  rw [GhostKept, advance_ghost n s h]
  exact ⟨rfl, rfl⟩

theorem kept_match_advance (t : List Char) (s : PState) (h : (matchTok t s).1 = true) :
    GhostKept s (advance t.length (matchTok t s).2) :=
  (kept_match t s).comp (kept_advance _ _ (match_fits t s h))

theorem kept_cur_advance (s : PState) (c : Char) (hc : c ≠ NUL) (h : cur s = c) :
    GhostKept s (advance 1 s) :=
  kept_advance 1 s (cur_fits s c hc h)

theorem kept_error (d : List Char) (s : PState) : GhostKept s (error d s) := by
  unfold error
  split
  · dsimp only [GhostKept]
    split <;> exact ⟨rfl, rfl⟩
  · exact ghostKept_refl s

theorem kept_ite_error (c : Prop) [Decidable c] (s : PState) :
    GhostKept s (if c then error " unexpected symbol ".toList s else s) := by
  split
  · exact kept_error _ s
  · exact ghostKept_refl s

theorem kept_signLoop : ∀ (fuel : Nat) (s : PState) (sign : Int),
    GhostKept s (signLoop fuel s sign).1 := by
  intro fuel
  induction fuel with
  | zero => intro s sign; exact ghostKept_refl s
  | succ n ih =>
    intro s sign
    rw [signLoop]
    split
    · rename_i hm
      exact (kept_match_advance "+".toList s hm).comp (ih _ _)
    · split
      · rename_i hm
        exact ((kept_match "+".toList s).comp (kept_match_advance "-".toList _ hm)).comp
          (ih _ _)
      · exact (kept_match "+".toList s).comp (kept_match "-".toList _)

theorem kept_nameLoop (names : List (List Char)) (limit : Nat) :
    ∀ (fuel i : Nat) (s : PState), GhostKept s (nameLoop names limit fuel i s).2 := by
  intro fuel
  induction fuel with
  | zero => intro i s; exact ghostKept_refl s
  | succ n ih =>
    intro i s
    rw [nameLoop]
    split
    · split
      · exact kept_match (names.getD i []) s
      · exact (kept_match (names.getD i []) s).comp (ih _ _)
    · exact ghostKept_refl s

/-- The first part of `myAtof` entered where no sign stands: its sign loop consumes
nothing, so nothing is recorded. -/
theorem kept_atofSign (s : PState) (hp : "+".toList.isPrefixOf (skipWhite s).Str = false)
    (hm : "-".toList.isPrefixOf (skipWhite s).Str = false) : GhostKept s (atofSign s).2 := by
  have hl := signLoop_no_sign (skipWhite s) (skipWhite_idem s) hp hm
    (skipWhite s).Str.length 1
  unfold atofSign
  simp only [hl, markScanSign, if_true, skipWhite_idem]
  exact (kept_skipWhite s).comp (kept_ite_error _ _)

theorem kept_atofMantissa (s : PState) : GhostKept s (atofMantissa s).2.2 := by
  unfold atofMantissa
  dsimp only
  split
  · rename_i hc
    exact (((kept_setStr s _).comp (kept_cur_advance _ '.' (by decide) hc)).comp
      (kept_setStr _ _)).comp (kept_skipWhite _)
  · exact (kept_setStr s _).comp (kept_skipWhite _)

theorem kept_atofExponent (s : PState) : GhostKept s (atofExponent s).2 := by
  unfold atofExponent
  dsimp only
  split
  · rename_i hc
    have ha : GhostKept s (advance 1 s) := by
      rcases hc with h | h
      · exact kept_cur_advance s 'e' (by decide) h
      · exact kept_cur_advance s 'E' (by decide) h
    exact ((((ha.comp (kept_skipWhite _)).comp (kept_signLoop _ _ _)).comp
      (kept_skipWhite _)).comp (kept_ite_error _ _)).comp (kept_setStr _ _)
  · exact ghostKept_refl s

theorem kept_myAtof (s : PState) (hp : "+".toList.isPrefixOf (skipWhite s).Str = false)
    (hm : "-".toList.isPrefixOf (skipWhite s).Str = false) : GhostKept s (myAtof s).2 := by
  unfold myAtof
  exact ((kept_atofSign s hp hm).comp (kept_atofMantissa _)).comp (kept_atofExponent _)

theorem kept_trailLoop (s : PState) : ∀ l : List Char, GhostKept s (trailLoop s l) := by
  intro l
  induction l with
  | nil => exact ⟨rfl, rfl⟩
  | cons c cs ih =>
    rw [trailLoop]
    split
    · exact ⟨rfl, rfl⟩
    · split
      · exact @GhostKept.comp _ { s with Str := c :: cs } _ ⟨rfl, rfl⟩ (kept_error _ _)
      · exact ih

theorem keptRes_none (s : PState) : KeptRes s none := by
  intro t s2 h; cases h

theorem keptRes_some (s s2 : PState) (t : PARSETREE) (h : GhostKept s s2) :
    KeptRes s (some (t, s2)) := by
  intro t2 s3 e
  cases e
  exact h

theorem keptRes_mono {s0 s1 : PState} {r : Option (PARSETREE × PState)}
    (h : GhostKept s0 s1) (hr : KeptRes s1 r) : KeptRes s0 r :=
  fun t s2 e => h.comp (hr t s2 e)

theorem keptRes_binop (op : Int) (s0 s1 : PState) (left : PARSETREE)
    (r : Option (PARSETREE × PState)) (h01 : GhostKept s0 s1) :
    KeptRes s1 r →
    KeptRes s0 (match r with
      | none => none
      | some (x, s2) => some (binOpNode op left x, s2)) := by
  intro hr
  cases r with
  | none => exact keptRes_none s0
  | some p =>
    obtain ⟨x, s2⟩ := p
    exact keptRes_some s0 s2 _ (h01.comp (hr x s2 rfl))

theorem keptRes_unop (op : Int) (s0 s1 : PState) (r : Option (PARSETREE × PState))
    (h01 : GhostKept s0 s1) :
    KeptRes s1 r →
    KeptRes s0 (match r with
      | none => none
      | some (x, s2) => some (unarOpNode op x, s2)) := by
  intro hr
  cases r with
  | none => exact keptRes_none s0
  | some p =>
    obtain ⟨x, s2⟩ := p
    exact keptRes_some s0 s2 _ (h01.comp (hr x s2 rfl))

/-- The tail shared by the binary layers, for the ghost: the step over the operator is a
step over a token that `match` found. -/
theorem keptRes_ite_binop (tok : List Char) (op : Int) (s s1 : PState) (left : PARSETREE)
    (g : PState → Option (PARSETREE × PState)) (rest : Option (PARSETREE × PState))
    (hk : GhostKept s s1) (hg : ∀ sa : PState, KeptRes sa (g sa)) :
    KeptRes s rest →
    KeptRes s (if (matchTok tok s1).1 = true then
        (match g (advance tok.length (matchTok tok s1).2) with
          | none => none
          | some (r, s2) => some (binOpNode op left r, s2))
      else rest) := by
  intro hrest
  split
  · rename_i hm
    exact keptRes_binop op s (advance tok.length (matchTok tok s1).2) left _
      (hk.comp (kept_match_advance tok s1 hm)) (hg _)
  · exact hrest

theorem keptRes_left (tok : List Char) (s s1 : PState) (left : PARSETREE)
    (hk : GhostKept s s1) : KeptRes s (some (left, (matchTok tok s1).2)) :=
  keptRes_some s _ left (hk.comp (kept_match tok s1))

theorem keptRes_expr_step (N : List (List Char)) (f : Nat)
    (hterm : ∀ s : PState, KeptRes s (term N f s))
    (hexpr : ∀ s : PState, KeptRes s (expr N f s)) (s : PState) :
    KeptRes s (expr N (f + 1) s) := by
  rw [expr]
  split
  · exact keptRes_none s
  · rename_i left s1 h
    have hk := hterm s left s1 h
    refine keptRes_ite_binop "&&".toList 1 s s1 left (expr N f) _ hk hexpr ?_
    refine keptRes_ite_binop "||".toList 2 s s1 left (expr N f) _ hk hexpr ?_
    exact keptRes_left _ s s1 left hk

theorem keptRes_term_step (N : List (List Char)) (f : Nat)
    (hfact : ∀ s : PState, KeptRes s (fact N f s))
    (hterm : ∀ s : PState, KeptRes s (term N f s)) (s : PState) :
    KeptRes s (term N (f + 1) s) := by
  rw [term]
  split
  · exact keptRes_none s
  · rename_i left s1 h
    have hk := hfact s left s1 h
    refine keptRes_ite_binop "<=".toList 3 s s1 left (term N f) _ hk hterm ?_
    refine keptRes_ite_binop "<".toList 4 s s1 left (term N f) _ hk hterm ?_
    refine keptRes_ite_binop ">=".toList 5 s s1 left (term N f) _ hk hterm ?_
    refine keptRes_ite_binop ">".toList 6 s s1 left (term N f) _ hk hterm ?_
    refine keptRes_ite_binop "==".toList 7 s s1 left (term N f) _ hk hterm ?_
    refine keptRes_ite_binop "!=".toList 8 s s1 left (term N f) _ hk hterm ?_
    exact keptRes_left _ s s1 left hk

theorem keptRes_fact_step (N : List (List Char)) (f : Nat)
    (hpart : ∀ s : PState, KeptRes s (part N f s))
    (hfact : ∀ s : PState, KeptRes s (fact N f s)) (s : PState) :
    KeptRes s (fact N (f + 1) s) := by
  rw [fact]
  split
  · exact keptRes_none s
  · rename_i left s1 h
    have hk := hpart s left s1 h
    refine keptRes_ite_binop "+".toList 9 s s1 left (fact N f) _ hk hfact ?_
    refine keptRes_ite_binop "-".toList 10 s s1 left (fact N f) _ hk hfact ?_
    exact keptRes_left _ s s1 left hk

theorem keptRes_part2_step (N : List (List Char)) (f : Nat)
    (hconst : ∀ s : PState, KeptRes s (get_constant N f s))
    (hpart2 : ∀ s : PState, KeptRes s (part2 N f s)) (s : PState) :
    KeptRes s (part2 N (f + 1) s) := by
  rw [part2]
  split
  · exact keptRes_none s
  · rename_i left s1 h
    have hk := hconst s left s1 h
    refine keptRes_ite_binop "^".toList 14 s s1 left (part2 N f) _ hk hpart2 ?_
    exact keptRes_left _ s s1 left hk

theorem keptRes_part_step (N : List (List Char)) (f : Nat)
    (hpart2 : ∀ s : PState, KeptRes s (part2 N f s))
    (hloop : ∀ (left : PARSETREE) (s : PState), KeptRes s (partLoop N f left s))
    (hpart : ∀ s : PState, KeptRes s (part N f s)) (s : PState) :
    KeptRes s (part N (f + 1) s) := by
  rw [part]
  split
  · exact keptRes_none s
  · rename_i left s1 h
    have hk := hpart2 s left s1 h
    refine keptRes_ite_binop "*".toList 11 s s1 left (part N f) _ hk hpart ?_
    refine keptRes_ite_binop "%".toList 12 s s1 left (part N f) _ hk hpart ?_
    split
    · exact keptRes_mono (hk.comp (kept_match _ s1)) (hloop left _)
    · exact keptRes_left _ s s1 left hk

theorem keptRes_partLoop_step (N : List (List Char)) (f : Nat)
    (hpart2 : ∀ s : PState, KeptRes s (part2 N f s))
    (hloop : ∀ (left : PARSETREE) (s : PState), KeptRes s (partLoop N f left s))
    (hpart : ∀ s : PState, KeptRes s (part N f s)) (left : PARSETREE) (s : PState) :
    KeptRes s (partLoop N (f + 1) left s) := by
  rw [partLoop]
  split
  · rename_i hm
    split
    · exact keptRes_none s
    · rename_i r s1 h
      exact keptRes_mono ((kept_match_advance "/".toList s hm).comp (hpart2 _ r s1 h))
        (hloop _ s1)
  · split
    · rename_i hc
      exact keptRes_binop 11 s _ left _
        ((kept_match "/".toList s).comp (kept_cur_advance _ '*' (by decide) hc)) (hpart _)
    · split
      · rename_i hc
        exact keptRes_binop 12 s _ left _
          ((kept_match "/".toList s).comp (kept_cur_advance _ '%' (by decide) hc)) (hpart _)
      · exact keptRes_some s _ left (kept_match _ s)

theorem noSign_of_miss (s : PState) (hp : ¬ (matchTok "+".toList s).1 = true)
    (hm : ¬ (matchTok "-".toList s).1 = true) (t : List Char) : NoSign (matchTok t s).2 := by
  unfold NoSign
  rw [matchTok_fst, matchTok_fst, matchTok_snd, skipWhite_idem]
  rw [matchTok_fst] at hp hm
  exact ⟨Bool.eq_false_iff.mpr hp, Bool.eq_false_iff.mpr hm⟩

theorem keptRes_get_constant_step (N : List (List Char)) (f : Nat)
    (hfunc : ∀ s : PState, NoSign s → KeptRes s (func N f s))
    (hconst : ∀ s : PState, KeptRes s (get_constant N f s)) (s : PState) :
    KeptRes s (get_constant N (f + 1) s) := by
  rw [get_constant]
  split
  · rename_i hm
    exact keptRes_mono (kept_match_advance "+".toList s hm) (hconst _)
  · rename_i hp
    split
    · rename_i hm
      exact keptRes_unop 10 s _ _ (kept_match_advance "-".toList s hm) (hconst _)
    · rename_i hm
      split
      · rename_i hb
        exact keptRes_unop 0 s _ _ (kept_match_advance "!".toList s hb) (hconst _)
      · exact keptRes_mono (kept_match "!".toList s)
          (hfunc _ (noSign_of_miss s hp hm "!".toList))

theorem keptRes_funcEnd (s0 s : PState) (temp : PARSETREE) (h : GhostKept s0 s) :
    KeptRes s0 (funcEnd temp s) := by
  unfold funcEnd
  split
  · exact keptRes_some s0 _ _ (h.comp (kept_error _ s))
  · exact keptRes_some s0 _ _ h

theorem keptRes_close (s s1 : PState) (temp : PARSETREE) (hk : GhostKept s s1) :
    KeptRes s (if (matchTok ")".toList s1).1 = true then
        funcEnd temp (advance 1 (matchTok ")".toList s1).2)
      else some (PARSETREE.NULL,
        error " Mis-matched parenthesis ".toList (matchTok ")".toList s1).2)) := by
  split
  · rename_i hm
    exact keptRes_funcEnd s _ temp (hk.comp (kept_match_advance ")".toList s1 hm))
  · exact keptRes_some s _ _ ((hk.comp (kept_match _ s1)).comp (kept_error _ _))

theorem keptRes_func_step (N : List (List Char)) (f : Nat)
    (hexpr : ∀ s : PState, KeptRes s (expr N f s)) (s : PState) (hns : NoSign s) :
    KeptRes s (func N (f + 1) s) := by
  rw [func]
  dsimp only
  split
  · rename_i hm
    split
    · exact keptRes_none s
    · rename_i temp s1 h
      exact keptRes_close s s1 temp
        ((kept_match_advance "(".toList s hm).comp (hexpr _ temp s1 h))
  · split
    · have hfit := nameLoop_fits OPRATOR NUMRATOR (NUMRATOR - FUNCSTART) FUNCSTART
        (matchTok "(".toList s).2 (by decide)
      have hr0 : GhostKept s (nameLoop OPRATOR NUMRATOR (NUMRATOR - FUNCSTART) FUNCSTART
          (matchTok "(".toList s).2).2 := (kept_match _ s).comp (kept_nameLoop _ _ _ _ _)
      obtain ⟨r, hrdef⟩ : ∃ r, r = nameLoop OPRATOR NUMRATOR (NUMRATOR - FUNCSTART) FUNCSTART
          (matchTok "(".toList s).2 := ⟨_, rfl⟩
      rw [← hrdef] at hfit hr0 ⊢
      split
      · rename_i hlt
        have hr1 : GhostKept s (advance (OPRATOR.getD r.1 []).length r.2) :=
          hr0.comp (kept_advance _ _ (hfit hlt))
        split
        · exact keptRes_some s _ _ ((hr1.comp (kept_match _ _)).comp (kept_error _ _))
        · rename_i hm
          have hm2 : (matchTok "(".toList (advance (OPRATOR.getD r.1 []).length r.2)).1 = true := by
            simpa using hm
          split
          · exact keptRes_none s
          · rename_i arg s2 h
            exact keptRes_close s s2 _
              ((hr1.comp (kept_match_advance "(".toList _ hm2)).comp (hexpr _ arg s2 h))
      · have hq0 : GhostKept s (nameLoop N num_var num_var 0 r.2).2 :=
          hr0.comp (kept_nameLoop _ _ _ _ _)
        split
        · rename_i hq
          exact keptRes_funcEnd s _ _
            (hq0.comp (kept_advance _ _ (nameLoop_fits N num_var num_var 0 r.2 (by simp) hq)))
        · exact keptRes_funcEnd s _ _ hq0
    · have hp : "+".toList.isPrefixOf (skipWhite (matchTok "(".toList s).2).Str = false := by
        rw [matchTok_snd, skipWhite_idem]; exact hns.1
      have hm : "-".toList.isPrefixOf (skipWhite (matchTok "(".toList s).2).Str = false := by
        rw [matchTok_snd, skipWhite_idem]; exact hns.2
      exact keptRes_funcEnd s _ _ ((kept_match _ s).comp (kept_myAtof _ hp hm))

/-- Every layer of the grammar leaves the ghost fields `past` and `scanSign` as they
were; `func` does so where it is entered, behind the failed matches of `+` and `-` in
`get_constant`. -/
theorem kept_all (N : List (List Char)) : ∀ f : Nat,
    (∀ s : PState, KeptRes s (expr N f s)) ∧
    (∀ s : PState, KeptRes s (term N f s)) ∧
    (∀ s : PState, KeptRes s (fact N f s)) ∧
    (∀ s : PState, KeptRes s (part N f s)) ∧
    (∀ (left : PARSETREE) (s : PState), KeptRes s (partLoop N f left s)) ∧
    (∀ s : PState, KeptRes s (part2 N f s)) ∧
    (∀ s : PState, KeptRes s (get_constant N f s)) ∧
    (∀ s : PState, NoSign s → KeptRes s (func N f s)) := by
  intro f
  induction f with
  | zero =>
    refine ⟨?_, ?_, ?_, ?_, ?_, ?_, ?_, ?_⟩
    · intro s; rw [expr]; exact keptRes_none s
    · intro s; rw [term]; exact keptRes_none s
    · intro s; rw [fact]; exact keptRes_none s
    · intro s; rw [part]; exact keptRes_none s
    · intro left s; rw [partLoop]; exact keptRes_none s
    · intro s; rw [part2]; exact keptRes_none s
    · intro s; rw [get_constant]; exact keptRes_none s
    · intro s _; rw [func]; exact keptRes_none s
  | succ f ih =>
    obtain ⟨h8, h7, h6, h5, h4, h3, h2, h1⟩ := ih
    exact ⟨keptRes_expr_step N f h7 h8, keptRes_term_step N f h6 h7,
      keptRes_fact_step N f h5 h6, keptRes_part_step N f h3 h4 h5,
      keptRes_partLoop_step N f h3 h4 h5, keptRes_part2_step N f h2 h3,
      keptRes_get_constant_step N f h1 h2, keptRes_func_step N f h8⟩

/-- The ghost record when `parse` returns, with the state in which the grammar ends. -/
theorem parseGhost_run (V : List VarType) (inp : List Char)
    (hc : ¬ cur ⟨skipBlank inp, inp, [], [], 0, ghost0⟩ = NUL) :
    ∃ (t : PARSETREE) (s1 : PState),
      expr (V.map VarType.name) (8 * (skipBlank inp).length + 8)
        ⟨skipBlank inp, inp, [], [], 0, ghost0⟩ = some (t, s1) ∧
      parseGhost V inp = some (trailLoop s1 s1.Str).ghost ∧
      GhostKept ⟨skipBlank inp, inp, [], [], 0, ghost0⟩ (trailLoop s1 s1.Str) := by
  obtain ⟨t, s1, e, _, _⟩ := parse_expr_returns (V.map VarType.name) inp
  refine ⟨t, s1, e, ?_, ?_⟩
  · unfold parseGhost
    dsimp only
    rw [if_neg hc, e]
  · exact ((kept_all _ _).1 _ t s1 e).comp (kept_trailLoop s1 s1.Str)

/-- For every input `parse` returns with the ghost fields `past` and `scanSign` unset. -/
theorem parseGhost_clean (V : List VarType) (inp : List Char) :
    ∃ g : Ghost, parseGhost V inp = some g ∧ g.past = false ∧ g.scanSign = false := by
  by_cases hc : cur ⟨skipBlank inp, inp, [], [], 0, ghost0⟩ = NUL
  · refine ⟨ghost0, ?_, rfl, rfl⟩
    unfold parseGhost
    dsimp only
    rw [if_pos hc]
  · obtain ⟨t, s1, _, hg, hk⟩ := parseGhost_run V inp hc
    exact ⟨_, hg, hk.1, hk.2⟩

/-! ## The message arrays of `error` -/

/-- The result of `parse` and the ghost record at its return, from one run of the
grammar. -/
theorem parse_run_ghost (V : List VarType) (inp : List Char)
    (hc : ¬ cur ⟨skipBlank inp, inp, [], [], 0, ghost0⟩ = NUL) :
    ∃ (t : PARSETREE) (s1 : PState),
      expr (V.map VarType.name) (8 * (skipBlank inp).length + 8)
        ⟨skipBlank inp, inp, [], [], 0, ghost0⟩ = some (t, s1) ∧
      Run ⟨skipBlank inp, inp, [], [], 0, ghost0⟩ s1 ∧
      Run s1 (trailLoop s1 s1.Str) ∧
      (t = PARSETREE.NULL → s1.ParseError ≠ 0) ∧
      parse V inp = some (if (trailLoop s1 s1.Str).ParseError ≠ 0 then
          ⟨PARSETREE.NULL, (trailLoop s1 s1.Str).ParseError,
            (trailLoop s1 s1.Str).err1Message ++ "\n  ".toList ++
              (trailLoop s1 s1.Str).err2Message⟩
        else ⟨t, (trailLoop s1 s1.Str).ParseError, []⟩) ∧
      parseGhost V inp = some (trailLoop s1 s1.Str).ghost := by
  obtain ⟨t, s1, e, hrun, h2, hn, hparse⟩ := parse_run V inp hc
  obtain ⟨t2, s2, e2, hg, _⟩ := parseGhost_run V inp hc
  rw [e] at e2
  cases e2
  exact ⟨t, s1, e, hrun, h2, hn, hparse, hg⟩

/-- When a fault was latched between the start of `parse` and its end, an array was
overrun exactly when the input or the second line does not fit. -/
theorem latched_overrun (inp : List Char) (s2 : PState)
    (hrun : Run ⟨skipBlank inp, inp, [], [], 0, ghost0⟩ s2) (hne : s2.ParseError ≠ 0) :
    s2.ghost.overrun = true ↔
      (errCapacity ≤ inp.length ∨ errCapacity ≤ s2.err2Message.length) := by
  obtain ⟨_, _, c⟩ := hrun
  rcases c with ⟨p, _⟩ | ⟨_, _, _, k, d, _, _, _, _, ho⟩
  · exact absurd p hne
  · rw [ho]
    constructor
    · rintro (h | h)
      · exact absurd h (by simp [ghost0])
      · exact h
    · exact fun h => Or.inr h

/-- C1. The function `error` copies the input and the second line into arrays of 255
bytes without a test. On the input made of `1`, 240 spaces and `)` the fault is latched at
offset 241 and the second line has 260 characters: an array is overrun, and what `parse`
then hands back is not defined. For every input on which no array is overrun `parse`
returns, with exactly two outcomes: a tree that is not `NULL` with the flag 0, or `NULL`
with a flag that is not 0; and when the flag is 1 the input has fewer than 255
characters. -/
theorem parse_two_outcomes_unless_overrun (V : List VarType) (inp : List Char) :
    (∀ g : Ghost, parseGhost V inp = some g → g.overrun = false →
      ∃ r : ParseResult, parse V inp = some r ∧
        ((r.tree ≠ PARSETREE.NULL ∧ r.err = 0) ∨ (r.tree = PARSETREE.NULL ∧ r.err ≠ 0)) ∧
        (r.err = 1 → inp.length < errCapacity)) ∧
    parseGhost VARIABLE ('1' :: (List.replicate 240 ' ' ++ [')'])) =
      some ⟨false, true, false⟩ ∧
    (List.replicate 240 '-' ++ "^".toList ++ " unexpected symbol ".toList).length = 260 := by
  refine ⟨?_, by decide!,
    by rw [List.length_append, List.length_append, List.length_replicate]; rfl⟩
  intro g hg hov
  by_cases hc : cur ⟨skipBlank inp, inp, [], [], 0, ghost0⟩ = NUL
  · unfold parse
    dsimp only
    rw [if_pos hc]
    exact ⟨_, rfl, Or.inr ⟨rfl, show (-1 : Int) ≠ 0 by decide⟩,
      fun h => absurd h (show ¬ ((-1 : Int) = 1) by decide)⟩
  · obtain ⟨t, s1, _, hrun, h2, hn, hparse, hgh⟩ := parse_run_ghost V inp hc
    rw [hgh] at hg
    cases hg
    rw [hparse]
    split
    · rename_i hne
      have hfit := (latched_overrun inp _ (hrun.trans h2) hne).not.mp (by rw [hov]; decide)
      exact ⟨_, rfl, Or.inr ⟨rfl, hne⟩, fun _ => by omega⟩
    · rename_i h0
      refine ⟨_, rfl, Or.inl ⟨?_, not_not.mp h0⟩, ?_⟩
      · intro ht
        exact h0 (h2.err_ne_zero (hn ht))
      · intro h1
        have h1b : (trailLoop s1 s1.Str).ParseError = 1 := h1
        rw [not_not.mp h0] at h1b
        exact absurd h1b (by decide)

theorem parse_two_outcomes_unless_overrun_witness :
    ∃ r : ParseResult, parse VARIABLE "(1+2".toList = some r ∧
      ((r.tree ≠ PARSETREE.NULL ∧ r.err = 0) ∨ (r.tree = PARSETREE.NULL ∧ r.err ≠ 0)) ∧
      (r.err = 1 → "(1+2".toList.length < errCapacity) :=
  (parse_two_outcomes_unless_overrun VARIABLE "(1+2".toList).1 ghost0 (by decide!) rfl

/-- C11. The fault of trailing input is latched by `error`, which copies into arrays of
255 bytes without a test: on the input made of `2`, 240 spaces and `3` the second line
has 260 characters and an array is overrun, so what `parse` hands back is not defined.
On an input without the terminator inside, for which the grammar is run and on which no
array is overrun, `expr` returns a tree and a state, and: if a character other than space,
tab and line break is left at or after the cursor, `parse` returns `NULL` with a flag that
is not 0, the input has fewer than 255 characters, and when `expr` latched no fault the
flag is 1 and the message is the input, a line break, two spaces and the caret line of
` unexpected symbol ` at the first such character, a line of fewer than 255 characters;
and if `parse` returns the flag 0, only spaces, tabs and line breaks were left.
The inputs `2 3` and `1+2)` are rejected. -/
theorem trailing_input_rejected_unless_overrun (V : List VarType) (inp : List Char)
    (g : Ghost) (hnul : NUL ∉ inp)
    (hc : ¬ cur ⟨skipBlank inp, inp, [], [], 0, ghost0⟩ = NUL)
    (hg : parseGhost V inp = some g) (hov : g.overrun = false) :
    (∃ (t : PARSETREE) (s1 : PState),
      expr (V.map VarType.name) (8 * (skipBlank inp).length + 8)
        ⟨skipBlank inp, inp, [], [], 0, ghost0⟩ = some (t, s1) ∧
      ((∃ c ∈ s1.Str, c ≠ ' ' ∧ c ≠ '\t' ∧ c ≠ '\n') →
        ∃ r : ParseResult, parse V inp = some r ∧ r.tree = PARSETREE.NULL ∧ r.err ≠ 0 ∧
          inp.length < errCapacity ∧
          (s1.ParseError = 0 → r.err = 1 ∧
            r.err_mess = inp ++ "\n  ".toList ++
              caretLine (inp.length - (s1.Str.dropWhile isWhite).length)
                " unexpected symbol ".toList ∧
            (caretLine (inp.length - (s1.Str.dropWhile isWhite).length)
              " unexpected symbol ".toList).length < errCapacity)) ∧
      (∀ r : ParseResult, parse V inp = some r → r.err = 0 →
        ∀ c ∈ s1.Str, c = ' ' ∨ c = '\t' ∨ c = '\n')) ∧
    parse VARIABLE "2 3".toList =
      some ⟨PARSETREE.NULL, 1, "2 3\n  -^ unexpected symbol ".toList⟩ ∧
    parse VARIABLE "1+2)".toList =
      some ⟨PARSETREE.NULL, 1, "1+2)\n  --^ unexpected symbol ".toList⟩ ∧
    parseGhost VARIABLE ('2' :: (List.replicate 240 ' ' ++ ['3'])) =
      some ⟨false, true, false⟩ := by
  refine ⟨?_, by decide!, by decide!, by decide!⟩
  obtain ⟨t, s1, e, hrun, h2, _, hparse, hgh⟩ := parse_run_ghost V inp hc
  rw [hgh] at hg
  cases hg
  have hsuf : s1.Str <:+ inp := hrun.2.1.trans (skipBlank_suffix inp)
  have hn1 : NUL ∉ s1.Str := fun h => hnul (hsuf.subset h)
  have hrej : (∃ c ∈ s1.Str, c ≠ ' ' ∧ c ≠ '\t' ∧ c ≠ '\n') →
      trailLoop s1 s1.Str =
        error " unexpected symbol ".toList { s1 with Str := s1.Str.dropWhile isWhite } := by
    rintro ⟨c, hcm, hcw⟩
    exact trailLoop_reject s1 s1.Str hn1 ⟨c, hcm, (isWhite_eq_false_iff c).mpr hcw⟩
  refine ⟨t, s1, e, ?_, ?_⟩
  · intro hex
    have ht := hrej hex
    have hne : (trailLoop s1 s1.Str).ParseError ≠ 0 := by
      rw [ht]; exact error_ne_zero _ _
    have hfit := (latched_overrun inp _ (hrun.trans h2) hne).not.mp (by rw [hov]; decide)
    rw [hparse, if_pos hne]
    refine ⟨_, rfl, rfl, hne, by omega, ?_⟩
    intro h0
    obtain ⟨hs, he2⟩ := fields_of_no_fault inp s1 hrun h0
    obtain ⟨p1, p2, p3, _⟩ := error_latch " unexpected symbol ".toList
      { s1 with Str := s1.Str.dropWhile isWhite } h0
    have hm : (trailLoop s1 s1.Str).err2Message = caretLine
        (inp.length - (s1.Str.dropWhile isWhite).length) " unexpected symbol ".toList := by
      rw [ht, p3]
      show s1.err2Message ++ caretLine
        (s1.Start_str.length - (s1.Str.dropWhile isWhite).length)
          " unexpected symbol ".toList = _
      rw [hs, he2, List.nil_append]
    rw [hm] at hfit
    refine ⟨by rw [ht]; exact p1, ?_, by omega⟩
    show (trailLoop s1 s1.Str).err1Message ++ "\n  ".toList ++
      (trailLoop s1 s1.Str).err2Message = _
    rw [hm, ht, p2]
    show s1.Start_str ++ _ ++ _ = _
    rw [hs]
  · intro r hp h0 c hcm
    by_contra hcon
    have hex : ∃ c ∈ s1.Str, c ≠ ' ' ∧ c ≠ '\t' ∧ c ≠ '\n' :=
      ⟨c, hcm, by tauto⟩
    have hne : (trailLoop s1 s1.Str).ParseError ≠ 0 := by
      rw [hrej hex]; exact error_ne_zero _ _
    rw [hparse, if_pos hne] at hp
    cases hp
    exact hne h0

theorem trailing_input_rejected_unless_overrun_witness :
    (∃ (t : PARSETREE) (s1 : PState),
      expr (VARIABLE.map VarType.name) (8 * (skipBlank "2 3".toList).length + 8)
        ⟨skipBlank "2 3".toList, "2 3".toList, [], [], 0, ghost0⟩ = some (t, s1) ∧
      ((∃ c ∈ s1.Str, c ≠ ' ' ∧ c ≠ '\t' ∧ c ≠ '\n') →
        ∃ r : ParseResult, parse VARIABLE "2 3".toList = some r ∧
          r.tree = PARSETREE.NULL ∧ r.err ≠ 0 ∧
          "2 3".toList.length < errCapacity ∧
          (s1.ParseError = 0 → r.err = 1 ∧
            r.err_mess = "2 3".toList ++ "\n  ".toList ++
              caretLine ("2 3".toList.length - (s1.Str.dropWhile isWhite).length)
                " unexpected symbol ".toList ∧
            (caretLine ("2 3".toList.length - (s1.Str.dropWhile isWhite).length)
              " unexpected symbol ".toList).length < errCapacity)) ∧
      (∀ r : ParseResult, parse VARIABLE "2 3".toList = some r → r.err = 0 →
        ∀ c ∈ s1.Str, c = ' ' ∨ c = '\t' ∨ c = '\n')) :=
  (trailing_input_rejected_unless_overrun VARIABLE "2 3".toList ghost0 (by decide) (by decide)
    (by decide!) rfl).1

/-! ## Where the scanner is entered, and the bounds of the cursor -/

theorem markScanSign_scanSign (b : List Char) (s : PState) :
    (markScanSign b s).ghost.scanSign = true ↔ (s.ghost.scanSign = true ∨ s.Str ≠ b) := by
  unfold markScanSign
  split
  · rename_i h
    simp [h]
  · rename_i h
    simp [h]

theorem advance_past (n : Nat) (s : PState) :
    (advance n s).ghost.past = true ↔ (s.ghost.past = true ∨ s.Str.length < n) := by
  unfold advance
  dsimp only
  split
  · rename_i h
    constructor
    · exact fun hp => Or.inl hp
    · rintro (hp | hp)
      · exact hp
      · omega
  · rename_i h
    simp only [true_iff]
    exact Or.inr (by omega)

/-- C19 as written fails: there is no table and no input on which `parse` returns with
the record that the sign loop at the start of `myAtof` consumed a character. -/
theorem scanner_sign_loop_never_consumes :
    ¬ ∃ (V : List VarType) (inp : List Char) (g : Ghost),
      parseGhost V inp = some g ∧ g.scanSign = true := by
  rintro ⟨V, inp, g, hg, hs⟩
  obtain ⟨g2, hg2, _, hs2⟩ := parseGhost_clean V inp
  rw [hg] at hg2
  cases hg2
  rw [hs2] at hs
  exact absurd hs (by decide)

/-- C19, amended. The sign loop at the start of the literal scanner is never taken from
`parse`: for every table and every input `parse` returns with no record of a character
consumed by that loop, the record being set by `atofSign` exactly when the loop moved the
cursor, as it does when `myAtof` is entered at `-5` directly. No layer of the grammar sets
the record, and `func` does not where it is entered, behind the failed matches of `+` and
`-` in `get_constant`. The tree of `-5` is the negation node of the prefix layer over the
literal 5, and the scanner consumes signs in an exponent only, as in `25e--1`. -/
theorem scanner_sign_loop_dead (V : List VarType) (inp : List Char) :
    (∃ g : Ghost, parseGhost V inp = some g ∧ g.scanSign = false) ∧
    (∀ (f : Nat) (s s2 : PState) (t : PARSETREE),
      expr (V.map VarType.name) f s = some (t, s2) → s2.ghost.scanSign = s.ghost.scanSign) ∧
    (∀ (f : Nat) (s s2 : PState) (t : PARSETREE), NoSign s →
      func (V.map VarType.name) f s = some (t, s2) → s2.ghost.scanSign = s.ghost.scanSign) ∧
    (∀ (b : List Char) (s : PState),
      (markScanSign b s).ghost.scanSign = true ↔ (s.ghost.scanSign = true ∨ s.Str ≠ b)) ∧
    (atofSign ⟨"-5".toList, "-5".toList, [], [], 0, ghost0⟩).2.ghost.scanSign = true ∧
    parse VARIABLE "-5".toList =
      some ⟨PARSETREE.node UNOP 10 (numNode CONST 5) PARSETREE.NULL 0, 0, []⟩ ∧
    parse VARIABLE "25e--1".toList = some ⟨numNode CONST 250, 0, []⟩ := by
  obtain ⟨g, hg, _, hs⟩ := parseGhost_clean V inp
  refine ⟨⟨g, hg, hs⟩, ?_, ?_, markScanSign_scanSign, by decide!, by decide!, by decide!⟩
  · intro f s s2 t h
    exact ((kept_all _ f).1 s t s2 h).2
  · intro f s s2 t hns h
    exact ((kept_all _ f).2.2.2.2.2.2.2 s hns t s2 h).2

theorem scanner_sign_loop_dead_witness :
    (⟨[], "-5".toList, [], [], 0, ghost0⟩ : PState).ghost.scanSign =
      (⟨"-5".toList, "-5".toList, [], [], 0, ghost0⟩ : PState).ghost.scanSign :=
  (scanner_sign_loop_dead VARIABLE []).2.1 24 ⟨"-5".toList, "-5".toList, [], [], 0, ghost0⟩
    ⟨[], "-5".toList, [], [], 0, ghost0⟩
    (PARSETREE.node UNOP 10 (numNode CONST 5) PARSETREE.NULL 0) (by decide!)

/-- C20. The function `parse` terminates and stays inside its input. With `L` the number
of unread characters, fuel `8 * L + 8` makes `expr` return, and `8 * L` plus 7, 6, 5, 4,
3, 2 and 1 do so for `term`, `fact`, `part`, the division loop, `part2`, `get_constant` and
`func`: a layer is entered again at the same or a higher rank only with fewer unread
characters. Each returns with the cursor moved forward (`Run`), and so does `myAtof`,
whose sign loops end before their fuel does; `parse` returns for every input. The
statement `Str += n` records a step over more characters than are left; no layer of the
grammar makes such a step, and `parse` returns for every input without one: the cursor is
never moved past the terminator. -/
theorem parse_terminates_inside_input (N : List (List Char)) (f : Nat) :
    ((∀ s : PState, 8 * s.Str.length + 8 ≤ f → Returns s (expr N f s)) ∧
     (∀ s : PState, 8 * s.Str.length + 7 ≤ f → Returns s (term N f s)) ∧
     (∀ s : PState, 8 * s.Str.length + 6 ≤ f → Returns s (fact N f s)) ∧
     (∀ s : PState, 8 * s.Str.length + 5 ≤ f → Returns s (part N f s)) ∧
     (∀ (left : PARSETREE) (s : PState), 8 * s.Str.length + 4 ≤ f →
       (left = PARSETREE.NULL → s.ParseError ≠ 0) → Returns s (partLoop N f left s)) ∧
     (∀ s : PState, 8 * s.Str.length + 3 ≤ f → Returns s (part2 N f s)) ∧
     (∀ s : PState, 8 * s.Str.length + 2 ≤ f → Returns s (get_constant N f s)) ∧
     (∀ s : PState, 8 * s.Str.length + 1 ≤ f → Returns s (func N f s))) ∧
    (∀ s : PState, Run s (myAtof s).2) ∧
    (∀ (s : PState) (sign : Int), s.Str.length ≤ f →
      signLoop (f + 1) s sign = signLoop f s sign) ∧
    (∀ (V : List VarType) (inp : List Char), ∃ r : ParseResult, parse V inp = some r) ∧
    (∀ (n : Nat) (s : PState),
      (advance n s).ghost.past = true ↔ (s.ghost.past = true ∨ s.Str.length < n)) ∧
    (∀ (s s2 : PState) (t : PARSETREE), expr N f s = some (t, s2) →
      s2.ghost.past = s.ghost.past) ∧
    (∀ (s s2 : PState) (t : PARSETREE), get_constant N f s = some (t, s2) →
      s2.ghost.past = s.ghost.past) ∧
    (∀ (V : List VarType) (inp : List Char),
      ∃ g : Ghost, parseGhost V inp = some g ∧ g.past = false) := by
  refine ⟨returns_all N f, run_myAtof, signLoop_fuel f, parse_returns, advance_past, ?_, ?_, ?_⟩
  · intro s s2 t h
    exact ((kept_all N f).1 s t s2 h).1
  · intro s s2 t h
    exact ((kept_all N f).2.2.2.2.2.2.1 s t s2 h).1
  · intro V inp
    obtain ⟨g, hg, hp, _⟩ := parseGhost_clean V inp
    exact ⟨g, hg, hp⟩

theorem parse_terminates_inside_input_witness :
    Returns ⟨"(7)".toList, "(7)".toList, [], [], 0, ghost0⟩
      (expr (VARIABLE.map VarType.name) 32 ⟨"(7)".toList, "(7)".toList, [], [], 0, ghost0⟩) :=
  (parse_terminates_inside_input (VARIABLE.map VarType.name) 32).1.1
    ⟨"(7)".toList, "(7)".toList, [], [], 0, ghost0⟩ (by decide)

end ParseTree
